import Mathlib

set_option autoImplicit false

/-!
Shallow embedding of the weighted-graph container of this repository.

The repository holds two near-duplicate variants of the same `Graph`
class, `codigo_a.js` and `codigo_b.js`.  Their operations are embedded
below with an `A` suffix for the `codigo_a` variant and a `B` suffix for
the `codigo_b` variant.

Vertex and Edge are external collaborators (spec section 6): the Graph
references vertex and edge *objects* and keeps back-references
synchronized.  Object identity is modelled by natural-number ids.  A
state `St` carries two heaps (`vheap` for vertex objects, `eheap` for
edge objects) together with the graph's two registries (`gVertices`,
`gEdges`), which are JavaScript objects modelled as insertion-ordered
association lists, and the directedness flag.

Operations that can throw return the state at the moment of the throw
together with `some` error (a JavaScript exception propagates and keeps
all mutations made before it), and `none` on normal completion.
-/

abbrev VKey := String

/-- Derived edge key (spec section 6): a deterministic, direction-sensitive
function of the endpoint keys, modelled as the ordered pair of keys. -/
abbrev EKey := String × String

structure VertexData where
  key : VKey
  adj : List Nat
deriving DecidableEq, Repr

structure EdgeData where
  startV : Nat
  endV : Nat
  weight : Int
deriving DecidableEq, Repr

structure St where
  vheap : List (Nat × VertexData)
  eheap : List (Nat × EdgeData)
  gVertices : List (VKey × Nat)
  gEdges : List (EKey × Nat)
  isDirected : Bool
deriving DecidableEq, Repr

/-- JavaScript object read `m[k]`: the binding of key `k` (keys are unique
in a JavaScript object; the association list keeps the first binding). -/
def objGet {α β : Type} [DecidableEq α] (m : List (α × β)) (k : α) : Option β :=
  (m.find? (fun p => decide (p.1 = k))).map (fun p => p.2)

/-- JavaScript object write `m[k] = v`: overwrite in place when the key
exists, append otherwise (insertion order of keys is preserved). -/
def objSet {α β : Type} [DecidableEq α] (m : List (α × β)) (k : α) (v : β) : List (α × β) :=
  if m.any (fun p => decide (p.1 = k)) then
    m.map (fun p => if p.1 = k then (k, v) else p)
  else m ++ [(k, v)]

/-- JavaScript `delete m[k]`. -/
def objDelete {α β : Type} [DecidableEq α] (m : List (α × β)) (k : α) : List (α × β) :=
  m.filter (fun p => decide (¬ p.1 = k))

/-- JavaScript `Object.values(m)` (insertion order). -/
def objValues {α β : Type} (m : List (α × β)) : List β := m.map (fun p => p.2)

/-- JavaScript `Object.keys(m)` (insertion order). -/
def objKeys {α β : Type} (m : List (α × β)) : List α := m.map (fun p => p.1)

/-- Modelled from the spec: `Vertex.getKey()` — the stable key of a vertex
object (spec section 6).  A dangling reference defaults to `""`;
theorems only use it on objects present in the heap. -/
def keyOf (st : St) (vid : Nat) : VKey :=
  ((objGet st.vheap vid).map (fun v => v.key)).getD ""

/-- The adjacency bookkeeping of a vertex object (its incident-edge list). -/
def adjOf (st : St) (vid : Nat) : List Nat :=
  ((objGet st.vheap vid).map (fun v => v.adj)).getD []

/-- Modelled from the spec: `Vertex.addEdge(edge)` — records the edge in
the vertex object's own adjacency bookkeeping (spec section 6). -/
def vAddEdge (st : St) (vid eid : Nat) : St :=
  { st with vheap := st.vheap.map (fun p =>
      if p.1 = vid then (p.1, { p.2 with adj := p.2.adj ++ [eid] }) else p) }

/-- Modelled from the spec: `Vertex.deleteEdge(edge)` — drops the edge from
the vertex object's adjacency; a safe no-op when the edge is not present
(spec section 6). -/
def vDeleteEdge (st : St) (vid eid : Nat) : St :=
  { st with vheap := st.vheap.map (fun p =>
      if p.1 = vid then (p.1, { p.2 with adj := p.2.adj.filter (fun e => decide (¬ e = eid)) }) else p) }

/-- Modelled from the spec: `Vertex.getNeighbors()` — the other endpoint of
each incident edge (spec sections 6 and glossary).  An adjacency entry
with no matching edge (the internal-consistency breach of spec section 7)
reports the vertex itself. -/
def vNeighbors (st : St) (vid : Nat) : List Nat :=
  (adjOf st vid).map (fun eid =>
    match objGet st.eheap eid with
    | some ed => if ed.startV = vid then ed.endV else ed.startV
    | none => vid)

/-- Modelled from the spec: `Vertex.findEdge(endVertex)` — the first of the
vertex's own incident edges connecting it toward the given vertex
(spec section 6). -/
def vFindEdge (st : St) (vid target : Nat) : Option Nat :=
  (adjOf st vid).find? (fun eid =>
    match objGet st.eheap eid with
    | some ed => decide (ed.startV = target) || decide (ed.endV = target)
    | none => false)

/-- Modelled from the spec: `Edge.reverse()` — swaps the edge object's
endpoints in place (spec section 6). -/
def edgeReverse (st : St) (eid : Nat) : St :=
  { st with eheap := st.eheap.map (fun p =>
      if p.1 = eid then (p.1, { p.2 with startV := p.2.endV, endV := p.2.startV }) else p) }

/-- Modelled from the spec: `Edge.getKey()` — derived from the endpoint
keys, direction-sensitively (spec section 6). -/
def edgeKey (st : St) (eid : Nat) : EKey :=
  match objGet st.eheap eid with
  | some ed => (keyOf st ed.startV, keyOf st ed.endV)
  | none => ("", "")

def weightOf (st : St) (eid : Nat) : Int :=
  ((objGet st.eheap eid).map (fun e => e.weight)).getD 0

/-- Errors thrown by the Graph operations: the two named failures of spec
section 7, plus the JavaScript `TypeError` of a null dereference. -/
inductive GErr where
  | duplicateEdge
  | edgeNotFound
  | typeError
deriving DecidableEq, Repr

/-- `getVertexByKey` (both variants): registry lookup, null when absent. -/
def getVertexByKey (st : St) (k : VKey) : Option Nat :=
  objGet st.gVertices k

/-- `addVertex` (both variants): insert or overwrite under the vertex's key. -/
def addVertex (st : St) (vid : Nat) : St :=
  { st with gVertices := objSet st.gVertices (keyOf st vid) vid }

/-- `getAllVertices` (both variants). -/
def getAllVertices (st : St) : List Nat := objValues st.gVertices

/-- `getAllEdges` (both variants). -/
def getAllEdges (st : St) : List Nat := objValues st.gEdges

/-- `codigo_a.addEdge`: look both endpoints up by key first, register the
missing ones (refreshing only the variables that were null), then reject a
duplicate derived key, then register the edge and connect it to the
resolved vertex objects (both of them unless directed). -/
def addEdgeA (st : St) (eid : Nat) : St × Option GErr :=
  match objGet st.eheap eid with
  | none => (st, some GErr.typeError)
  | some ed =>
    let sk := keyOf st ed.startV
    let ek := keyOf st ed.endV
    let sv0 := getVertexByKey st sk
    let ev0 := getVertexByKey st ek
    let st1 := if sv0.isNone then addVertex st ed.startV else st
    let sv1 := if sv0.isNone then getVertexByKey st1 sk else sv0
    let st2 := if ev0.isNone then addVertex st1 ed.endV else st1
    let ev1 := if ev0.isNone then getVertexByKey st2 ek else ev0
    match sv1, ev1 with
    | some sv, some ev =>
      if (objGet st2.gEdges (sk, ek)).isSome then (st2, some GErr.duplicateEdge)
      else
        let st3 := { st2 with gEdges := objSet st2.gEdges (sk, ek) eid }
        let st4 := if st3.isDirected then vAddEdge st3 sv eid
                   else vAddEdge (vAddEdge st3 sv eid) ev eid
        (st4, none)
    | _, _ => (st2, some GErr.typeError)

/-- `codigo_b._ensureVertexExists`: register the vertex when its key is not
yet in the registry. -/
def ensureVertexExists (st : St) (vid : Nat) : St :=
  if (getVertexByKey st (keyOf st vid)).isNone then addVertex st vid else st

/-- `codigo_b.addEdge`: reject a duplicate derived key first, then register
the edge, ensure the endpoints exist, and connect the edge's own endpoint
objects (both of them unless directed). -/
def addEdgeB (st : St) (eid : Nat) : St × Option GErr :=
  match objGet st.eheap eid with
  | none => (st, some GErr.typeError)
  | some ed =>
    let sk := keyOf st ed.startV
    let ek := keyOf st ed.endV
    if (objGet st.gEdges (sk, ek)).isSome then (st, some GErr.duplicateEdge)
    else
      let st1 := { st with gEdges := objSet st.gEdges (sk, ek) eid }
      let st2 := ensureVertexExists st1 ed.startV
      let st3 := ensureVertexExists st2 ed.endV
      let st4 := vAddEdge st3 ed.startV eid
      let st5 := if st4.isDirected then st4 else vAddEdge st4 ed.endV eid
      (st5, none)

/-- `codigo_a.deleteEdge`: remove the key from the edge registry (throwing
when absent), look the endpoints up in the vertex registry and make them
drop the edge; a null lookup makes the corresponding dereference throw,
keeping the mutations made before it. -/
def deleteEdgeA (st : St) (eid : Nat) : St × Option GErr :=
  match objGet st.eheap eid with
  | none => (st, some GErr.typeError)
  | some ed =>
    let sk := keyOf st ed.startV
    let ek := keyOf st ed.endV
    if (objGet st.gEdges (sk, ek)).isSome then
      let st1 := { st with gEdges := objDelete st.gEdges (sk, ek) }
      match getVertexByKey st1 sk, getVertexByKey st1 ek with
      | some sv, some ev => (vDeleteEdge (vDeleteEdge st1 sv eid) ev eid, none)
      | some sv, none => (vDeleteEdge st1 sv eid, some GErr.typeError)
      | none, _ => (st1, some GErr.typeError)
    else (st, some GErr.edgeNotFound)

/-- `codigo_b.deleteEdge`: throw when the key is absent, otherwise remove
it and make the edge's own endpoint objects drop the edge. -/
def deleteEdgeB (st : St) (eid : Nat) : St × Option GErr :=
  match objGet st.eheap eid with
  | none => (st, some GErr.typeError)
  | some ed =>
    let sk := keyOf st ed.startV
    let ek := keyOf st ed.endV
    if (objGet st.gEdges (sk, ek)).isSome then
      let st1 := { st with gEdges := objDelete st.gEdges (sk, ek) }
      let st2 := vDeleteEdge st1 ed.startV eid
      (vDeleteEdge st2 ed.endV eid, none)
    else (st, some GErr.edgeNotFound)

/-- `codigo_a.findEdge`: resolve the start vertex by key in the registry;
null when unregistered, otherwise delegate to the registered vertex. -/
def findEdgeA (st : St) (svid evid : Nat) : Option Nat :=
  match getVertexByKey st (keyOf st svid) with
  | none => none
  | some v => vFindEdge st v evid

/-- `codigo_b.findEdge`: delegate to the passed start vertex object itself
(optional chaining folds a missing object to null). -/
def findEdgeB (st : St) (svid evid : Nat) : Option Nat :=
  vFindEdge st svid evid

/-- `codigo_a.getWeight`: reduce of the edge weights over `getAllEdges`. -/
def getWeightA (st : St) : Int :=
  (getAllEdges st).foldl (fun w eid => w + weightOf st eid) 0

/-- `codigo_b.getWeight`: reduce of the edge weights over `getAllEdges`. -/
def getWeightB (st : St) : Int :=
  (getAllEdges st).foldl (fun total eid => total + weightOf st eid) 0

/-- The per-edge body of `reverse` shared by the loop of both variants:
delete the edge, flip its endpoints in place, re-add it; a thrown error
aborts the remaining iterations. -/
def reverseStepsA : St → List Nat → St × Option GErr
  | st, [] => (st, none)
  | st, eid :: rest =>
    match deleteEdgeA st eid with
    | (st1, some e) => (st1, some e)
    | (st1, none) =>
      let st2 := edgeReverse st1 eid
      match addEdgeA st2 eid with
      | (st3, some e) => (st3, some e)
      | (st3, none) => reverseStepsA st3 rest

/-- `codigo_a.reverse`: iterate over the materialized `getAllEdges()`
snapshot. -/
def reverseA (st : St) : St × Option GErr :=
  reverseStepsA st (getAllEdges st)

def reverseStepsB : St → List Nat → St × Option GErr
  | st, [] => (st, none)
  | st, eid :: rest =>
    match deleteEdgeB st eid with
    | (st1, some e) => (st1, some e)
    | (st1, none) =>
      let st2 := edgeReverse st1 eid
      match addEdgeB st2 eid with
      | (st3, some e) => (st3, some e)
      | (st3, none) => reverseStepsB st3 rest

/-- `codigo_b.reverse`: iterate over a copy of the `getAllEdges()` snapshot. -/
def reverseB (st : St) : St × Option GErr :=
  reverseStepsB st (getAllEdges st)

/-- `getVerticesIndices` (both variants): vertex key to position in the
`getAllVertices` order. -/
def getVerticesIndices (st : St) : List (VKey × Nat) :=
  (getAllVertices st).enum.foldl (fun acc p => objSet acc (keyOf st p.2) p.1) []

/-- Matrix cells: `none` stands for the `Infinity` sentinel (no edge). -/
abbrev Mat := List (List (Option Int))

deriving instance DecidableEq for Except

/-- Cell write `m[i][j] = v` (an in-bounds write; out-of-bounds index
writes, which JavaScript turns into invisible property writes, leave the
matrix unchanged, matching `List.set`). -/
def mset (m : Mat) (i j : Nat) (v : Option Int) : Mat :=
  m.set i ((m.getD i []).set j v)

/-- Cell read `m[i][j]`. -/
def mget (m : Mat) (i j : Nat) : Option Int :=
  (m.getD i []).getD j none

/-- The inner neighbor loop of `codigo_a.getAdjacencyMatrix` for the vertex
at row `i`: reading `.weight` of a failed `findEdge` throws; a neighbor
key missing from the index map makes the write invisible. -/
def fillCellsA (st : St) (idx : List (VKey × Nat)) (vid i : Nat) :
    List Nat → Mat → Except GErr Mat
  | [], m => Except.ok m
  | nb :: rest, m =>
    match findEdgeA st vid nb with
    | none => Except.error GErr.typeError
    | some eid =>
      let m1 := match objGet idx (keyOf st nb) with
        | some j => mset m i j (some (weightOf st eid))
        | none => m
      fillCellsA st idx vid i rest m1

/-- The outer vertex loop of `codigo_a.getAdjacencyMatrix` (row index from
the iteration position). -/
def fillRowsA (st : St) (idx : List (VKey × Nat)) :
    List (Nat × Nat) → Mat → Except GErr Mat
  | [], m => Except.ok m
  | p :: rest, m =>
    match fillCellsA st idx p.2 p.1 (vNeighbors st p.2) m with
    | Except.error e => Except.error e
    | Except.ok m1 => fillRowsA st idx rest m1

/-- `codigo_a.getAdjacencyMatrix`: an N by N matrix filled with the
`Infinity` sentinel, then populated from each vertex's neighbors. -/
def getAdjacencyMatrixA (st : St) : Except GErr Mat :=
  let vids := getAllVertices st
  let idx := getVerticesIndices st
  let init : Mat := vids.map (fun _ => vids.map (fun _ => (none : Option Int)))
  fillRowsA st idx vids.enum init

/-- The inner neighbor loop of `codigo_b.getAdjacencyMatrix`: a failed
`findEdge` silently becomes the `Infinity` sentinel; the row is addressed
through the index map (a missing row index would dereference undefined). -/
def fillCellsB (st : St) (idx : List (VKey × Nat)) (vid : Nat) :
    List Nat → Mat → Except GErr Mat
  | [], m => Except.ok m
  | nb :: rest, m =>
    let w : Option Int := (findEdgeB st vid nb).map (fun eid => weightOf st eid)
    match objGet idx (keyOf st vid) with
    | none => Except.error GErr.typeError
    | some i =>
      let m1 := match objGet idx (keyOf st nb) with
        | some j => mset m i j w
        | none => m
      fillCellsB st idx vid rest m1

/-- The outer vertex loop of `codigo_b.getAdjacencyMatrix`. -/
def fillRowsB (st : St) (idx : List (VKey × Nat)) :
    List Nat → Mat → Except GErr Mat
  | [], m => Except.ok m
  | vid :: rest, m =>
    match fillCellsB st idx vid (vNeighbors st vid) m with
    | Except.error e => Except.error e
    | Except.ok m1 => fillRowsB st idx rest m1

/-- `codigo_b.getAdjacencyMatrix`. -/
def getAdjacencyMatrixB (st : St) : Except GErr Mat :=
  let vids := getAllVertices st
  let idx := getVerticesIndices st
  let init : Mat := vids.map (fun _ => vids.map (fun _ => (none : Option Int)))
  fillRowsB st idx vids init

/-- The endpoint swap performed by `Edge.reverse()`, as a pure function on
edge data. -/
def swapEnds (e : EdgeData) : EdgeData :=
  { e with startV := e.endV, endV := e.startV }

/-- `adj`-only update of a vertex object, as a pure function on vertex
data: append an incident edge. -/
def adjPush (eid : Nat) (v : VertexData) : VertexData :=
  { v with adj := v.adj ++ [eid] }

/-- `adj`-only update of a vertex object: drop an incident edge. -/
def adjDrop (eid : Nat) (v : VertexData) : VertexData :=
  { v with adj := v.adj.filter (fun e => decide (¬ e = eid)) }

/-! ## Registry predicates -/

/-- The keys currently registered in the vertex registry. -/
def vkeys (st : St) : List VKey := objKeys st.gVertices

/-- The derived keys currently registered in the edge registry. -/
def ekeys (st : St) : List EKey := objKeys st.gEdges

/-- Spec section 3 invariant: every edge present in the edge registry has
both endpoint keys present in the vertex registry. -/
def EndpointsReg (st : St) : Prop :=
  ∀ p ∈ st.gEdges, p.1.1 ∈ vkeys st ∧ p.1.2 ∈ vkeys st

/-- Every vertex-registry slot holds an existing vertex object whose key
is the slot's key. -/
def VertOk (st : St) : Prop :=
  ∀ p ∈ st.gVertices, (objGet st.vheap p.2).map (fun v => v.key) = some p.1

/-- The derived key of an edge object, requiring the edge and both its
endpoint objects to exist. -/
def edgeKeyChk (st : St) (eid : Nat) : Option EKey :=
  (objGet st.eheap eid).bind (fun ed =>
    ((objGet st.vheap ed.startV).map (fun v => v.key)).bind (fun a =>
      ((objGet st.vheap ed.endV).map (fun v => v.key)).map (fun b => (a, b))))

/-- Every edge-registry slot holds an existing edge object (with existing
endpoint objects) whose derived key is the slot's key. -/
def EdgeOk (st : St) : Prop :=
  ∀ p ∈ st.gEdges, edgeKeyChk st p.2 = some p.1

def NodupVK (st : St) : Prop := (vkeys st).Nodup

def NodupEK (st : St) : Prop := (ekeys st).Nodup

def NodupEId (st : St) : Prop := (objValues st.gEdges).Nodup

/-- Adjacency soundness (spec section 3, bijective consistency): every
entry of a registered vertex's adjacency corresponds to a registered edge,
registered under a key that has this vertex on its start side (or on
either side when the graph is undirected). -/
def AdjOk (st : St) : Prop :=
  ∀ p ∈ st.gVertices, ∀ eid ∈ adjOf st p.2,
    ∃ q ∈ st.gEdges, q.2 = eid ∧
      (q.1.1 = p.1 ∨ (st.isDirected = false ∧ q.1.2 = p.1))

/-- No two registered edges have mutually reversed keys (a pair of
antiparallel edges); a self-loop key is its own reverse and is allowed. -/
def AntisymEK (st : St) : Prop :=
  ∀ k ∈ ekeys st, (k.2, k.1) ∈ ekeys st → k.1 = k.2

/-- Every registered edge is recorded in the adjacency of the registry
vertices of both its key components (the undirected incidence invariant,
phrased on registry-resolved vertices as `codigo_a` maintains it). -/
def IncidA (st : St) : Prop :=
  ∀ p ∈ st.gEdges, ∀ q ∈ st.gVertices,
    (q.1 = p.1.1 ∨ q.1 = p.1.2) → p.2 ∈ adjOf st q.2

/-- Every registered edge is recorded in the adjacency of its own endpoint
objects (the undirected incidence invariant as `codigo_b` maintains it). -/
def IncidB (st : St) : Prop :=
  ∀ p ∈ st.gEdges, ∀ q ∈ st.eheap, q.1 = p.2 →
    p.2 ∈ adjOf st q.2.startV ∧ p.2 ∈ adjOf st q.2.endV

instance (st : St) : Decidable (EndpointsReg st) :=
  inferInstanceAs (Decidable (∀ p ∈ st.gEdges, p.1.1 ∈ vkeys st ∧ p.1.2 ∈ vkeys st))

instance (st : St) : Decidable (VertOk st) :=
  inferInstanceAs (Decidable (∀ p ∈ st.gVertices,
    (objGet st.vheap p.2).map (fun v => v.key) = some p.1))

instance (st : St) : Decidable (EdgeOk st) :=
  inferInstanceAs (Decidable (∀ p ∈ st.gEdges, edgeKeyChk st p.2 = some p.1))

instance (st : St) : Decidable (NodupVK st) :=
  inferInstanceAs (Decidable ((vkeys st).Nodup))

instance (st : St) : Decidable (NodupEK st) :=
  inferInstanceAs (Decidable ((ekeys st).Nodup))

instance (st : St) : Decidable (NodupEId st) :=
  inferInstanceAs (Decidable ((objValues st.gEdges).Nodup))

/-- No vertex object is registered under two different keys. -/
def NodupVId (st : St) : Prop := (objValues st.gVertices).Nodup

instance (st : St) : Decidable (AdjOk st) :=
  inferInstanceAs (Decidable (∀ p ∈ st.gVertices, ∀ eid ∈ adjOf st p.2,
    ∃ q ∈ st.gEdges, q.2 = eid ∧
      (q.1.1 = p.1 ∨ (st.isDirected = false ∧ q.1.2 = p.1))))

instance (st : St) : Decidable (NodupVId st) :=
  inferInstanceAs (Decidable ((objValues st.gVertices).Nodup))

instance (st : St) : Decidable (AntisymEK st) :=
  inferInstanceAs (Decidable (∀ k ∈ ekeys st, (k.2, k.1) ∈ ekeys st → k.1 = k.2))

instance (st : St) : Decidable (IncidA st) :=
  inferInstanceAs (Decidable (∀ p ∈ st.gEdges, ∀ q ∈ st.gVertices,
    (q.1 = p.1.1 ∨ q.1 = p.1.2) → p.2 ∈ adjOf st q.2))

instance (st : St) : Decidable (IncidB st) :=
  inferInstanceAs (Decidable (∀ p ∈ st.gEdges, ∀ q ∈ st.eheap, q.1 = p.2 →
    p.2 ∈ adjOf st q.2.startV ∧ p.2 ∈ adjOf st q.2.endV))

/-- A graph with no registered vertices or edges and no allocated objects. -/
def emptySt (d : Bool) : St :=
  { vheap := [], eheap := [], gVertices := [], gEdges := [], isDirected := d }

/-- States reachable with the `codigo_a` variant: from an empty graph,
allocating fresh collaborator objects (vertices start with an empty
adjacency) and applying the public mutating operations, whether they
complete or throw. -/
inductive ReachableA : St → Prop where
  | empty (d : Bool) : ReachableA (emptySt d)
  | allocV (st : St) (k : VKey) (vid : Nat) : ReachableA st →
      objGet st.vheap vid = none →
      ReachableA { st with vheap := st.vheap ++ [(vid, ⟨k, []⟩)] }
  | allocE (st : St) (ed : EdgeData) (eid : Nat) : ReachableA st →
      objGet st.eheap eid = none →
      ReachableA { st with eheap := st.eheap ++ [(eid, ed)] }
  | addV (st : St) (vid : Nat) : ReachableA st → ReachableA (addVertex st vid)
  | addE (st : St) (eid : Nat) : ReachableA st → ReachableA (addEdgeA st eid).1
  | delE (st : St) (eid : Nat) : ReachableA st → ReachableA (deleteEdgeA st eid).1
  | rev (st : St) : ReachableA st → ReachableA (reverseA st).1

/-- States reachable with the `codigo_b` variant. -/
inductive ReachableB : St → Prop where
  | empty (d : Bool) : ReachableB (emptySt d)
  | allocV (st : St) (k : VKey) (vid : Nat) : ReachableB st →
      objGet st.vheap vid = none →
      ReachableB { st with vheap := st.vheap ++ [(vid, ⟨k, []⟩)] }
  | allocE (st : St) (ed : EdgeData) (eid : Nat) : ReachableB st →
      objGet st.eheap eid = none →
      ReachableB { st with eheap := st.eheap ++ [(eid, ed)] }
  | addV (st : St) (vid : Nat) : ReachableB st → ReachableB (addVertex st vid)
  | addE (st : St) (eid : Nat) : ReachableB st → ReachableB (addEdgeB st eid).1
  | delE (st : St) (eid : Nat) : ReachableB st → ReachableB (deleteEdgeB st eid).1
  | rev (st : St) : ReachableB st → ReachableB (reverseB st).1

/-! ## Concrete example states -/

/-- Three allocated vertex objects `a`, `b`, `c` and three allocated edge
objects (`a` to `b` weight 5, `b` to `a` weight 7, `b` to `c` weight 2);
registries empty; directed. -/
def exA : St :=
  { vheap := [(0, ⟨"a", []⟩), (1, ⟨"b", []⟩), (2, ⟨"c", []⟩)],
    eheap := [(10, ⟨0, 1, 5⟩), (11, ⟨1, 0, 7⟩), (12, ⟨1, 2, 2⟩)],
    gVertices := [], gEdges := [], isDirected := true }

/-- The undirected twin of `exA`. -/
def exAU : St := { exA with isDirected := false }

/-- A registered vertex object `0` with key `a` and no incident edges,
alongside a distinct unregistered vertex object `1` with the same key
shape (key `c`) that itself holds the incident edge `7` toward the
registered vertex `b`. -/
def exAlias : St :=
  { vheap := [(0, ⟨"a", []⟩), (1, ⟨"c", [7]⟩), (2, ⟨"b", []⟩)],
    eheap := [(7, ⟨1, 2, 3⟩)],
    gVertices := [("a", 0), ("b", 2)], gEdges := [], isDirected := true }

/-- A registered vertex whose adjacency holds the entry `5` with no
matching edge (the internal-consistency breach of spec section 7). -/
def exDangling : St :=
  { vheap := [(0, ⟨"a", [5]⟩)], eheap := [],
    gVertices := [("a", 0)], gEdges := [], isDirected := true }

/-- Two registered vertices `a` (object 0) and `b` (object 1) with empty
adjacencies, plus an allocated edge object 10 from `a` to `b` with
weight 5; no edges registered; directed. -/
def exC5 : St :=
  { vheap := [(0, ⟨"a", []⟩), (1, ⟨"b", []⟩)],
    eheap := [(10, ⟨0, 1, 5⟩)],
    gVertices := [("a", 0), ("b", 1)], gEdges := [], isDirected := true }

/-- Registering an edge under a key absent from the edge registry appends
the binding (the `objSet` append case). -/
def regE (st : St) (k : EKey) (eid : Nat) : St :=
  { st with gEdges := st.gEdges ++ [(k, eid)] }

/-! ## Association-list lemmas -/

theorem objGet_nil {α β : Type} [DecidableEq α] (k : α) :
    objGet ([] : List (α × β)) k = none := rfl

theorem objGet_cons {α β : Type} [DecidableEq α] (p : α × β) (m : List (α × β)) (k : α) :
    objGet (p :: m) k = if p.1 = k then some p.2 else objGet m k := by
  by_cases h : p.1 = k <;> simp [objGet, List.find?, h]

theorem objGet_append {α β : Type} [DecidableEq α] (m1 m2 : List (α × β)) (k : α) :
    objGet (m1 ++ m2) k = match objGet m1 k with
      | some v => some v
      | none => objGet m2 k := by
  induction m1 with
  | nil => simp [objGet_nil]
  | cons p t ih =>
    by_cases h : p.1 = k <;> simp [objGet_cons, h, ih]

theorem objGet_isSome_iff {α β : Type} [DecidableEq α] (m : List (α × β)) (k : α) :
    (objGet m k).isSome = true ↔ k ∈ objKeys m := by
  induction m with
  | nil => simp [objGet_nil, objKeys]
  | cons p t ih =>
    by_cases h : p.1 = k
    · simp [objGet_cons, h, objKeys]
    · simp only [objGet_cons, h, if_false, objKeys, List.map_cons, List.mem_cons]
      rw [ih]
      simp [objKeys]
      intro e
      exact absurd e.symm h

theorem objGet_eq_none_iff {α β : Type} [DecidableEq α] (m : List (α × β)) (k : α) :
    objGet m k = none ↔ ¬ k ∈ objKeys m := by
  rw [← objGet_isSome_iff]
  cases objGet m k <;> simp

theorem objGet_mem_of_some {α β : Type} [DecidableEq α] {m : List (α × β)} {k : α} {v : β}
    (h : objGet m k = some v) : (k, v) ∈ m := by
  induction m with
  | nil => simp [objGet_nil] at h
  | cons p t ih =>
    by_cases hp : p.1 = k
    · rw [objGet_cons, if_pos hp] at h
      injection h with h2
      rw [List.mem_cons]
      left
      rw [← hp, ← h2]
    · rw [objGet_cons, if_neg hp] at h
      exact List.mem_cons_of_mem _ (ih h)

theorem objSet_of_not_mem {α β : Type} [DecidableEq α] {m : List (α × β)} {k : α} (v : β)
    (h : ¬ k ∈ objKeys m) : objSet m k v = m ++ [(k, v)] := by
  have hany : m.any (fun p => decide (p.1 = k)) = false := by
    rw [List.any_eq_false]
    intro p hp
    simp only [decide_eq_true_eq]
    intro e
    exact h (e ▸ List.mem_map_of_mem (fun q => q.1) hp)
  simp [objSet, hany]

theorem objKeys_cons {α β : Type} (p : α × β) (m : List (α × β)) :
    objKeys (p :: m) = p.1 :: objKeys m := rfl

theorem objKeys_mapset {α β : Type} [DecidableEq α] (m : List (α × β)) (k : α) (v : β) :
    objKeys (m.map (fun p => if p.1 = k then (k, v) else p)) = objKeys m := by
  induction m with
  | nil => rfl
  | cons p t ih =>
    by_cases h : p.1 = k
    · rw [List.map_cons, if_pos h, objKeys_cons, objKeys_cons, ih, h]
    · rw [List.map_cons, if_neg h, objKeys_cons, objKeys_cons, ih]

theorem objSet_keys_mem {α β : Type} [DecidableEq α] (m : List (α × β)) (k : α) (v : β) :
    ∀ a, a ∈ objKeys (objSet m k v) ↔ (a ∈ objKeys m ∨ a = k) := by
  intro a
  by_cases hm : m.any (fun p => decide (p.1 = k)) = true
  · have hk : k ∈ objKeys m := by
      rw [List.any_eq_true] at hm
      obtain ⟨p, hp, he⟩ := hm
      rw [decide_eq_true_eq] at he
      exact he ▸ List.mem_map_of_mem (fun q => q.1) hp
    simp only [objSet, hm, if_true, objKeys_mapset]
    constructor
    · exact Or.inl
    · rintro (hh | hh)
      · exact hh
      · exact hh ▸ hk
  · rw [Bool.not_eq_true] at hm
    simp only [objSet, hm, Bool.false_eq_true, if_false, objKeys, List.map_append]
    simp [List.mem_append]

theorem objGet_mapset_self {α β : Type} [DecidableEq α] (m : List (α × β)) (k : α) (v : β) :
    objGet (m.map (fun p => if p.1 = k then (k, v) else p)) k =
      if k ∈ objKeys m then some v else none := by
  induction m with
  | nil => simp [objGet_nil, objKeys]
  | cons p t ih =>
    by_cases h : p.1 = k
    · simp [objGet_cons, h, objKeys]
    · rw [List.map_cons, if_neg h, objGet_cons, if_neg h, ih]
      have hk2 : ¬ k = p.1 := fun e => h e.symm
      rw [objKeys_cons]
      by_cases hmem : k ∈ objKeys t
      · rw [if_pos hmem, if_pos (List.mem_cons_of_mem _ hmem)]
      · have hmem2 : ¬ k ∈ p.1 :: objKeys t := by
          rw [List.mem_cons]
          rintro (e | e)
          · exact hk2 e
          · exact hmem e
        rw [if_neg hmem, if_neg hmem2]

theorem objGet_mapset_ne {α β : Type} [DecidableEq α] (m : List (α × β)) (k : α) (v : β)
    {a : α} (h : ¬ a = k) :
    objGet (m.map (fun p => if p.1 = k then (k, v) else p)) a = objGet m a := by
  induction m with
  | nil => rfl
  | cons p t ih =>
    by_cases hp : p.1 = k
    · have hka : ¬ k = a := fun e => h e.symm
      have hpa : ¬ p.1 = a := fun e => h (by rw [← e, hp])
      simp [List.map_cons, hp, objGet_cons, hka, hpa, ih]
    · by_cases hpa : p.1 = a
      · subst hpa
        simp [List.map_cons, hp, objGet_cons, ih]
      · simp [List.map_cons, hp, objGet_cons, hpa, ih]

theorem objGet_objSet_self {α β : Type} [DecidableEq α] (m : List (α × β)) (k : α) (v : β) :
    objGet (objSet m k v) k = some v := by
  by_cases hm : m.any (fun p => decide (p.1 = k)) = true
  · have hk : k ∈ objKeys m := by
      rw [List.any_eq_true] at hm
      obtain ⟨p, hp, he⟩ := hm
      rw [decide_eq_true_eq] at he
      exact he ▸ List.mem_map_of_mem (fun q => q.1) hp
    simp [objSet, hm, objGet_mapset_self, hk]
  · rw [Bool.not_eq_true] at hm
    simp only [objSet, hm, Bool.false_eq_true, if_false]
    rw [objGet_append]
    have hnone : objGet m k = none := by
      rw [objGet_eq_none_iff]
      intro hk
      obtain ⟨p, hp, he⟩ := List.mem_map.mp hk
      rw [List.any_eq_false] at hm
      have := hm p hp
      rw [decide_eq_true_eq] at this
      exact this he
    simp [hnone, objGet_cons]

theorem objGet_objSet_ne {α β : Type} [DecidableEq α] (m : List (α × β)) (k : α) (v : β)
    {a : α} (h : ¬ a = k) : objGet (objSet m k v) a = objGet m a := by
  by_cases hm : m.any (fun p => decide (p.1 = k)) = true
  · simp [objSet, hm, objGet_mapset_ne _ _ _ h]
  · rw [Bool.not_eq_true] at hm
    simp only [objSet, hm, Bool.false_eq_true, if_false]
    rw [objGet_append]
    cases hg : objGet m a with
    | some v2 => rfl
    | none =>
      have hka : ¬ k = a := fun e => h e.symm
      simp [objGet_cons, hka, objGet_nil]

theorem objDelete_nil {α β : Type} [DecidableEq α] (k : α) :
    objDelete ([] : List (α × β)) k = [] := rfl

theorem objDelete_cons {α β : Type} [DecidableEq α] (p : α × β) (m : List (α × β)) (k : α) :
    objDelete (p :: m) k = if p.1 = k then objDelete m k else p :: objDelete m k := by
  by_cases h : p.1 = k <;> simp [objDelete, List.filter, h]

theorem objGet_objDelete_self {α β : Type} [DecidableEq α] (m : List (α × β)) (k : α) :
    objGet (objDelete m k) k = none := by
  induction m with
  | nil => rfl
  | cons p t ih =>
    by_cases h : p.1 = k
    · rw [objDelete_cons, if_pos h]
      exact ih
    · rw [objDelete_cons, if_neg h, objGet_cons, if_neg h]
      exact ih

theorem objGet_objDelete_ne {α β : Type} [DecidableEq α] (m : List (α × β)) (k : α)
    {a : α} (h : ¬ a = k) : objGet (objDelete m k) a = objGet m a := by
  induction m with
  | nil => rfl
  | cons p t ih =>
    by_cases hp : p.1 = k
    · have hpa : ¬ p.1 = a := fun e => h (by rw [← e, hp])
      rw [objDelete_cons, if_pos hp, objGet_cons, if_neg hpa]
      exact ih
    · rw [objDelete_cons, if_neg hp, objGet_cons, objGet_cons, ih]

theorem objKeys_objDelete_sub {α β : Type} [DecidableEq α] (m : List (α × β)) (k : α) :
    ∀ a, a ∈ objKeys (objDelete m k) → a ∈ objKeys m := by
  intro a ha
  obtain ⟨p, hp, he⟩ := List.mem_map.mp ha
  exact he ▸ List.mem_map_of_mem _ (List.mem_of_mem_filter hp)

/-! ## State-update lemmas -/

theorem objGet_adjust_self {α β : Type} [DecidableEq α] (m : List (α × β)) (k : α) (g : β → β) :
    objGet (m.map (fun p => if p.1 = k then (p.1, g p.2) else p)) k = (objGet m k).map g := by
  induction m with
  | nil => rfl
  | cons p t ih =>
    by_cases hp : p.1 = k
    · simp [objGet_cons, hp, ih]
    · simp [objGet_cons, hp, ih]

theorem objGet_adjust_ne {α β : Type} [DecidableEq α] (m : List (α × β)) (k : α) (g : β → β)
    {a : α} (h : ¬ a = k) :
    objGet (m.map (fun p => if p.1 = k then (p.1, g p.2) else p)) a = objGet m a := by
  induction m with
  | nil => rfl
  | cons p t ih =>
    by_cases hp : p.1 = k
    · have hpa : ¬ p.1 = a := fun e => h (by rw [← e, hp])
      have hka : ¬ k = a := fun e => h e.symm
      simp [objGet_cons, hp, hpa, hka, ih]
    · by_cases hpa : p.1 = a
      · subst hpa
        simp [objGet_cons, hp, ih]
      · simp [objGet_cons, hp, hpa, ih]

theorem vAddEdge_vheap_get (st : St) (vid eid a : Nat) :
    objGet (vAddEdge st vid eid).vheap a =
      if a = vid then (objGet st.vheap a).map (adjPush eid) else objGet st.vheap a := by
  by_cases h : a = vid
  · subst h
    simp only [vAddEdge, if_pos rfl]
    exact objGet_adjust_self st.vheap a (adjPush eid)
  · simp only [vAddEdge, if_neg h]
    exact objGet_adjust_ne st.vheap vid (adjPush eid) h

theorem vDeleteEdge_vheap_get (st : St) (vid eid a : Nat) :
    objGet (vDeleteEdge st vid eid).vheap a =
      if a = vid then (objGet st.vheap a).map (adjDrop eid) else objGet st.vheap a := by
  by_cases h : a = vid
  · subst h
    simp only [vDeleteEdge, if_pos rfl]
    exact objGet_adjust_self st.vheap a (adjDrop eid)
  · simp only [vDeleteEdge, if_neg h]
    exact objGet_adjust_ne st.vheap vid (adjDrop eid) h

theorem edgeReverse_eheap_get (st : St) (eid a : Nat) :
    objGet (edgeReverse st eid).eheap a =
      if a = eid then (objGet st.eheap a).map swapEnds else objGet st.eheap a := by
  by_cases h : a = eid
  · subst h
    simp only [edgeReverse, if_pos rfl]
    exact objGet_adjust_self st.eheap a swapEnds
  · simp only [edgeReverse, if_neg h]
    exact objGet_adjust_ne st.eheap eid swapEnds h

theorem vAddEdge_gVertices (st : St) (vid eid : Nat) :
    (vAddEdge st vid eid).gVertices = st.gVertices := rfl

theorem vAddEdge_gEdges (st : St) (vid eid : Nat) :
    (vAddEdge st vid eid).gEdges = st.gEdges := rfl

theorem vAddEdge_eheap (st : St) (vid eid : Nat) :
    (vAddEdge st vid eid).eheap = st.eheap := rfl

theorem vAddEdge_isDirected (st : St) (vid eid : Nat) :
    (vAddEdge st vid eid).isDirected = st.isDirected := rfl

theorem vDeleteEdge_gVertices (st : St) (vid eid : Nat) :
    (vDeleteEdge st vid eid).gVertices = st.gVertices := rfl

theorem vDeleteEdge_gEdges (st : St) (vid eid : Nat) :
    (vDeleteEdge st vid eid).gEdges = st.gEdges := rfl

theorem vDeleteEdge_eheap (st : St) (vid eid : Nat) :
    (vDeleteEdge st vid eid).eheap = st.eheap := rfl

theorem vDeleteEdge_isDirected (st : St) (vid eid : Nat) :
    (vDeleteEdge st vid eid).isDirected = st.isDirected := rfl

theorem edgeReverse_vheap (st : St) (eid : Nat) :
    (edgeReverse st eid).vheap = st.vheap := rfl

theorem edgeReverse_gVertices (st : St) (eid : Nat) :
    (edgeReverse st eid).gVertices = st.gVertices := rfl

theorem edgeReverse_gEdges (st : St) (eid : Nat) :
    (edgeReverse st eid).gEdges = st.gEdges := rfl

theorem edgeReverse_isDirected (st : St) (eid : Nat) :
    (edgeReverse st eid).isDirected = st.isDirected := rfl

theorem addVertex_vheap (st : St) (vid : Nat) : (addVertex st vid).vheap = st.vheap := rfl

theorem addVertex_eheap (st : St) (vid : Nat) : (addVertex st vid).eheap = st.eheap := rfl

theorem addVertex_gEdges (st : St) (vid : Nat) : (addVertex st vid).gEdges = st.gEdges := rfl

theorem addVertex_isDirected (st : St) (vid : Nat) :
    (addVertex st vid).isDirected = st.isDirected := rfl

theorem keyOf_vAddEdge (st : St) (vid eid a : Nat) :
    keyOf (vAddEdge st vid eid) a = keyOf st a := by
  unfold keyOf
  rw [vAddEdge_vheap_get]
  by_cases h : a = vid
  · rw [if_pos h]
    cases objGet st.vheap a <;> simp [adjPush]
  · rw [if_neg h]

theorem keyOf_vDeleteEdge (st : St) (vid eid a : Nat) :
    keyOf (vDeleteEdge st vid eid) a = keyOf st a := by
  unfold keyOf
  rw [vDeleteEdge_vheap_get]
  by_cases h : a = vid
  · rw [if_pos h]
    cases objGet st.vheap a <;> simp [adjDrop]
  · rw [if_neg h]

theorem keyOf_edgeReverse (st : St) (eid a : Nat) :
    keyOf (edgeReverse st eid) a = keyOf st a := rfl

theorem adjOf_vAddEdge_ne (st : St) (vid eid : Nat) {a : Nat} (h : ¬ a = vid) :
    adjOf (vAddEdge st vid eid) a = adjOf st a := by
  unfold adjOf
  rw [vAddEdge_vheap_get, if_neg h]

theorem adjOf_vAddEdge_self (st : St) (vid eid : Nat)
    (h : (objGet st.vheap vid).isSome = true) :
    adjOf (vAddEdge st vid eid) vid = adjOf st vid ++ [eid] := by
  unfold adjOf
  rw [vAddEdge_vheap_get, if_pos rfl]
  cases hv : objGet st.vheap vid with
  | none => rw [hv] at h; simp at h
  | some v => simp [adjPush]

theorem adjOf_vDeleteEdge (st : St) (vid eid a : Nat) :
    adjOf (vDeleteEdge st vid eid) a =
      if a = vid then (adjOf st a).filter (fun e => decide (¬ e = eid)) else adjOf st a := by
  unfold adjOf
  rw [vDeleteEdge_vheap_get]
  by_cases h : a = vid
  · rw [if_pos h, if_pos h]
    cases objGet st.vheap a <;> simp [adjDrop]
  · rw [if_neg h, if_neg h]

theorem adjOf_edgeReverse (st : St) (eid a : Nat) :
    adjOf (edgeReverse st eid) a = adjOf st a := rfl

theorem weightOf_vAddEdge (st : St) (vid eid a : Nat) :
    weightOf (vAddEdge st vid eid) a = weightOf st a := rfl

theorem weightOf_vDeleteEdge (st : St) (vid eid a : Nat) :
    weightOf (vDeleteEdge st vid eid) a = weightOf st a := rfl

theorem weightOf_edgeReverse (st : St) (eid a : Nat) :
    weightOf (edgeReverse st eid) a = weightOf st a := by
  unfold weightOf
  rw [edgeReverse_eheap_get]
  by_cases h : a = eid
  · rw [if_pos h]
    cases objGet st.eheap a <;> simp [swapEnds]
  · rw [if_neg h]

/-! ## Operation characterizations -/

theorem addVertex_gVertices (st : St) (vid : Nat) :
    (addVertex st vid).gVertices = objSet st.gVertices (keyOf st vid) vid := rfl

theorem addVertex_mem_keys (st : St) (vid : Nat) (a : VKey) :
    a ∈ vkeys (addVertex st vid) ↔ a ∈ vkeys st ∨ a = keyOf st vid :=
  objSet_keys_mem st.gVertices (keyOf st vid) vid a

theorem addVertex_keyOf (st : St) (vid a : Nat) : keyOf (addVertex st vid) a = keyOf st a := rfl

theorem mem_vkeys_iff (st : St) (k : VKey) :
    k ∈ vkeys st ↔ (objGet st.gVertices k).isSome = true :=
  (objGet_isSome_iff st.gVertices k).symm

theorem ensure_vheap (st : St) (vid : Nat) :
    (ensureVertexExists st vid).vheap = st.vheap := by
  unfold ensureVertexExists
  split <;> rfl

theorem ensure_eheap (st : St) (vid : Nat) :
    (ensureVertexExists st vid).eheap = st.eheap := by
  unfold ensureVertexExists
  split <;> rfl

theorem ensure_gEdges (st : St) (vid : Nat) :
    (ensureVertexExists st vid).gEdges = st.gEdges := by
  unfold ensureVertexExists
  split <;> rfl

theorem ensure_isDirected (st : St) (vid : Nat) :
    (ensureVertexExists st vid).isDirected = st.isDirected := by
  unfold ensureVertexExists
  split <;> rfl

theorem ensure_keyOf (st : St) (vid a : Nat) :
    keyOf (ensureVertexExists st vid) a = keyOf st a := by
  unfold keyOf
  rw [ensure_vheap]

theorem ensure_mem_keys (st : St) (vid : Nat) (a : VKey) :
    a ∈ vkeys (ensureVertexExists st vid) ↔ a ∈ vkeys st ∨ a = keyOf st vid := by
  unfold ensureVertexExists
  by_cases hc : (getVertexByKey st (keyOf st vid)).isNone = true
  · rw [if_pos hc]
    exact addVertex_mem_keys st vid a
  · rw [if_neg hc]
    have hmem : keyOf st vid ∈ vkeys st := by
      rw [mem_vkeys_iff]
      cases hg : getVertexByKey st (keyOf st vid) with
      | none => rw [hg] at hc; simp at hc
      | some w => exact (congrArg Option.isSome hg).symm ▸ rfl
    constructor
    · exact Or.inl
    · rintro (hh | hh)
      · exact hh
      · exact hh ▸ hmem

theorem ensure_self_mem (st : St) (vid : Nat) :
    keyOf st vid ∈ vkeys (ensureVertexExists st vid) := by
  rw [ensure_mem_keys]
  right
  rfl

theorem ensure_lookup_preserved (st : St) (vid : Nat) {a : VKey} {w : Nat}
    (h : objGet st.gVertices a = some w) :
    objGet (ensureVertexExists st vid).gVertices a = some w := by
  unfold ensureVertexExists
  by_cases hc : (getVertexByKey st (keyOf st vid)).isNone = true
  · rw [if_pos hc]
    rw [addVertex_gVertices]
    by_cases ha : a = keyOf st vid
    · rw [ha] at h
      rw [show getVertexByKey st (keyOf st vid) = some w from h] at hc
      simp at hc
    · rw [objGet_objSet_ne _ _ _ ha]
      exact h
  · rw [if_neg hc]
    exact h

theorem addEdgeA_dup {st : St} {eid : Nat} {ed : EdgeData} {sv ev : Nat}
    (hed : objGet st.eheap eid = some ed)
    (hsv : getVertexByKey st (keyOf st ed.startV) = some sv)
    (hev : getVertexByKey st (keyOf st ed.endV) = some ev)
    (hdup : (objGet st.gEdges (keyOf st ed.startV, keyOf st ed.endV)).isSome = true) :
    addEdgeA st eid = (st, some GErr.duplicateEdge) := by
  simp [addEdgeA, hed, hsv, hev, hdup]

theorem addEdgeB_dup {st : St} {eid : Nat} {ed : EdgeData}
    (hed : objGet st.eheap eid = some ed)
    (hdup : (objGet st.gEdges (keyOf st ed.startV, keyOf st ed.endV)).isSome = true) :
    addEdgeB st eid = (st, some GErr.duplicateEdge) := by
  simp [addEdgeB, hed, hdup]

theorem deleteEdgeA_notfound {st : St} {eid : Nat} {ed : EdgeData}
    (hed : objGet st.eheap eid = some ed)
    (hmiss : (objGet st.gEdges (keyOf st ed.startV, keyOf st ed.endV)).isSome = false) :
    deleteEdgeA st eid = (st, some GErr.edgeNotFound) := by
  simp [deleteEdgeA, hed, hmiss]

theorem deleteEdgeB_notfound {st : St} {eid : Nat} {ed : EdgeData}
    (hed : objGet st.eheap eid = some ed)
    (hmiss : (objGet st.gEdges (keyOf st ed.startV, keyOf st ed.endV)).isSome = false) :
    deleteEdgeB st eid = (st, some GErr.edgeNotFound) := by
  simp [deleteEdgeB, hed, hmiss]

theorem deleteEdgeA_ok {st : St} {eid : Nat} {ed : EdgeData} {sv ev : Nat}
    (hed : objGet st.eheap eid = some ed)
    (hfound : (objGet st.gEdges (keyOf st ed.startV, keyOf st ed.endV)).isSome = true)
    (hsv : objGet st.gVertices (keyOf st ed.startV) = some sv)
    (hev : objGet st.gVertices (keyOf st ed.endV) = some ev) :
    deleteEdgeA st eid =
      (vDeleteEdge (vDeleteEdge
        { st with gEdges := objDelete st.gEdges (keyOf st ed.startV, keyOf st ed.endV) }
        sv eid) ev eid, none) := by
  simp [deleteEdgeA, hed, hfound, getVertexByKey, hsv, hev]

theorem deleteEdgeB_ok {st : St} {eid : Nat} {ed : EdgeData}
    (hed : objGet st.eheap eid = some ed)
    (hfound : (objGet st.gEdges (keyOf st ed.startV, keyOf st ed.endV)).isSome = true) :
    deleteEdgeB st eid =
      (vDeleteEdge (vDeleteEdge
        { st with gEdges := objDelete st.gEdges (keyOf st ed.startV, keyOf st ed.endV) }
        ed.startV eid) ed.endV eid, none) := by
  simp [deleteEdgeB, hed, hfound]

theorem vkeys_vAddEdge (st : St) (vid eid : Nat) : vkeys (vAddEdge st vid eid) = vkeys st := rfl

theorem vkeys_vDeleteEdge (st : St) (vid eid : Nat) : vkeys (vDeleteEdge st vid eid) = vkeys st := rfl

theorem addEdgeA_ok_inv {st st1 : St} {eid : Nat} (h : addEdgeA st eid = (st1, none)) :
    ∃ ed, objGet st.eheap eid = some ed ∧
      (objGet st.gEdges (keyOf st ed.startV, keyOf st ed.endV)).isSome = false ∧
      st1.gEdges = objSet st.gEdges (keyOf st ed.startV, keyOf st ed.endV) eid ∧
      st1.eheap = st.eheap ∧
      st1.isDirected = st.isDirected ∧
      keyOf st ed.startV ∈ vkeys st1 ∧ keyOf st ed.endV ∈ vkeys st1 ∧
      (∀ a, a ∈ vkeys st → a ∈ vkeys st1) := by
  cases hed : objGet st.eheap eid with
  | none => simp [addEdgeA, hed] at h
  | some ed =>
    refine ⟨ed, rfl, ?_⟩
    have hsv1 : getVertexByKey (addVertex st ed.startV) (keyOf st ed.startV) = some ed.startV :=
      objGet_objSet_self _ _ _
    have hev1 : getVertexByKey (addVertex (addVertex st ed.startV) ed.endV)
        (keyOf st ed.endV) = some ed.endV :=
      objGet_objSet_self _ _ _
    have hev1b : getVertexByKey (addVertex st ed.endV) (keyOf st ed.endV) = some ed.endV :=
      objGet_objSet_self _ _ _
    have hstart : (objGet st.gVertices (keyOf st ed.startV)).isSome = true →
        keyOf st ed.startV ∈ vkeys st :=
      fun hx => (mem_vkeys_iff st _).mpr hx
    cases hsv0 : getVertexByKey st (keyOf st ed.startV) with
    | some sv =>
      cases hev0 : getVertexByKey st (keyOf st ed.endV) with
      | some ev =>
        cases hdup : (objGet st.gEdges (keyOf st ed.startV, keyOf st ed.endV)).isSome with
        | true => simp [addEdgeA, hed, hsv0, hev0, hdup] at h
        | false =>
          simp only [addEdgeA, hed, hsv0, hev0, hdup, Option.isNone_some, Bool.false_eq_true,
            if_false, Prod.mk.injEq, and_true] at h
          have hska : keyOf st ed.startV ∈ vkeys st := by
            rw [mem_vkeys_iff, show objGet st.gVertices (keyOf st ed.startV) = some sv from hsv0]
            rfl
          have heka : keyOf st ed.endV ∈ vkeys st := by
            rw [mem_vkeys_iff, show objGet st.gVertices (keyOf st ed.endV) = some ev from hev0]
            rfl
          have hVK : vkeys st1 = vkeys st := by
            rw [← h]
            by_cases hdir : st.isDirected = true <;>
              simp [hdir, vkeys, vAddEdge_gVertices]
          refine ⟨rfl, ?_, ?_, ?_, ?_, ?_, ?_⟩
          · rw [← h]
            by_cases hdir : st.isDirected = true <;>
              simp [hdir, vAddEdge_gEdges]
          · rw [← h]
            by_cases hdir : st.isDirected = true <;>
              simp [hdir, vAddEdge_eheap]
          · rw [← h]
            by_cases hdir : st.isDirected = true <;>
              simp [hdir, vAddEdge_isDirected]
          · rw [hVK]
            exact hska
          · rw [hVK]
            exact heka
          · intro a ha
            rw [hVK]
            exact ha
      | none =>
        cases hdup : (objGet st.gEdges (keyOf st ed.startV, keyOf st ed.endV)).isSome with
        | true =>
          simp [addEdgeA, hed, hsv0, hev0, hdup, hev1b, addVertex_gEdges] at h
        | false =>
          simp only [addEdgeA, hed, hsv0, hev0, hdup, hev1b, addVertex_gEdges,
            addVertex_isDirected, Option.isNone_some, Option.isNone_none, Bool.false_eq_true,
            if_false, if_true, Prod.mk.injEq, and_true] at h
          have hska : keyOf st ed.startV ∈ vkeys st := by
            rw [mem_vkeys_iff, show objGet st.gVertices (keyOf st ed.startV) = some sv from hsv0]
            rfl
          have hVK : vkeys st1 = vkeys (addVertex st ed.endV) := by
            rw [← h]
            by_cases hdir : st.isDirected = true <;>
              simp [hdir, vkeys, vAddEdge_gVertices]
          refine ⟨rfl, ?_, ?_, ?_, ?_, ?_, ?_⟩
          · rw [← h]
            by_cases hdir : st.isDirected = true <;>
              simp [hdir, vAddEdge_gEdges, addVertex_gEdges]
          · rw [← h]
            by_cases hdir : st.isDirected = true <;>
              simp [hdir, vAddEdge_eheap, addVertex_eheap]
          · rw [← h]
            by_cases hdir : st.isDirected = true <;>
              simp [hdir, vAddEdge_isDirected, addVertex_isDirected]
          · rw [hVK]
            exact (addVertex_mem_keys st ed.endV _).mpr (Or.inl hska)
          · rw [hVK]
            exact (addVertex_mem_keys st ed.endV _).mpr (Or.inr rfl)
          · intro a ha
            rw [hVK]
            exact (addVertex_mem_keys st ed.endV _).mpr (Or.inl ha)
    | none =>
      cases hev0 : getVertexByKey st (keyOf st ed.endV) with
      | some ev =>
        cases hdup : (objGet st.gEdges (keyOf st ed.startV, keyOf st ed.endV)).isSome with
        | true =>
          simp [addEdgeA, hed, hsv0, hev0, hdup, hsv1, addVertex_gEdges] at h
        | false =>
          simp only [addEdgeA, hed, hsv0, hev0, hdup, hsv1, addVertex_gEdges,
            addVertex_isDirected, Option.isNone_some, Option.isNone_none, Bool.false_eq_true,
            if_false, if_true, Prod.mk.injEq, and_true] at h
          have heka : keyOf st ed.endV ∈ vkeys st := by
            rw [mem_vkeys_iff, show objGet st.gVertices (keyOf st ed.endV) = some ev from hev0]
            rfl
          have hVK : vkeys st1 = vkeys (addVertex st ed.startV) := by
            rw [← h]
            by_cases hdir : st.isDirected = true <;>
              simp [hdir, vkeys, vAddEdge_gVertices]
          refine ⟨rfl, ?_, ?_, ?_, ?_, ?_, ?_⟩
          · rw [← h]
            by_cases hdir : st.isDirected = true <;>
              simp [hdir, vAddEdge_gEdges, addVertex_gEdges]
          · rw [← h]
            by_cases hdir : st.isDirected = true <;>
              simp [hdir, vAddEdge_eheap, addVertex_eheap]
          · rw [← h]
            by_cases hdir : st.isDirected = true <;>
              simp [hdir, vAddEdge_isDirected, addVertex_isDirected]
          · rw [hVK]
            exact (addVertex_mem_keys st ed.startV _).mpr (Or.inr rfl)
          · rw [hVK]
            exact (addVertex_mem_keys st ed.startV _).mpr (Or.inl heka)
          · intro a ha
            rw [hVK]
            exact (addVertex_mem_keys st ed.startV _).mpr (Or.inl ha)
      | none =>
        cases hdup : (objGet st.gEdges (keyOf st ed.startV, keyOf st ed.endV)).isSome with
        | true =>
          simp [addEdgeA, hed, hsv0, hev0, hdup, hsv1, hev1, addVertex_gEdges] at h
        | false =>
          simp only [addEdgeA, hed, hsv0, hev0, hdup, hsv1, hev1, addVertex_gEdges,
            addVertex_isDirected, Option.isNone_some, Option.isNone_none, Bool.false_eq_true,
            if_false, if_true, Prod.mk.injEq, and_true] at h
          have hVK : vkeys st1 = vkeys (addVertex (addVertex st ed.startV) ed.endV) := by
            rw [← h]
            by_cases hdir : st.isDirected = true <;>
              simp [hdir, vkeys, vAddEdge_gVertices]
          refine ⟨rfl, ?_, ?_, ?_, ?_, ?_, ?_⟩
          · rw [← h]
            by_cases hdir : st.isDirected = true <;>
              simp [hdir, vAddEdge_gEdges, addVertex_gEdges]
          · rw [← h]
            by_cases hdir : st.isDirected = true <;>
              simp [hdir, vAddEdge_eheap, addVertex_eheap]
          · rw [← h]
            by_cases hdir : st.isDirected = true <;>
              simp [hdir, vAddEdge_isDirected, addVertex_isDirected]
          · rw [hVK]
            exact (addVertex_mem_keys (addVertex st ed.startV) ed.endV _).mpr
              (Or.inl ((addVertex_mem_keys st ed.startV _).mpr (Or.inr rfl)))
          · rw [hVK]
            exact (addVertex_mem_keys (addVertex st ed.startV) ed.endV _).mpr (Or.inr rfl)
          · intro a ha
            rw [hVK]
            exact (addVertex_mem_keys (addVertex st ed.startV) ed.endV _).mpr
              (Or.inl ((addVertex_mem_keys st ed.startV _).mpr (Or.inl ha)))

theorem addEdgeB_ok_inv {st st1 : St} {eid : Nat} (h : addEdgeB st eid = (st1, none)) :
    ∃ ed, objGet st.eheap eid = some ed ∧
      (objGet st.gEdges (keyOf st ed.startV, keyOf st ed.endV)).isSome = false ∧
      st1.gEdges = objSet st.gEdges (keyOf st ed.startV, keyOf st ed.endV) eid ∧
      st1.eheap = st.eheap ∧
      st1.isDirected = st.isDirected ∧
      keyOf st ed.startV ∈ vkeys st1 ∧ keyOf st ed.endV ∈ vkeys st1 ∧
      (∀ a, a ∈ vkeys st → a ∈ vkeys st1) := by
  cases hed : objGet st.eheap eid with
  | none => simp [addEdgeB, hed] at h
  | some ed =>
    refine ⟨ed, rfl, ?_⟩
    cases hdup : (objGet st.gEdges (keyOf st ed.startV, keyOf st ed.endV)).isSome with
    | true => simp [addEdgeB, hed, hdup] at h
    | false =>
      simp only [addEdgeB, hed, hdup, Bool.false_eq_true, if_false, Prod.mk.injEq,
        and_true] at h
      have hVK : vkeys st1 = vkeys (ensureVertexExists (ensureVertexExists
          { st with gEdges := objSet st.gEdges (keyOf st ed.startV, keyOf st ed.endV) eid }
          ed.startV) ed.endV) := by
        rw [← h]
        by_cases hdir : st.isDirected = true <;>
          simp [hdir, vkeys, vAddEdge_gVertices, vAddEdge_isDirected, ensure_isDirected]
      refine ⟨rfl, ?_, ?_, ?_, ?_, ?_, ?_⟩
      · rw [← h]
        by_cases hdir : st.isDirected = true <;>
          simp [hdir, vAddEdge_gEdges, vAddEdge_isDirected, ensure_isDirected, ensure_gEdges]
      · rw [← h]
        by_cases hdir : st.isDirected = true <;>
          simp [hdir, vAddEdge_eheap, vAddEdge_isDirected, ensure_isDirected, ensure_eheap]
      · rw [← h]
        by_cases hdir : st.isDirected = true <;>
          simp [hdir, vAddEdge_isDirected, ensure_isDirected]
      · rw [hVK]
        exact (ensure_mem_keys _ ed.endV _).mpr (Or.inl (ensure_self_mem _ ed.startV))
      · rw [hVK]
        refine (ensure_mem_keys _ ed.endV _).mpr (Or.inr ?_)
        rw [ensure_keyOf]
        rfl
      · intro a ha
        rw [hVK]
        exact (ensure_mem_keys _ ed.endV _).mpr
          (Or.inl ((ensure_mem_keys _ ed.startV _).mpr (Or.inl ha)))

/-! ## Claim theorems -/

/-- Claim C1: calling `addEdge` with an edge whose derived key is already
registered fails with the duplicate-edge error and is atomic — the state
(edge registry, vertex registry, and every vertex adjacency list) is
exactly as before the call.  For `codigo_a` this holds on every graph
satisfying the section-3 invariant that registered edge keys have
registered endpoints (which includes every state reachable through the
API); for `codigo_b` it holds unconditionally. -/
theorem addEdge_duplicate_is_atomic (st : St) (eid : Nat)
    (hed : (objGet st.eheap eid).isSome = true)
    (hdup : (objGet st.gEdges (edgeKey st eid)).isSome = true) :
    (EndpointsReg st → addEdgeA st eid = (st, some GErr.duplicateEdge)) ∧
    addEdgeB st eid = (st, some GErr.duplicateEdge) := by
  obtain ⟨ed, hed2⟩ := Option.isSome_iff_exists.mp hed
  have hkey : edgeKey st eid = (keyOf st ed.startV, keyOf st ed.endV) := by
    simp [edgeKey, hed2]
  rw [hkey] at hdup
  constructor
  · intro hreg
    obtain ⟨e0, he0⟩ := Option.isSome_iff_exists.mp hdup
    obtain ⟨h1, h2⟩ := hreg _ (objGet_mem_of_some he0)
    obtain ⟨sv, hsv⟩ := Option.isSome_iff_exists.mp ((mem_vkeys_iff st _).mp h1)
    obtain ⟨ev, hev⟩ := Option.isSome_iff_exists.mp ((mem_vkeys_iff st _).mp h2)
    exact addEdgeA_dup hed2 hsv hev hdup
  · exact addEdgeB_dup hed2 hdup

/-- Witness for C1 at a concrete graph: after adding the edge `a` to `b`,
adding an edge with the same derived key fails atomically in both
variants. -/
theorem addEdge_duplicate_is_atomic_witness :
    addEdgeA (addEdgeA exA 10).1 10 = ((addEdgeA exA 10).1, some GErr.duplicateEdge) ∧
    addEdgeB (addEdgeA exA 10).1 10 = ((addEdgeA exA 10).1, some GErr.duplicateEdge) :=
  ⟨(addEdge_duplicate_is_atomic (addEdgeA exA 10).1 10 (by decide) (by decide)).1 (by decide),
   (addEdge_duplicate_is_atomic (addEdgeA exA 10).1 10 (by decide) (by decide)).2⟩

/-- Claim C2: `deleteEdge` on an edge whose key is not registered fails
with the not-found error and leaves the whole state (vertex registry,
edge registry, and every adjacency list) unchanged, in both variants. -/
theorem deleteEdge_missing_fails_unchanged (st : St) (eid : Nat)
    (hed : (objGet st.eheap eid).isSome = true)
    (hmiss : (objGet st.gEdges (edgeKey st eid)).isSome = false) :
    deleteEdgeA st eid = (st, some GErr.edgeNotFound) ∧
    deleteEdgeB st eid = (st, some GErr.edgeNotFound) := by
  obtain ⟨ed, hed2⟩ := Option.isSome_iff_exists.mp hed
  have hkey : edgeKey st eid = (keyOf st ed.startV, keyOf st ed.endV) := by
    simp [edgeKey, hed2]
  rw [hkey] at hmiss
  exact ⟨deleteEdgeA_notfound hed2 hmiss, deleteEdgeB_notfound hed2 hmiss⟩

/-- Witness for C2 at a concrete graph with an empty edge registry. -/
theorem deleteEdge_missing_fails_unchanged_witness :
    deleteEdgeA exA 10 = (exA, some GErr.edgeNotFound) ∧
    deleteEdgeB exA 10 = (exA, some GErr.edgeNotFound) :=
  deleteEdge_missing_fails_unchanged exA 10 (by decide) (by decide)

/-- Claim C3, amended: `codigo_a.findEdge` resolves the start vertex by key
in the registry — null when the key is unregistered, and otherwise it
delegates to the registered vertex object's own lookup; `codigo_b.findEdge`
instead delegates to the passed vertex object itself, without consulting
the registry.  Neither variant throws for a missing edge (both are total
and return the null sentinel). -/
theorem findEdge_resolution (st : St) (sv ev : Nat) :
    (getVertexByKey st (keyOf st sv) = none → findEdgeA st sv ev = none) ∧
    (∀ v, getVertexByKey st (keyOf st sv) = some v →
      findEdgeA st sv ev = vFindEdge st v ev) ∧
    findEdgeB st sv ev = vFindEdge st sv ev := by
  refine ⟨?_, ?_, rfl⟩
  · intro h
    simp [findEdgeA, h]
  · intro v h
    simp [findEdgeA, h]

/-- Witness for C3 at a concrete graph: vertex object 1 has key `c`, which
is unregistered, so `codigo_a` reports null; `codigo_b` delegates to the
passed object. -/
theorem findEdge_resolution_witness :
    findEdgeA exAlias 1 2 = none ∧ findEdgeB exAlias 1 2 = vFindEdge exAlias 1 2 :=
  ⟨(findEdge_resolution exAlias 1 2).1 (by decide),
   (findEdge_resolution exAlias 1 2).2.2⟩

/-- Counterexample to C3 as stated: in `codigo_b`, the key of the passed
start vertex object (key `c`) is not registered, yet `findEdge` returns
the edge held by the passed object instead of the claimed null. -/
theorem findEdge_unregistered_cex :
    getVertexByKey exAlias (keyOf exAlias 1) = none ∧
    findEdgeB exAlias 1 2 = some 7 := by
  decide

/-- Claim C9: `deleteEdge` never removes any entry from the vertex
registry, in either variant, on any input (successful or not) — in
particular deleting a vertex's last incident edge leaves every vertex
registered under its key. -/
theorem deleteEdge_keeps_vertex_registry (st : St) (eid : Nat) :
    (deleteEdgeA st eid).1.gVertices = st.gVertices ∧
    (deleteEdgeB st eid).1.gVertices = st.gVertices := by
  constructor
  · simp only [deleteEdgeA]
    split
    · rfl
    · split
      · split <;> rfl
      · rfl
  · simp only [deleteEdgeB]
    split
    · rfl
    · split
      · rfl
      · rfl

/-- Claim C10: under the precondition that the edge's derived key is
registered and the endpoints-registered invariant holds, `codigo_a`'s
`deleteEdge` never dereferences a null registry lookup: it completes
without any error. -/
theorem deleteEdgeA_no_null_dereference (st : St) (eid : Nat)
    (hed : (objGet st.eheap eid).isSome = true)
    (hreg : (objGet st.gEdges (edgeKey st eid)).isSome = true)
    (hinv : EndpointsReg st) :
    (deleteEdgeA st eid).2 = none := by
  obtain ⟨ed, hed2⟩ := Option.isSome_iff_exists.mp hed
  have hkey : edgeKey st eid = (keyOf st ed.startV, keyOf st ed.endV) := by
    simp [edgeKey, hed2]
  rw [hkey] at hreg
  obtain ⟨e0, he0⟩ := Option.isSome_iff_exists.mp hreg
  obtain ⟨h1, h2⟩ := hinv _ (objGet_mem_of_some he0)
  obtain ⟨sv, hsv⟩ := Option.isSome_iff_exists.mp ((mem_vkeys_iff st _).mp h1)
  obtain ⟨ev, hev⟩ := Option.isSome_iff_exists.mp ((mem_vkeys_iff st _).mp h2)
  rw [deleteEdgeA_ok hed2 hreg hsv hev]

/-- Witness for C10 at a concrete graph with one registered edge. -/
theorem deleteEdgeA_no_null_dereference_witness :
    (deleteEdgeA (addEdgeA exA 10).1 10).2 = none :=
  deleteEdgeA_no_null_dereference (addEdgeA exA 10).1 10 (by decide) (by decide) (by decide)

/-! ## Invariant preservation -/

theorem objSet_mem_elim {α β : Type} [DecidableEq α] {m : List (α × β)} {k : α} {v : β}
    {p : α × β} (h : p ∈ objSet m k v) : p = (k, v) ∨ p ∈ m := by
  unfold objSet at h
  by_cases hm : m.any (fun p => decide (p.1 = k)) = true
  · rw [if_pos hm] at h
    obtain ⟨q, hq, he⟩ := List.mem_map.mp h
    by_cases hqk : q.1 = k
    · left
      rw [← he, if_pos hqk]
    · right
      rw [← he, if_neg hqk]
      exact hq
  · rw [Bool.not_eq_true] at hm
    rw [hm] at h
    simp only [Bool.false_eq_true, if_false] at h
    rcases List.mem_append.mp h with hh | hh
    · exact Or.inr hh
    · left
      exact List.mem_singleton.mp hh

theorem endpointsReg_mono {st st1 : St} (h : EndpointsReg st)
    (hGE : st1.gEdges = st.gEdges)
    (hmono : ∀ a, a ∈ vkeys st → a ∈ vkeys st1) : EndpointsReg st1 := by
  intro p hp
  rw [hGE] at hp
  obtain ⟨h1, h2⟩ := h p hp
  exact ⟨hmono _ h1, hmono _ h2⟩

theorem endpointsReg_of_addOk {st st1 : St} (h : EndpointsReg st) (key : EKey) (eid : Nat)
    (hGE : st1.gEdges = objSet st.gEdges key eid)
    (h1 : key.1 ∈ vkeys st1) (h2 : key.2 ∈ vkeys st1)
    (hmono : ∀ a, a ∈ vkeys st → a ∈ vkeys st1) : EndpointsReg st1 := by
  intro p hp
  rw [hGE] at hp
  rcases objSet_mem_elim hp with hnew | hold
  · rw [hnew]
    exact ⟨h1, h2⟩
  · obtain ⟨g1, g2⟩ := h p hold
    exact ⟨hmono _ g1, hmono _ g2⟩

theorem endpointsReg_addVertex (st : St) (vid : Nat) (h : EndpointsReg st) :
    EndpointsReg (addVertex st vid) := by
  intro p hp
  obtain ⟨h1, h2⟩ := h p hp
  exact ⟨(addVertex_mem_keys st vid _).mpr (Or.inl h1),
    (addVertex_mem_keys st vid _).mpr (Or.inl h2)⟩

theorem addEdgeA_err_inv {st st1 : St} {eid : Nat} {e : GErr}
    (h : addEdgeA st eid = (st1, some e)) :
    st1.gEdges = st.gEdges ∧ (∀ a, a ∈ vkeys st → a ∈ vkeys st1) := by
  cases hed : objGet st.eheap eid with
  | none =>
    simp only [addEdgeA, hed, Prod.mk.injEq] at h
    rw [← h.1]
    exact ⟨rfl, fun a ha => ha⟩
  | some ed =>
    have hsv1 : getVertexByKey (addVertex st ed.startV) (keyOf st ed.startV) = some ed.startV :=
      objGet_objSet_self _ _ _
    have hev1 : getVertexByKey (addVertex (addVertex st ed.startV) ed.endV)
        (keyOf st ed.endV) = some ed.endV :=
      objGet_objSet_self _ _ _
    have hev1b : getVertexByKey (addVertex st ed.endV) (keyOf st ed.endV) = some ed.endV :=
      objGet_objSet_self _ _ _
    cases hsv0 : getVertexByKey st (keyOf st ed.startV) with
    | some sv =>
      cases hev0 : getVertexByKey st (keyOf st ed.endV) with
      | some ev =>
        cases hdup : (objGet st.gEdges (keyOf st ed.startV, keyOf st ed.endV)).isSome with
        | true =>
          simp only [addEdgeA, hed, hsv0, hev0, hdup, Option.isNone_some, Bool.false_eq_true,
            if_false, if_true, Prod.mk.injEq] at h
          rw [← h.1]
          exact ⟨rfl, fun a ha => ha⟩
        | false =>
          simp [addEdgeA, hed, hsv0, hev0, hdup] at h
      | none =>
        cases hdup : (objGet st.gEdges (keyOf st ed.startV, keyOf st ed.endV)).isSome with
        | true =>
          simp only [addEdgeA, hed, hsv0, hev0, hdup, hev1b, addVertex_gEdges,
            Option.isNone_some, Option.isNone_none, Bool.false_eq_true, if_false, if_true,
            Prod.mk.injEq] at h
          rw [← h.1]
          exact ⟨rfl, fun a ha => (addVertex_mem_keys st ed.endV _).mpr (Or.inl ha)⟩
        | false =>
          simp [addEdgeA, hed, hsv0, hev0, hdup, hev1b, addVertex_gEdges] at h
    | none =>
      cases hev0 : getVertexByKey st (keyOf st ed.endV) with
      | some ev =>
        cases hdup : (objGet st.gEdges (keyOf st ed.startV, keyOf st ed.endV)).isSome with
        | true =>
          simp only [addEdgeA, hed, hsv0, hev0, hdup, hsv1, addVertex_gEdges,
            Option.isNone_some, Option.isNone_none, Bool.false_eq_true, if_false, if_true,
            Prod.mk.injEq] at h
          rw [← h.1]
          exact ⟨rfl, fun a ha => (addVertex_mem_keys st ed.startV _).mpr (Or.inl ha)⟩
        | false =>
          simp [addEdgeA, hed, hsv0, hev0, hdup, hsv1, addVertex_gEdges] at h
      | none =>
        cases hdup : (objGet st.gEdges (keyOf st ed.startV, keyOf st ed.endV)).isSome with
        | true =>
          simp only [addEdgeA, hed, hsv0, hev0, hdup, hsv1, hev1, addVertex_gEdges,
            Option.isNone_some, Option.isNone_none, Bool.false_eq_true, if_false, if_true,
            Prod.mk.injEq] at h
          rw [← h.1]
          refine ⟨rfl, fun a ha => ?_⟩
          exact (addVertex_mem_keys (addVertex st ed.startV) ed.endV _).mpr
            (Or.inl ((addVertex_mem_keys st ed.startV _).mpr (Or.inl ha)))
        | false =>
          simp [addEdgeA, hed, hsv0, hev0, hdup, hsv1, hev1, addVertex_gEdges] at h

theorem addEdgeB_err_inv {st st1 : St} {eid : Nat} {e : GErr}
    (h : addEdgeB st eid = (st1, some e)) :
    st1.gEdges = st.gEdges ∧ (∀ a, a ∈ vkeys st → a ∈ vkeys st1) := by
  cases hed : objGet st.eheap eid with
  | none =>
    simp only [addEdgeB, hed, Prod.mk.injEq] at h
    rw [← h.1]
    exact ⟨rfl, fun a ha => ha⟩
  | some ed =>
    cases hdup : (objGet st.gEdges (keyOf st ed.startV, keyOf st ed.endV)).isSome with
    | true =>
      simp only [addEdgeB, hed, hdup, if_true, Prod.mk.injEq] at h
      rw [← h.1]
      exact ⟨rfl, fun a ha => ha⟩
    | false =>
      simp [addEdgeB, hed, hdup] at h

theorem endpointsReg_addEdgeA (st : St) (eid : Nat) (h : EndpointsReg st) :
    EndpointsReg (addEdgeA st eid).1 := by
  rcases hres : addEdgeA st eid with ⟨st1, err⟩
  cases err with
  | none =>
    obtain ⟨ed, _, _, hGE, _, _, h1, h2, hmono⟩ := addEdgeA_ok_inv hres
    exact endpointsReg_of_addOk h _ eid hGE h1 h2 hmono
  | some e =>
    obtain ⟨hGE, hmono⟩ := addEdgeA_err_inv hres
    exact endpointsReg_mono h hGE hmono

theorem endpointsReg_addEdgeB (st : St) (eid : Nat) (h : EndpointsReg st) :
    EndpointsReg (addEdgeB st eid).1 := by
  rcases hres : addEdgeB st eid with ⟨st1, err⟩
  cases err with
  | none =>
    obtain ⟨ed, _, _, hGE, _, _, h1, h2, hmono⟩ := addEdgeB_ok_inv hres
    exact endpointsReg_of_addOk h _ eid hGE h1 h2 hmono
  | some e =>
    obtain ⟨hGE, hmono⟩ := addEdgeB_err_inv hres
    exact endpointsReg_mono h hGE hmono

theorem endpointsReg_deleteEdgeA (st : St) (eid : Nat) (h : EndpointsReg st) :
    EndpointsReg (deleteEdgeA st eid).1 := by
  have hGV := (deleteEdge_keeps_vertex_registry st eid).1
  intro p hp
  have hsub : p ∈ st.gEdges := by
    revert hp
    simp only [deleteEdgeA]
    split
    · intro hq
      exact hq
    · split
      · split
        · intro hq
          exact List.mem_of_mem_filter hq
        · intro hq
          exact List.mem_of_mem_filter hq
        · intro hq
          exact List.mem_of_mem_filter hq
      · intro hq
        exact hq
  obtain ⟨h1, h2⟩ := h p hsub
  constructor
  · rw [show vkeys (deleteEdgeA st eid).1 = vkeys st from congrArg objKeys hGV]
    exact h1
  · rw [show vkeys (deleteEdgeA st eid).1 = vkeys st from congrArg objKeys hGV]
    exact h2

theorem endpointsReg_deleteEdgeB (st : St) (eid : Nat) (h : EndpointsReg st) :
    EndpointsReg (deleteEdgeB st eid).1 := by
  have hGV := (deleteEdge_keeps_vertex_registry st eid).2
  intro p hp
  have hsub : p ∈ st.gEdges := by
    revert hp
    simp only [deleteEdgeB]
    split
    · intro hq
      exact hq
    · split
      · intro hq
        exact List.mem_of_mem_filter hq
      · intro hq
        exact hq
  obtain ⟨h1, h2⟩ := h p hsub
  constructor
  · rw [show vkeys (deleteEdgeB st eid).1 = vkeys st from congrArg objKeys hGV]
    exact h1
  · rw [show vkeys (deleteEdgeB st eid).1 = vkeys st from congrArg objKeys hGV]
    exact h2

theorem endpointsReg_reverseStepsA (l : List Nat) :
    ∀ st : St, EndpointsReg st → EndpointsReg (reverseStepsA st l).1 := by
  induction l with
  | nil =>
    intro st h
    exact h
  | cons eid rest ih =>
    intro st h
    simp only [reverseStepsA]
    rcases hdel : deleteEdgeA st eid with ⟨st1, err⟩
    have h1 : EndpointsReg st1 := by
      have := endpointsReg_deleteEdgeA st eid h
      rw [hdel] at this
      exact this
    cases err with
    | some e => exact h1
    | none =>
      have h2 : EndpointsReg (edgeReverse st1 eid) := h1
      rcases hadd : addEdgeA (edgeReverse st1 eid) eid with ⟨st3, err2⟩
      show EndpointsReg
        (match addEdgeA (edgeReverse st1 eid) eid with
          | (stx, some e) => (stx, some e)
          | (stx, none) => reverseStepsA stx rest).1
      rw [hadd]
      have h3 : EndpointsReg st3 := by
        have := endpointsReg_addEdgeA (edgeReverse st1 eid) eid h2
        rw [hadd] at this
        exact this
      cases err2 with
      | some e => exact h3
      | none => exact ih st3 h3

theorem endpointsReg_reverseStepsB (l : List Nat) :
    ∀ st : St, EndpointsReg st → EndpointsReg (reverseStepsB st l).1 := by
  induction l with
  | nil =>
    intro st h
    exact h
  | cons eid rest ih =>
    intro st h
    simp only [reverseStepsB]
    rcases hdel : deleteEdgeB st eid with ⟨st1, err⟩
    have h1 : EndpointsReg st1 := by
      have := endpointsReg_deleteEdgeB st eid h
      rw [hdel] at this
      exact this
    cases err with
    | some e => exact h1
    | none =>
      have h2 : EndpointsReg (edgeReverse st1 eid) := h1
      rcases hadd : addEdgeB (edgeReverse st1 eid) eid with ⟨st3, err2⟩
      show EndpointsReg
        (match addEdgeB (edgeReverse st1 eid) eid with
          | (stx, some e) => (stx, some e)
          | (stx, none) => reverseStepsB stx rest).1
      rw [hadd]
      have h3 : EndpointsReg st3 := by
        have := endpointsReg_addEdgeB (edgeReverse st1 eid) eid h2
        rw [hadd] at this
        exact this
      cases err2 with
      | some e => exact h3
      | none => exact ih st3 h3

/-- Claim C7: in every state reachable from an empty graph through the
public operations, every registered edge key has both endpoint keys
registered in the vertex registry (both variants); moreover a successful
`addEdge` itself registers any missing endpoint: after it returns, both
endpoint keys of the added edge are registered, with no precondition on
the caller. -/
theorem edge_endpoints_always_registered (st : St) :
    (ReachableA st → EndpointsReg st) ∧
    (ReachableB st → EndpointsReg st) ∧
    (∀ eid st1, addEdgeA st eid = (st1, none) →
      ∃ ed, objGet st.eheap eid = some ed ∧
        keyOf st ed.startV ∈ vkeys st1 ∧ keyOf st ed.endV ∈ vkeys st1) ∧
    (∀ eid st1, addEdgeB st eid = (st1, none) →
      ∃ ed, objGet st.eheap eid = some ed ∧
        keyOf st ed.startV ∈ vkeys st1 ∧ keyOf st ed.endV ∈ vkeys st1) := by
  refine ⟨?_, ?_, ?_, ?_⟩
  · intro h
    induction h with
    | empty d =>
      intro p hp
      cases hp
    | allocV st k vid h hf ih => exact ih
    | allocE st ed eid h hf ih => exact ih
    | addV st vid h ih => exact endpointsReg_addVertex st vid ih
    | addE st eid h ih => exact endpointsReg_addEdgeA st eid ih
    | delE st eid h ih => exact endpointsReg_deleteEdgeA st eid ih
    | rev st h ih => exact endpointsReg_reverseStepsA (getAllEdges st) st ih
  · intro h
    induction h with
    | empty d =>
      intro p hp
      cases hp
    | allocV st k vid h hf ih => exact ih
    | allocE st ed eid h hf ih => exact ih
    | addV st vid h ih => exact endpointsReg_addVertex st vid ih
    | addE st eid h ih => exact endpointsReg_addEdgeB st eid ih
    | delE st eid h ih => exact endpointsReg_deleteEdgeB st eid ih
    | rev st h ih => exact endpointsReg_reverseStepsB (getAllEdges st) st ih
  · intro eid st1 h
    obtain ⟨ed, hed, _, _, _, _, h1, h2, _⟩ := addEdgeA_ok_inv h
    exact ⟨ed, hed, h1, h2⟩
  · intro eid st1 h
    obtain ⟨ed, hed, _, _, _, _, h1, h2, _⟩ := addEdgeB_ok_inv h
    exact ⟨ed, hed, h1, h2⟩

/-- Witness for C7: the concrete state `exA` is reachable (allocations
followed by no registry operation), the state after adding edge 10 is
reachable and satisfies the invariant, and the successful `addEdge` of
edge 10 registered both endpoint keys. -/
theorem edge_endpoints_always_registered_witness :
    EndpointsReg (addEdgeA exA 10).1 ∧
    (∃ ed, objGet exA.eheap 10 = some ed ∧
      keyOf exA ed.startV ∈ vkeys (addEdgeA exA 10).1 ∧
      keyOf exA ed.endV ∈ vkeys (addEdgeA exA 10).1) := by
  have hreach : ReachableA exA :=
    ReachableA.allocE _ ⟨1, 2, 2⟩ 12
      (ReachableA.allocE _ ⟨1, 0, 7⟩ 11
        (ReachableA.allocE _ ⟨0, 1, 5⟩ 10
          (ReachableA.allocV _ "c" 2
            (ReachableA.allocV _ "b" 1
              (ReachableA.allocV _ "a" 0 (ReachableA.empty true) (by decide))
              (by decide))
            (by decide))
          (by decide))
        (by decide))
      (by decide)
  constructor
  · exact (edge_endpoints_always_registered (addEdgeA exA 10).1).1
      (ReachableA.addE exA 10 hreach)
  · exact (edge_endpoints_always_registered exA).2.2.1 10 (addEdgeA exA 10).1 (by decide)

/-! ## Weight lemmas -/

theorem foldl_add_eq_sum (f : Nat → Int) (l : List Nat) :
    ∀ a : Int, l.foldl (fun w eid => w + f eid) a = a + (l.map f).sum := by
  induction l with
  | nil =>
    intro a
    simp
  | cons x t ih =>
    intro a
    simp [ih, add_assoc]

theorem getWeightA_eq_sum (st : St) :
    getWeightA st = ((getAllEdges st).map (weightOf st)).sum := by
  unfold getWeightA
  rw [foldl_add_eq_sum]
  simp

theorem getWeightB_eq_sum (st : St) :
    getWeightB st = ((getAllEdges st).map (weightOf st)).sum :=
  getWeightA_eq_sum st

theorem objDelete_of_not_mem {α β : Type} [DecidableEq α] {m : List (α × β)} {k : α}
    (h : ¬ k ∈ objKeys m) : objDelete m k = m := by
  induction m with
  | nil => rfl
  | cons p t ih =>
    rw [objKeys_cons, List.mem_cons] at h
    push_neg at h
    rw [objDelete_cons, if_neg (fun e => h.1 e.symm), ih h.2]

theorem objDelete_values_sum (f : Nat → Int) :
    ∀ (m : List (EKey × Nat)) (k : EKey) (v : Nat),
    (objKeys m).Nodup → objGet m k = some v →
    ((objValues (objDelete m k)).map f).sum = ((objValues m).map f).sum - f v := by
  intro m
  induction m with
  | nil =>
    intro k v _ hget
    simp [objGet_nil] at hget
  | cons p t ih =>
    intro k v hnd hget
    rw [objKeys_cons, List.nodup_cons] at hnd
    by_cases hp : p.1 = k
    · rw [objGet_cons, if_pos hp] at hget
      injection hget with hv
      rw [objDelete_cons, if_pos hp, objDelete_of_not_mem (hp ▸ hnd.1)]
      simp only [objValues, List.map_cons, List.map_map, List.sum_cons]
      rw [← hv]
      rw [add_sub_cancel_left]
    · rw [objGet_cons, if_neg hp] at hget
      rw [objDelete_cons, if_neg hp]
      have hrec := ih k v hnd.2 hget
      simp only [objValues, List.map_cons, List.map_map, List.sum_cons] at hrec ⊢
      rw [hrec, add_sub_assoc]

theorem deleteEdgeA_ok_inv {st st1 : St} {eid : Nat} (h : deleteEdgeA st eid = (st1, none)) :
    ∃ ed, objGet st.eheap eid = some ed ∧
      (objGet st.gEdges (keyOf st ed.startV, keyOf st ed.endV)).isSome = true ∧
      st1.gEdges = objDelete st.gEdges (keyOf st ed.startV, keyOf st ed.endV) ∧
      st1.eheap = st.eheap ∧ st1.gVertices = st.gVertices ∧
      st1.isDirected = st.isDirected := by
  cases hed : objGet st.eheap eid with
  | none => simp [deleteEdgeA, hed] at h
  | some ed =>
    refine ⟨ed, rfl, ?_⟩
    cases hfound : (objGet st.gEdges (keyOf st ed.startV, keyOf st ed.endV)).isSome with
    | false => simp [deleteEdgeA, hed, hfound] at h
    | true =>
      refine ⟨rfl, ?_⟩
      simp only [deleteEdgeA, hed, hfound, if_true] at h
      cases hsv : getVertexByKey
          { st with gEdges := objDelete st.gEdges (keyOf st ed.startV, keyOf st ed.endV) }
          (keyOf st ed.startV) with
      | none =>
        rw [hsv] at h
        simp at h
      | some sv =>
        rw [hsv] at h
        cases hev : getVertexByKey
            { st with gEdges := objDelete st.gEdges (keyOf st ed.startV, keyOf st ed.endV) }
            (keyOf st ed.endV) with
        | none =>
          rw [hev] at h
          simp at h
        | some ev =>
          rw [hev] at h
          simp only [Prod.mk.injEq, and_true] at h
          rw [← h]
          exact ⟨rfl, rfl, rfl, rfl⟩

theorem deleteEdgeB_ok_inv {st st1 : St} {eid : Nat} (h : deleteEdgeB st eid = (st1, none)) :
    ∃ ed, objGet st.eheap eid = some ed ∧
      (objGet st.gEdges (keyOf st ed.startV, keyOf st ed.endV)).isSome = true ∧
      st1.gEdges = objDelete st.gEdges (keyOf st ed.startV, keyOf st ed.endV) ∧
      st1.eheap = st.eheap ∧ st1.gVertices = st.gVertices ∧
      st1.isDirected = st.isDirected := by
  cases hed : objGet st.eheap eid with
  | none => simp [deleteEdgeB, hed] at h
  | some ed =>
    refine ⟨ed, rfl, ?_⟩
    cases hfound : (objGet st.gEdges (keyOf st ed.startV, keyOf st ed.endV)).isSome with
    | false => simp [deleteEdgeB, hed, hfound] at h
    | true =>
      refine ⟨rfl, ?_⟩
      simp only [deleteEdgeB, hed, hfound, if_true, Prod.mk.injEq, and_true] at h
      rw [← h]
      exact ⟨rfl, rfl, rfl, rfl⟩

/-- Claim C8: `getWeight` returns the sum of the weight fields of exactly
the edges currently in the edge registry (0 for an empty registry); a
successful `addEdge` of an edge of weight `w` increases it by `w`, and a
successful `deleteEdge` of that edge decreases it by `w`, in both
variants. -/
theorem getWeight_sums_registered_edges (st : St) :
    getWeightA st = ((getAllEdges st).map (weightOf st)).sum ∧
    getWeightB st = ((getAllEdges st).map (weightOf st)).sum ∧
    (st.gEdges = [] → getWeightA st = 0 ∧ getWeightB st = 0) ∧
    (∀ eid st1, addEdgeA st eid = (st1, none) →
      getWeightA st1 = getWeightA st + weightOf st eid) ∧
    (∀ eid st1, addEdgeB st eid = (st1, none) →
      getWeightB st1 = getWeightB st + weightOf st eid) ∧
    (∀ eid st1, NodupEK st → objGet st.gEdges (edgeKey st eid) = some eid →
      deleteEdgeA st eid = (st1, none) →
      getWeightA st1 = getWeightA st - weightOf st eid) ∧
    (∀ eid st1, NodupEK st → objGet st.gEdges (edgeKey st eid) = some eid →
      deleteEdgeB st eid = (st1, none) →
      getWeightB st1 = getWeightB st - weightOf st eid) := by
  refine ⟨getWeightA_eq_sum st, getWeightB_eq_sum st, ?_, ?_, ?_, ?_, ?_⟩
  · intro h
    have hA : getWeightA st = 0 := by
      unfold getWeightA getAllEdges
      rw [h]
      rfl
    exact ⟨hA, hA⟩
  · intro eid st1 h
    obtain ⟨ed, hed, hfree, hGE, hEH, _, _, _, _⟩ := addEdgeA_ok_inv h
    have hW : (weightOf st1) = (weightOf st) :=
      funext (fun a => by unfold weightOf; rw [hEH])
    have hkeyfree : ¬ (keyOf st ed.startV, keyOf st ed.endV) ∈ objKeys st.gEdges := by
      intro hmem
      rw [← objGet_isSome_iff, hfree] at hmem
      cases hmem
    have hvals : getAllEdges st1 = getAllEdges st ++ [eid] := by
      unfold getAllEdges
      rw [hGE, objSet_of_not_mem _ hkeyfree]
      simp [objValues]
    rw [getWeightA_eq_sum, getWeightA_eq_sum, hW, hvals, List.map_append, List.sum_append]
    simp
  · intro eid st1 h
    obtain ⟨ed, hed, hfree, hGE, hEH, _, _, _, _⟩ := addEdgeB_ok_inv h
    have hW : (weightOf st1) = (weightOf st) :=
      funext (fun a => by unfold weightOf; rw [hEH])
    have hkeyfree : ¬ (keyOf st ed.startV, keyOf st ed.endV) ∈ objKeys st.gEdges := by
      intro hmem
      rw [← objGet_isSome_iff, hfree] at hmem
      cases hmem
    have hvals : getAllEdges st1 = getAllEdges st ++ [eid] := by
      unfold getAllEdges
      rw [hGE, objSet_of_not_mem _ hkeyfree]
      simp [objValues]
    rw [getWeightB_eq_sum, getWeightB_eq_sum, hW, hvals, List.map_append, List.sum_append]
    simp
  · intro eid st1 hnd hget hdel
    obtain ⟨ed, hed, hfound, hGE, hEH, _, _⟩ := deleteEdgeA_ok_inv hdel
    have hkey : edgeKey st eid = (keyOf st ed.startV, keyOf st ed.endV) := by
      simp [edgeKey, hed]
    rw [hkey] at hget
    have hW : (weightOf st1) = (weightOf st) :=
      funext (fun a => by unfold weightOf; rw [hEH])
    rw [getWeightA_eq_sum, getWeightA_eq_sum, hW]
    show ((objValues st1.gEdges).map (weightOf st)).sum = _
    rw [hGE]
    exact objDelete_values_sum (weightOf st) st.gEdges _ eid hnd hget
  · intro eid st1 hnd hget hdel
    obtain ⟨ed, hed, hfound, hGE, hEH, _, _⟩ := deleteEdgeB_ok_inv hdel
    have hkey : edgeKey st eid = (keyOf st ed.startV, keyOf st ed.endV) := by
      simp [edgeKey, hed]
    rw [hkey] at hget
    have hW : (weightOf st1) = (weightOf st) :=
      funext (fun a => by unfold weightOf; rw [hEH])
    rw [getWeightB_eq_sum, getWeightB_eq_sum, hW]
    show ((objValues st1.gEdges).map (weightOf st)).sum = _
    rw [hGE]
    exact objDelete_values_sum (weightOf st) st.gEdges _ eid hnd hget

/-- Witness for C8 at concrete graphs: empty weight is 0, adding edge 10
(weight 5) increases the total by 5, and deleting it decreases it by 5,
in both variants. -/
theorem getWeight_sums_registered_edges_witness :
    (getWeightA (emptySt true) = 0 ∧ getWeightB (emptySt true) = 0) ∧
    getWeightA (addEdgeA exA 10).1 = getWeightA exA + weightOf exA 10 ∧
    getWeightB (addEdgeB exA 10).1 = getWeightB exA + weightOf exA 10 ∧
    getWeightA (deleteEdgeA (addEdgeA exA 10).1 10).1 =
      getWeightA (addEdgeA exA 10).1 - weightOf (addEdgeA exA 10).1 10 ∧
    getWeightB (deleteEdgeB (addEdgeB exA 10).1 10).1 =
      getWeightB (addEdgeB exA 10).1 - weightOf (addEdgeB exA 10).1 10 :=
  ⟨(getWeight_sums_registered_edges (emptySt true)).2.2.1 rfl,
   (getWeight_sums_registered_edges exA).2.2.2.1 10 (addEdgeA exA 10).1 (by decide),
   (getWeight_sums_registered_edges exA).2.2.2.2.1 10 (addEdgeB exA 10).1 (by decide),
   (getWeight_sums_registered_edges (addEdgeA exA 10).1).2.2.2.2.2.1 10
     (deleteEdgeA (addEdgeA exA 10).1 10).1 (by decide) (by decide) (by decide),
   (getWeight_sums_registered_edges (addEdgeB exA 10).1).2.2.2.2.2.2 10
     (deleteEdgeB (addEdgeB exA 10).1 10).1 (by decide) (by decide) (by decide)⟩

/-! ## Matrix cell lemmas -/

theorem mset_length (m : Mat) (i j : Nat) (v : Option Int) :
    (mset m i j v).length = m.length :=
  List.length_set m i _

theorem mset_getD_row_ne (m : Mat) (i j : Nat) (v : Option Int) {r : Nat} (h : ¬ i = r) :
    (mset m i j v).getD r [] = m.getD r [] := by
  unfold mset
  rw [List.getD_eq_getElem?_getD, List.getElem?_set, if_neg h, ← List.getD_eq_getElem?_getD]

theorem mset_getD_row_self (m : Mat) (i j : Nat) (v : Option Int) :
    (mset m i j v).getD i [] = (m.getD i []).set j v := by
  unfold mset
  rw [List.getD_eq_getElem?_getD, List.getElem?_set, if_pos rfl]
  by_cases hi : i < m.length
  · rw [if_pos hi]
    rfl
  · rw [if_neg hi]
    have h1 : m[i]? = none := by
      rw [List.getElem?_eq_none_iff]
      omega
    rw [show m.getD i [] = m[i]?.getD [] from List.getD_eq_getElem?_getD m i [], h1]
    rfl

theorem mset_row_length (m : Mat) (i j : Nat) (v : Option Int) (r : Nat) :
    ((mset m i j v).getD r []).length = (m.getD r []).length := by
  by_cases h : i = r
  · subst h
    rw [mset_getD_row_self, List.length_set]
  · rw [mset_getD_row_ne _ _ _ _ h]

theorem mget_mset_row_ne (m : Mat) (i j : Nat) (v : Option Int) {r : Nat} (c : Nat)
    (h : ¬ i = r) : mget (mset m i j v) r c = mget m r c := by
  unfold mget
  rw [mset_getD_row_ne _ _ _ _ h]

theorem mget_mset_col_ne (m : Mat) (i j : Nat) (v : Option Int) {c : Nat} (h : ¬ j = c) :
    mget (mset m i j v) i c = mget m i c := by
  unfold mget
  rw [mset_getD_row_self, List.getD_eq_getElem?_getD, List.getElem?_set, if_neg h,
    ← List.getD_eq_getElem?_getD]

theorem mget_mset_self (m : Mat) (i j : Nat) (v : Option Int)
    (hj : j < (m.getD i []).length) : mget (mset m i j v) i j = v := by
  unfold mget
  rw [mset_getD_row_self, List.getD_eq_getElem?_getD, List.getElem?_set, if_pos rfl,
    if_pos hj]
  rfl

/-! ## Vertex-index map lemmas -/

theorem foldl_objSet_keys (g : Nat → VKey) :
    ∀ (l : List (Nat × Nat)) (acc : List (VKey × Nat)) (a : VKey),
      (a ∈ objKeys (l.foldl (fun acc p => objSet acc (g p.2) p.1) acc) ↔
        a ∈ objKeys acc ∨ a ∈ l.map (fun p => g p.2)) := by
  intro l
  induction l with
  | nil =>
    intro acc a
    simp
  | cons p t ih =>
    intro acc a
    rw [List.foldl_cons, ih, objSet_keys_mem]
    simp only [List.map_cons, List.mem_cons]
    tauto

theorem foldl_objSet_no_write (g : Nat → VKey) :
    ∀ (l : List (Nat × Nat)) (acc : List (VKey × Nat)) (k : VKey),
      (∀ p ∈ l, ¬ g p.2 = k) →
      objGet (l.foldl (fun acc p => objSet acc (g p.2) p.1) acc) k = objGet acc k := by
  intro l
  induction l with
  | nil =>
    intro acc k _
    rfl
  | cons p t ih =>
    intro acc k h
    rw [List.foldl_cons, ih _ k (fun q hq => h q (List.mem_cons_of_mem _ hq))]
    exact objGet_objSet_ne _ _ _ (fun e => h p (List.mem_cons_self p t) e.symm)

theorem foldl_objSet_get_mem (g : Nat → VKey) :
    ∀ (l : List (Nat × Nat)) (acc : List (VKey × Nat)) {i vid : Nat},
      (i, vid) ∈ l → (l.map (fun p => g p.2)).Nodup →
      objGet (l.foldl (fun acc p => objSet acc (g p.2) p.1) acc) (g vid) = some i := by
  intro l
  induction l with
  | nil =>
    intro acc i vid hmem _
    cases hmem
  | cons p t ih =>
    intro acc i vid hmem hnd
    rw [List.map_cons, List.nodup_cons] at hnd
    rcases List.mem_cons.mp hmem with he | ht
    · rw [List.foldl_cons]
      have hne : ∀ q ∈ t, ¬ g q.2 = g vid := by
        intro q hq e
        rw [← he] at hnd
        exact hnd.1 (e ▸ List.mem_map_of_mem (fun p => g p.2) hq)
      rw [foldl_objSet_no_write g t _ _ hne]
      rw [← he]
      exact objGet_objSet_self _ _ _
    · rw [List.foldl_cons]
      exact ih _ ht hnd.2

theorem foldl_objSet_get_inv (g : Nat → VKey) :
    ∀ (l : List (Nat × Nat)) (acc : List (VKey × Nat)) (k : VKey) (c : Nat),
      objGet (l.foldl (fun acc p => objSet acc (g p.2) p.1) acc) k = some c →
      objGet acc k = some c ∨ ∃ p ∈ l, p.1 = c ∧ g p.2 = k := by
  intro l
  induction l with
  | nil =>
    intro acc k c h
    exact Or.inl h
  | cons p t ih =>
    intro acc k c h
    rw [List.foldl_cons] at h
    rcases ih _ k c h with hacc | ⟨q, hq, hqc, hqk⟩
    · by_cases hk : k = g p.2
      · rw [hk, objGet_objSet_self] at hacc
        injection hacc with hc
        exact Or.inr ⟨p, List.mem_cons_self p t, hc, hk.symm⟩
      · rw [objGet_objSet_ne _ _ _ hk] at hacc
        exact Or.inl hacc
    · exact Or.inr ⟨q, List.mem_cons_of_mem _ hq, hqc, hqk⟩

theorem objGet_of_mem_nodup {α β : Type} [DecidableEq α] {m : List (α × β)}
    (hnd : (objKeys m).Nodup) {q : α × β} (hq : q ∈ m) : objGet m q.1 = some q.2 := by
  induction m with
  | nil => cases hq
  | cons p t ih =>
    rw [objKeys_cons, List.nodup_cons] at hnd
    rcases List.mem_cons.mp hq with he | ht
    · rw [he, objGet_cons, if_pos rfl]
    · by_cases hqp : p.1 = q.1
      · exact absurd (hqp ▸ List.mem_map_of_mem (fun r => r.1) ht) hnd.1
      · rw [objGet_cons, if_neg hqp]
        exact ih hnd.2 ht

theorem keyOf_of_vertOk {st : St} (hv : VertOk st) {q : VKey × Nat} (hq : q ∈ st.gVertices) :
    keyOf st q.2 = q.1 := by
  have h := hv q hq
  unfold keyOf
  rw [h]
  rfl

theorem keys_map_eq (st : St) (hv : VertOk st) :
    (getAllVertices st).map (keyOf st) = objKeys st.gVertices := by
  unfold getAllVertices objValues objKeys
  rw [List.map_map]
  exact List.map_congr_left (fun q hq => keyOf_of_vertOk hv hq)

theorem enum_keys_eq (st : St) (hv : VertOk st) :
    ((getAllVertices st).enum.map (fun p => keyOf st p.2)) = objKeys st.gVertices := by
  rw [show (fun p : Nat × Nat => keyOf st p.2) = (keyOf st) ∘ Prod.snd from rfl,
    ← List.map_map, List.enum_map_snd]
  exact keys_map_eq st hv

theorem getVerticesIndices_get_pos (st : St) (hv : VertOk st) (hnd : NodupVK st)
    {i vid : Nat} (hmem : (i, vid) ∈ (getAllVertices st).enum) :
    objGet (getVerticesIndices st) (keyOf st vid) = some i := by
  unfold getVerticesIndices
  apply foldl_objSet_get_mem (keyOf st) _ _ hmem
  rw [enum_keys_eq st hv]
  exact hnd

theorem getVerticesIndices_inv (st : St) {k : VKey} {c : Nat}
    (h : objGet (getVerticesIndices st) k = some c) :
    ∃ p ∈ (getAllVertices st).enum, p.1 = c ∧ keyOf st p.2 = k := by
  unfold getVerticesIndices at h
  rcases foldl_objSet_get_inv (keyOf st) _ _ _ _ h with h0 | hex
  · rw [objGet_nil] at h0
    cases h0
  · exact hex

theorem getVerticesIndices_isSome (st : St) {vid : Nat} (hmem : vid ∈ getAllVertices st) :
    (objGet (getVerticesIndices st) (keyOf st vid)).isSome = true := by
  rw [objGet_isSome_iff]
  unfold getVerticesIndices
  rw [foldl_objSet_keys]
  right
  rw [show (fun p : Nat × Nat => keyOf st p.2) = (keyOf st) ∘ Prod.snd from rfl,
    ← List.map_map, List.enum_map_snd]
  exact List.mem_map_of_mem _ hmem

theorem getVerticesIndices_lt (st : St) {k : VKey} {c : Nat}
    (h : objGet (getVerticesIndices st) k = some c) :
    c < (getAllVertices st).length := by
  obtain ⟨p, hp, h1, _⟩ := getVerticesIndices_inv st h
  obtain ⟨i, vid⟩ := p
  have := (List.mem_enumFrom hp).2.1
  simp only at h1
  omega

theorem mem_enumFrom_of_mem {l : List Nat} {vid : Nat} :
    ∀ (n : Nat), vid ∈ l → ∃ i, (i, vid) ∈ l.enumFrom n := by
  induction l with
  | nil =>
    intro n h
    cases h
  | cons x t ih =>
    intro n h
    rcases List.mem_cons.mp h with he | ht
    · exact ⟨n, by rw [he]; exact List.mem_cons_self _ _⟩
    · obtain ⟨i, hi⟩ := ih (n + 1) ht
      exact ⟨i, List.mem_cons_of_mem _ hi⟩

theorem registry_value_unique (st : St) (hv : VertOk st) (hnd : NodupVK st)
    {k : VKey} {vid vid' : Nat} (hget : objGet st.gVertices k = some vid)
    (hmem : vid' ∈ getAllVertices st) (hkey : keyOf st vid' = k) : vid' = vid := by
  obtain ⟨q, hq, hq2⟩ := List.mem_map.mp hmem
  have hk : q.1 = k := by
    rw [← keyOf_of_vertOk hv hq, hq2, hkey]
  have hu : objGet st.gVertices q.1 = some q.2 := objGet_of_mem_nodup hnd hq
  rw [hk, hget] at hu
  injection hu with hu2
  rw [← hq2, hu2]

/-! ## Matrix fill lemmas -/

theorem fillCellsA_cells (st : St) (idx : List (VKey × Nat)) (vid i : Nat) :
    ∀ (nbs : List Nat) (m : Mat),
      (∀ nb ∈ nbs, (findEdgeA st vid nb).isSome = true) →
      (∀ nb ∈ nbs, ∀ c, objGet idx (keyOf st nb) = some c → c < (m.getD i []).length) →
      ∃ m1, fillCellsA st idx vid i nbs m = Except.ok m1 ∧
        m1.length = m.length ∧
        (∀ r, (m1.getD r []).length = (m.getD r []).length) ∧
        (∀ r c, ¬ r = i → mget m1 r c = mget m r c) ∧
        (∀ c, (∀ nb ∈ nbs, ¬ objGet idx (keyOf st nb) = some c) →
          mget m1 i c = mget m i c) ∧
        (∀ c pre nb post, nbs = pre ++ nb :: post →
          objGet idx (keyOf st nb) = some c →
          (∀ x ∈ post, ¬ objGet idx (keyOf st x) = some c) →
          ∀ eidF, findEdgeA st vid nb = some eidF →
          mget m1 i c = some (weightOf st eidF)) := by
  intro nbs
  induction nbs with
  | nil =>
    intro m _ _
    refine ⟨m, rfl, rfl, fun r => rfl, fun r c _ => rfl, fun c _ => rfl, ?_⟩
    intro c pre nb post hsplit
    exact absurd hsplit (by cases pre <;> simp)
  | cons nb0 rest ih =>
    intro m hfind hbound
    obtain ⟨e0, he0⟩ := Option.isSome_iff_exists.mp (hfind nb0 (List.mem_cons_self _ _))
    cases hidx : objGet idx (keyOf st nb0) with
    | none =>
      have hstep : fillCellsA st idx vid i (nb0 :: rest) m = fillCellsA st idx vid i rest m := by
        simp [fillCellsA, he0, hidx]
      obtain ⟨m1, hok, hlen, hrowlen, hother, hnw, hlast⟩ :=
        ih m (fun nb h => hfind nb (List.mem_cons_of_mem _ h))
          (fun nb h => hbound nb (List.mem_cons_of_mem _ h))
      refine ⟨m1, by rw [hstep]; exact hok, hlen, hrowlen, hother, ?_, ?_⟩
      · intro c hc
        exact hnw c (fun nb h => hc nb (List.mem_cons_of_mem _ h))
      · intro c pre nb post hsplit hc hpost eidF hfindF
        cases pre with
        | nil =>
          simp only [List.nil_append] at hsplit
          injection hsplit with h1 h2
          rw [← h1, hidx] at hc
          cases hc
        | cons x pre2 =>
          simp only [List.cons_append] at hsplit
          injection hsplit with h1 h2
          exact hlast c pre2 nb post h2 hc hpost eidF hfindF
    | some j =>
      have hjlt : j < (m.getD i []).length :=
        hbound nb0 (List.mem_cons_self _ _) j hidx
      have hstep : fillCellsA st idx vid i (nb0 :: rest) m =
          fillCellsA st idx vid i rest (mset m i j (some (weightOf st e0))) := by
        simp [fillCellsA, he0, hidx]
      have hbound2 : ∀ nb ∈ rest, ∀ c, objGet idx (keyOf st nb) = some c →
          c < ((mset m i j (some (weightOf st e0))).getD i []).length := by
        intro nb h c hc
        rw [mset_row_length]
        exact hbound nb (List.mem_cons_of_mem _ h) c hc
      obtain ⟨m1, hok, hlen, hrowlen, hother, hnw, hlast⟩ :=
        ih (mset m i j (some (weightOf st e0)))
          (fun nb h => hfind nb (List.mem_cons_of_mem _ h)) hbound2
      refine ⟨m1, by rw [hstep]; exact hok, ?_, ?_, ?_, ?_, ?_⟩
      · rw [hlen, mset_length]
      · intro r
        rw [hrowlen r, mset_row_length]
      · intro r c hr
        rw [hother r c hr, mget_mset_row_ne _ _ _ _ _ (fun e => hr e.symm)]
      · intro c hc
        have hcne : ¬ j = c := by
          intro e
          exact hc nb0 (List.mem_cons_self _ _) (e ▸ hidx)
        rw [hnw c (fun nb h => hc nb (List.mem_cons_of_mem _ h)),
          mget_mset_col_ne _ _ _ _ hcne]
      · intro c pre nb post hsplit hc hpost eidF hfindF
        cases pre with
        | nil =>
          simp only [List.nil_append] at hsplit
          injection hsplit with h1 h2
          have hcj : j = c := by
            rw [← h1, hidx] at hc
            injection hc
          have heid : eidF = e0 := by
            rw [← h1, he0] at hfindF
            injection hfindF with hx
            exact hx.symm
          have hrestnw : ∀ x ∈ rest, ¬ objGet idx (keyOf st x) = some c := by
            rw [h2]
            exact hpost
          rw [hnw c hrestnw, ← hcj, mget_mset_self _ _ _ _ hjlt, heid]
        | cons x pre2 =>
          simp only [List.cons_append] at hsplit
          injection hsplit with h1 h2
          exact hlast c pre2 nb post h2 hc hpost eidF hfindF

theorem fillRowsA_cells (st : St) (idx : List (VKey × Nat)) :
    ∀ (l : List (Nat × Nat)) (m : Mat),
      (∀ p ∈ l, ∀ nb ∈ vNeighbors st p.2, (findEdgeA st p.2 nb).isSome = true) →
      ((l.map (fun p => p.1)).Nodup) →
      (∀ p ∈ l, ∀ nb ∈ vNeighbors st p.2, ∀ c, objGet idx (keyOf st nb) = some c →
        c < (m.getD p.1 []).length) →
      ∃ M, fillRowsA st idx l m = Except.ok M ∧
        M.length = m.length ∧
        (∀ r, (M.getD r []).length = (m.getD r []).length) ∧
        (∀ r c, (∀ p ∈ l, ¬ p.1 = r) → mget M r c = mget m r c) ∧
        (∀ p ∈ l, ∀ c,
          ((∀ nb ∈ vNeighbors st p.2, ¬ objGet idx (keyOf st nb) = some c) →
            mget M p.1 c = mget m p.1 c) ∧
          (∀ pre nb post, vNeighbors st p.2 = pre ++ nb :: post →
            objGet idx (keyOf st nb) = some c →
            (∀ x ∈ post, ¬ objGet idx (keyOf st x) = some c) →
            ∀ eidF, findEdgeA st p.2 nb = some eidF →
            mget M p.1 c = some (weightOf st eidF))) := by
  intro l
  induction l with
  | nil =>
    intro m _ _ _
    exact ⟨m, rfl, rfl, fun r => rfl, fun r c _ => rfl, fun p hp => absurd hp (by simp)⟩
  | cons p0 t ih =>
    intro m hfind hnd hbound
    rw [List.map_cons, List.nodup_cons] at hnd
    obtain ⟨m1, hok1, hlen1, hrowlen1, hother1, hnw1, hlast1⟩ :=
      fillCellsA_cells st idx p0.2 p0.1 (vNeighbors st p0.2) m
        (hfind p0 (List.mem_cons_self _ _))
        (fun nb h c hc => hbound p0 (List.mem_cons_self _ _) nb h c hc)
    have hbound2 : ∀ p ∈ t, ∀ nb ∈ vNeighbors st p.2, ∀ c,
        objGet idx (keyOf st nb) = some c → c < (m1.getD p.1 []).length := by
      intro p hp nb h c hc
      rw [hrowlen1]
      exact hbound p (List.mem_cons_of_mem _ hp) nb h c hc
    obtain ⟨M, hok2, hlen2, hrowlen2, hother2, hcells2⟩ :=
      ih m1 (fun p hp => hfind p (List.mem_cons_of_mem _ hp)) hnd.2 hbound2
    have hstep : fillRowsA st idx (p0 :: t) m = fillRowsA st idx t m1 := by
      simp [fillRowsA, hok1]
    refine ⟨M, by rw [hstep]; exact hok2, by rw [hlen2, hlen1], ?_, ?_, ?_⟩
    · intro r
      rw [hrowlen2 r, hrowlen1 r]
    · intro r c hnr
      rw [hother2 r c (fun q hq => hnr q (List.mem_cons_of_mem _ hq)),
        hother1 r c (fun e => hnr p0 (List.mem_cons_self _ _) e.symm)]
    · intro p hp c
      rcases List.mem_cons.mp hp with he | hpt
      · subst he
        have hrowpres : ∀ c2, mget M p.1 c2 = mget m1 p.1 c2 := by
          intro c2
          apply hother2
          intro q hq e
          exact hnd.1 (e ▸ List.mem_map_of_mem (fun r => r.1) hq)
        constructor
        · intro hnowrite
          rw [hrowpres c, hnw1 c hnowrite]
        · intro pre nb post hsplit hc hpost eidF hfindF
          rw [hrowpres c]
          exact hlast1 c pre nb post hsplit hc hpost eidF hfindF
      · have hrne : ¬ p0.1 = p.1 :=
          fun e => hnd.1 (e ▸ List.mem_map_of_mem (fun r => r.1) hpt)
        have hbase : ∀ c2, mget m1 p.1 c2 = mget m p.1 c2 :=
          fun c2 => hother1 p.1 c2 (fun e => hrne e.symm)
        obtain ⟨hA, hB⟩ := hcells2 p hpt c
        constructor
        · intro hnowrite
          rw [hA hnowrite, hbase]
        · intro pre nb post hsplit hc hpost eidF hfindF
          exact hB pre nb post hsplit hc hpost eidF hfindF

theorem fillCellsA_ok_lookup (st : St) (idx : List (VKey × Nat)) (vid i : Nat) :
    ∀ (nbs : List Nat) (m m1 : Mat), fillCellsA st idx vid i nbs m = Except.ok m1 →
      ∀ nb ∈ nbs, (findEdgeA st vid nb).isSome = true := by
  intro nbs
  induction nbs with
  | nil =>
    intro m m1 _ nb h
    cases h
  | cons nb0 rest ih =>
    intro m m1 hok nb h
    cases hf : findEdgeA st vid nb0 with
    | none =>
      rw [show fillCellsA st idx vid i (nb0 :: rest) m = Except.error GErr.typeError from
        by simp [fillCellsA, hf]] at hok
      cases hok
    | some e0 =>
      rcases List.mem_cons.mp h with he | ht
      · rw [he, hf]
        rfl
      · cases hidx : objGet idx (keyOf st nb0) with
        | some j =>
          rw [show fillCellsA st idx vid i (nb0 :: rest) m =
            fillCellsA st idx vid i rest (mset m i j (some (weightOf st e0))) from
            by simp [fillCellsA, hf, hidx]] at hok
          exact ih _ m1 hok nb ht
        | none =>
          rw [show fillCellsA st idx vid i (nb0 :: rest) m =
            fillCellsA st idx vid i rest m from by simp [fillCellsA, hf, hidx]] at hok
          exact ih _ m1 hok nb ht

theorem fillRowsA_ok_lookup (st : St) (idx : List (VKey × Nat)) :
    ∀ (l : List (Nat × Nat)) (m M : Mat), fillRowsA st idx l m = Except.ok M →
      ∀ p ∈ l, ∀ nb ∈ vNeighbors st p.2, (findEdgeA st p.2 nb).isSome = true := by
  intro l
  induction l with
  | nil =>
    intro m M _ p hp
    cases hp
  | cons p0 t ih =>
    intro m M hok p hp
    cases hc : fillCellsA st idx p0.2 p0.1 (vNeighbors st p0.2) m with
    | error e =>
      rw [show fillRowsA st idx (p0 :: t) m = Except.error e from by simp [fillRowsA, hc]] at hok
      cases hok
    | ok m1 =>
      rcases List.mem_cons.mp hp with he | hpt
      · rw [he]
        exact fillCellsA_ok_lookup st idx p0.2 p0.1 _ m m1 hc
      · rw [show fillRowsA st idx (p0 :: t) m = fillRowsA st idx t m1 from
          by simp [fillRowsA, hc]] at hok
        exact ih m1 M hok p hpt

theorem fillCellsB_ok (st : St) (idx : List (VKey × Nat)) (vid : Nat)
    (hrow : (objGet idx (keyOf st vid)).isSome = true) :
    ∀ (nbs : List Nat) (m : Mat), ∃ m1, fillCellsB st idx vid nbs m = Except.ok m1 := by
  obtain ⟨i, hi⟩ := Option.isSome_iff_exists.mp hrow
  intro nbs
  induction nbs with
  | nil =>
    intro m
    exact ⟨m, rfl⟩
  | cons nb0 rest ih =>
    intro m
    cases hidx : objGet idx (keyOf st nb0) with
    | some j =>
      obtain ⟨m1, h1⟩ :=
        ih (mset m i j ((findEdgeB st vid nb0).map (fun eid => weightOf st eid)))
      refine ⟨m1, ?_⟩
      rw [show fillCellsB st idx vid (nb0 :: rest) m = fillCellsB st idx vid rest
        (mset m i j ((findEdgeB st vid nb0).map (fun eid => weightOf st eid))) from
        by simp [fillCellsB, hi, hidx]]
      exact h1
    | none =>
      obtain ⟨m1, h1⟩ := ih m
      refine ⟨m1, ?_⟩
      rw [show fillCellsB st idx vid (nb0 :: rest) m = fillCellsB st idx vid rest m from
        by simp [fillCellsB, hi, hidx]]
      exact h1

theorem fillRowsB_ok (st : St) (idx : List (VKey × Nat)) :
    ∀ (l : List Nat) (m : Mat),
      (∀ vid ∈ l, (objGet idx (keyOf st vid)).isSome = true) →
      ∃ M, fillRowsB st idx l m = Except.ok M := by
  intro l
  induction l with
  | nil =>
    intro m _
    exact ⟨m, rfl⟩
  | cons vid0 t ih =>
    intro m h
    obtain ⟨m1, h1⟩ := fillCellsB_ok st idx vid0 (h vid0 (List.mem_cons_self _ _))
      (vNeighbors st vid0) m
    obtain ⟨M, h2⟩ := ih m1 (fun v hv => h v (List.mem_cons_of_mem _ hv))
    refine ⟨M, ?_⟩
    rw [show fillRowsB st idx (vid0 :: t) m = fillRowsB st idx t m1 from
      by simp [fillRowsB, h1]]
    exact h2

theorem getAdjacencyMatrixB_total (st : St) : ∃ M, getAdjacencyMatrixB st = Except.ok M := by
  unfold getAdjacencyMatrixB
  apply fillRowsB_ok
  intro vid hmem
  exact getVerticesIndices_isSome st hmem

theorem findEdgeA_self (st : St) {k : VKey} {vid : Nat}
    (hget : objGet st.gVertices k = some vid) (hv : VertOk st) (ev : Nat) :
    findEdgeA st vid ev = vFindEdge st vid ev := by
  have hk : keyOf st vid = k := keyOf_of_vertOk hv (objGet_mem_of_some hget)
  unfold findEdgeA
  rw [hk, show getVertexByKey st k = some vid from hget]

theorem matrix_lookups_ok (st : St) (hv : VertOk st) (hnd : NodupVK st)
    (he : EdgeOk st) (ha : AdjOk st) :
    ∀ vid ∈ getAllVertices st, ∀ nb ∈ vNeighbors st vid,
      (findEdgeA st vid nb).isSome = true := by
  intro vid hmem nb hnb
  obtain ⟨q, hq, hq2⟩ := List.mem_map.mp hmem
  have hself : objGet st.gVertices q.1 = some vid := by
    rw [← hq2]
    exact objGet_of_mem_nodup hnd hq
  rw [findEdgeA_self st hself hv]
  unfold vNeighbors at hnb
  obtain ⟨eid1, hadj, hnb2⟩ := List.mem_map.mp hnb
  obtain ⟨q1, hq1, hq1eid, hside⟩ := ha q hq eid1 (by rw [hq2]; exact hadj)
  have hchk := he q1 hq1
  unfold edgeKeyChk at hchk
  cases hed1 : objGet st.eheap q1.2 with
  | none =>
    rw [hed1] at hchk
    cases hchk
  | some ed1 =>
    rw [hq1eid] at hed1
    rw [hed1] at hnb2
    unfold vFindEdge
    rw [List.find?_isSome]
    refine ⟨eid1, hadj, ?_⟩
    rw [hed1]
    have hnb3 : (if ed1.startV = vid then ed1.endV else ed1.startV) = nb := hnb2
    show (decide (ed1.startV = nb) || decide (ed1.endV = nb)) = true
    by_cases hsv : ed1.startV = vid
    · rw [if_pos hsv] at hnb3
      simp [hnb3]
    · rw [if_neg hsv] at hnb3
      simp [hnb3]

theorem fillCellsB_eq_A (st : St) (idx : List (VKey × Nat)) (vid i : Nat)
    (hrow : objGet idx (keyOf st vid) = some i)
    (hAB : ∀ nb, findEdgeA st vid nb = findEdgeB st vid nb) :
    ∀ (nbs : List Nat) (m : Mat),
      (∀ nb ∈ nbs, (findEdgeA st vid nb).isSome = true) →
      fillCellsB st idx vid nbs m = fillCellsA st idx vid i nbs m := by
  intro nbs
  induction nbs with
  | nil =>
    intro m _
    rfl
  | cons nb0 rest ih =>
    intro m hfind
    obtain ⟨e0, he0⟩ := Option.isSome_iff_exists.mp (hfind nb0 (List.mem_cons_self _ _))
    have heB : findEdgeB st vid nb0 = some e0 := by
      rw [← hAB]
      exact he0
    cases hidx : objGet idx (keyOf st nb0) with
    | some j =>
      rw [show fillCellsB st idx vid (nb0 :: rest) m = fillCellsB st idx vid rest
          (mset m i j (some (weightOf st e0))) from by simp [fillCellsB, hrow, hidx, heB],
        show fillCellsA st idx vid i (nb0 :: rest) m = fillCellsA st idx vid i rest
          (mset m i j (some (weightOf st e0))) from by simp [fillCellsA, he0, hidx]]
      exact ih _ (fun nb h => hfind nb (List.mem_cons_of_mem _ h))
    | none =>
      rw [show fillCellsB st idx vid (nb0 :: rest) m = fillCellsB st idx vid rest m from
          by simp [fillCellsB, hrow, hidx, heB],
        show fillCellsA st idx vid i (nb0 :: rest) m = fillCellsA st idx vid i rest m from
          by simp [fillCellsA, he0, hidx]]
      exact ih m (fun nb h => hfind nb (List.mem_cons_of_mem _ h))

theorem fillRowsB_eq_A (st : St) (idx : List (VKey × Nat)) :
    ∀ (l : List (Nat × Nat)) (m : Mat),
      (∀ p ∈ l, objGet idx (keyOf st p.2) = some p.1) →
      (∀ p ∈ l, ∀ nb, findEdgeA st p.2 nb = findEdgeB st p.2 nb) →
      (∀ p ∈ l, ∀ nb ∈ vNeighbors st p.2, (findEdgeA st p.2 nb).isSome = true) →
      fillRowsB st idx (l.map (fun p => p.2)) m = fillRowsA st idx l m := by
  intro l
  induction l with
  | nil =>
    intro m _ _ _
    rfl
  | cons p0 t ih =>
    intro m hrow hAB hfind
    rw [List.map_cons]
    have hcellEq := fillCellsB_eq_A st idx p0.2 p0.1 (hrow p0 (List.mem_cons_self _ _))
      (hAB p0 (List.mem_cons_self _ _)) (vNeighbors st p0.2) m
      (hfind p0 (List.mem_cons_self _ _))
    cases hc : fillCellsA st idx p0.2 p0.1 (vNeighbors st p0.2) m with
    | error e =>
      rw [show fillRowsB st idx (p0.2 :: t.map (fun p => p.2)) m = Except.error e from
          by simp only [fillRowsB]; rw [hcellEq, hc],
        show fillRowsA st idx (p0 :: t) m = Except.error e from
          by simp only [fillRowsA]; rw [hc]]
    | ok m1 =>
      rw [show fillRowsB st idx (p0.2 :: t.map (fun p => p.2)) m =
          fillRowsB st idx (t.map (fun p => p.2)) m1 from
          by simp only [fillRowsB]; rw [hcellEq, hc],
        show fillRowsA st idx (p0 :: t) m = fillRowsA st idx t m1 from
          by simp only [fillRowsA]; rw [hc]]
      exact ih m1 (fun p hp => hrow p (List.mem_cons_of_mem _ hp))
        (fun p hp => hAB p (List.mem_cons_of_mem _ hp))
        (fun p hp => hfind p (List.mem_cons_of_mem _ hp))

/-- Claim C6, amended: during matrix construction, when a vertex reports a
neighbor for which the edge lookup fails, `codigo_a` fails loudly (the
null dereference throws) — but `codigo_b` never fails: it silently
substitutes the infinite sentinel and always returns a matrix. -/
theorem matrix_inconsistency_handling (st : St) :
    ((∃ vid ∈ getAllVertices st, ∃ nb ∈ vNeighbors st vid, findEdgeA st vid nb = none) →
      ∃ e, getAdjacencyMatrixA st = Except.error e) ∧
    (∃ M, getAdjacencyMatrixB st = Except.ok M) := by
  constructor
  · intro h
    obtain ⟨vid, hvid, nb, hnb, hfail⟩ := h
    cases hres : getAdjacencyMatrixA st with
    | error e => exact ⟨e, rfl⟩
    | ok M =>
      exfalso
      unfold getAdjacencyMatrixA at hres
      have hl := fillRowsA_ok_lookup st (getVerticesIndices st) _ _ _ hres
      obtain ⟨i, hi⟩ := mem_enumFrom_of_mem 0 hvid
      have hs := hl (i, vid) hi nb hnb
      rw [hfail] at hs
      cases hs
  · exact getAdjacencyMatrixB_total st

/-- Witness for C6 at the concrete breached state `exDangling` (a vertex
adjacency entry with no matching edge): `codigo_a` errors, `codigo_b`
still returns a matrix. -/
theorem matrix_inconsistency_handling_witness :
    (∃ e, getAdjacencyMatrixA exDangling = Except.error e) ∧
    (∃ M, getAdjacencyMatrixB exDangling = Except.ok M) :=
  ⟨(matrix_inconsistency_handling exDangling).1 (by decide),
   (matrix_inconsistency_handling exDangling).2⟩

/-- Counterexample to C6 as stated: in `codigo_b`, the registered vertex
reports a neighbor whose edge lookup fails, yet the operation completes
with no error and the infinite sentinel is silently substituted into the
matrix cell. -/
theorem matrixB_silent_default_cex :
    (0 ∈ vNeighbors exDangling 0) ∧
    findEdgeB exDangling 0 0 = none ∧
    getAdjacencyMatrixB exDangling = Except.ok [[none]] := by
  decide

/-! ## Post-addEdge state lemmas -/

theorem nodup_map_unique {α β : Type} {l : List α} {f : α → β} (hnd : (l.map f).Nodup) :
    ∀ {p q : α}, p ∈ l → q ∈ l → f p = f q → p = q := by
  induction l with
  | nil =>
    intro p q hp
    cases hp
  | cons x t ih =>
    intro p q hp hq he
    rw [List.map_cons, List.nodup_cons] at hnd
    rcases List.mem_cons.mp hp with hpe | hpt
    · rcases List.mem_cons.mp hq with hqe | hqt
      · rw [hpe, hqe]
      · exfalso
        apply hnd.1
        have hfx : f x = f q := by
          rw [← hpe]
          exact he
        rw [hfx]
        exact List.mem_map_of_mem f hqt
    · rcases List.mem_cons.mp hq with hqe | hqt
      · exfalso
        apply hnd.1
        have hfx : f x = f p := by
          rw [← hqe]
          exact he.symm
        rw [hfx]
        exact List.mem_map_of_mem f hpt
      · exact ih hnd.2 hpt hqt he

theorem keyOpt_vAddEdge (st : St) (vid eid x : Nat) :
    ((objGet (vAddEdge st vid eid).vheap x).map (fun v => v.key)) =
      ((objGet st.vheap x).map (fun v => v.key)) := by
  rw [vAddEdge_vheap_get]
  by_cases h : x = vid
  · rw [if_pos h]
    cases objGet st.vheap x <;> simp [adjPush]
  · rw [if_neg h]

theorem vertOk_vAddEdge (st : St) (vid eid : Nat) (hv : VertOk st) :
    VertOk (vAddEdge st vid eid) := by
  intro p hp
  rw [keyOpt_vAddEdge]
  exact hv p hp

theorem edgeKeyChk_vAddEdge (st : St) (vid eid x : Nat) :
    edgeKeyChk (vAddEdge st vid eid) x = edgeKeyChk st x := by
  unfold edgeKeyChk
  rw [vAddEdge_eheap]
  cases hx : objGet st.eheap x with
  | none => rfl
  | some ed =>
    simp only [Option.some_bind]
    rw [keyOpt_vAddEdge, keyOpt_vAddEdge]

theorem ensure_noop (st : St) (vid : Nat)
    (h : (getVertexByKey st (keyOf st vid)).isSome = true) :
    ensureVertexExists st vid = st := by
  unfold ensureVertexExists
  cases hx : getVertexByKey st (keyOf st vid) with
  | none =>
    rw [hx] at h
    cases h
  | some v =>
    rfl

theorem addEdgeA_ok_eq {st : St} {eid : Nat} {ed : EdgeData} {sv ev : Nat}
    (hed : objGet st.eheap eid = some ed)
    (hsv : getVertexByKey st (keyOf st ed.startV) = some sv)
    (hev : getVertexByKey st (keyOf st ed.endV) = some ev)
    (hfree : (objGet st.gEdges (keyOf st ed.startV, keyOf st ed.endV)).isSome = false) :
    addEdgeA st eid =
      (if st.isDirected then
        vAddEdge
          { st with gEdges := objSet st.gEdges (keyOf st ed.startV, keyOf st ed.endV) eid }
          sv eid
      else
        vAddEdge (vAddEdge
          { st with gEdges := objSet st.gEdges (keyOf st ed.startV, keyOf st ed.endV) eid }
          sv eid) ev eid, none) := by
  simp [addEdgeA, hed, hsv, hev, hfree]

theorem addEdgeB_ok_eq {st : St} {eid : Nat} {ed : EdgeData}
    (hed : objGet st.eheap eid = some ed)
    (hsv : getVertexByKey st (keyOf st ed.startV) = some ed.startV)
    (hev : getVertexByKey st (keyOf st ed.endV) = some ed.endV)
    (hfree : (objGet st.gEdges (keyOf st ed.startV, keyOf st ed.endV)).isSome = false) :
    addEdgeB st eid =
      (if st.isDirected then
        vAddEdge
          { st with gEdges := objSet st.gEdges (keyOf st ed.startV, keyOf st ed.endV) eid }
          ed.startV eid
      else
        vAddEdge (vAddEdge
          { st with gEdges := objSet st.gEdges (keyOf st ed.startV, keyOf st ed.endV) eid }
          ed.startV eid) ed.endV eid, none) := by
  have hsv1 : (getVertexByKey
      { st with gEdges := objSet st.gEdges (keyOf st ed.startV, keyOf st ed.endV) eid }
      (keyOf st ed.startV)).isSome = true := by
    rw [show getVertexByKey
      { st with gEdges := objSet st.gEdges (keyOf st ed.startV, keyOf st ed.endV) eid }
      (keyOf st ed.startV) = getVertexByKey st (keyOf st ed.startV) from rfl, hsv]
    rfl
  have he1 := ensure_noop
    { st with gEdges := objSet st.gEdges (keyOf st ed.startV, keyOf st ed.endV) eid }
    ed.startV hsv1
  have hev1 : (getVertexByKey
      { st with gEdges := objSet st.gEdges (keyOf st ed.startV, keyOf st ed.endV) eid }
      (keyOf st ed.endV)).isSome = true := by
    rw [show getVertexByKey
      { st with gEdges := objSet st.gEdges (keyOf st ed.startV, keyOf st ed.endV) eid }
      (keyOf st ed.endV) = getVertexByKey st (keyOf st ed.endV) from rfl, hev]
    rfl
  have he2 := ensure_noop
    { st with gEdges := objSet st.gEdges (keyOf st ed.startV, keyOf st ed.endV) eid }
    ed.endV hev1
  simp only [addEdgeB, hed, hfree, Bool.false_eq_true, if_false]
  rw [he1, he2]
  simp [vAddEdge_isDirected]

/-! ## C5 support: the initial matrix, index-map injectivity, and
neighbor-key bookkeeping -/

theorem init_mget_none (vids : List Nat) (r c : Nat) :
    mget (vids.map (fun _ => vids.map (fun _ => (none : Option Int)))) r c = none := by
  unfold mget
  rw [List.map_const', List.map_const']
  have hrow : (List.replicate vids.length (List.replicate vids.length
      (none : Option Int))).getD r [] = if r < vids.length
        then List.replicate vids.length (none : Option Int) else [] := by
    rw [List.getD_eq_getElem?_getD, List.getElem?_replicate]
    by_cases hr : r < vids.length
    · rw [if_pos hr, if_pos hr]
      rfl
    · rw [if_neg hr, if_neg hr]
      rfl
  rw [hrow]
  by_cases hr : r < vids.length
  · rw [if_pos hr, List.getD_eq_getElem?_getD, List.getElem?_replicate]
    by_cases hc : c < vids.length
    · rw [if_pos hc]
      rfl
    · rw [if_neg hc]
      rfl
  · rw [if_neg hr]
    rfl

theorem init_row_len (vids : List Nat) (r : Nat) (hr : r < vids.length) :
    ((vids.map (fun _ => vids.map (fun _ => (none : Option Int)))).getD r []).length
      = vids.length := by
  rw [List.map_const', List.map_const', List.getD_eq_getElem?_getD, List.getElem?_replicate,
    if_pos hr]
  show (List.replicate vids.length (none : Option Int)).length = vids.length
  exact List.length_replicate _ _

theorem init_length (vids : List Nat) :
    (vids.map (fun _ => vids.map (fun _ => (none : Option Int)))).length = vids.length :=
  List.length_map _ _

theorem enum_mem_val {α : Type} {x : α} :
    ∀ (l : List α) (n i : Nat), (i, x) ∈ l.enumFrom n → x ∈ l := by
  intro l
  induction l with
  | nil =>
    intro n i h
    cases h
  | cons y t ih =>
    intro n i h
    rw [List.enumFrom_cons] at h
    rcases List.mem_cons.mp h with he | ht
    · injection he with h1 h2
      exact List.mem_cons.mpr (Or.inl h2)
    · exact List.mem_cons_of_mem _ (ih (n + 1) i ht)

theorem getVerticesIndices_inj (st : St) {k1 k2 : VKey} {c : Nat}
    (h1 : objGet (getVerticesIndices st) k1 = some c)
    (h2 : objGet (getVerticesIndices st) k2 = some c) : k1 = k2 := by
  obtain ⟨p1, hp1, hc1, hk1⟩ := getVerticesIndices_inv st h1
  obtain ⟨p2, hp2, hc2, hk2⟩ := getVerticesIndices_inv st h2
  have hnd : (((getAllVertices st).enum.map (fun p => p.1)).Nodup) := by
    rw [show (fun p : Nat × Nat => p.1) = Prod.fst from rfl, List.enum_map_fst]
    exact List.nodup_range _
  have hpp : p1 = p2 := nodup_map_unique hnd hp1 hp2 (by show p1.1 = p2.1; rw [hc1, hc2])
  rw [← hk1, ← hk2, hpp]

theorem keyOf_eq_of_mapkey {st : St} {x : Nat} {k : VKey}
    (h : (objGet st.vheap x).map (fun v => v.key) = some k) : keyOf st x = k := by
  unfold keyOf
  rw [h]
  rfl

theorem edgeKeyChk_extract {st : St} {eid2 : Nat} {k : EKey}
    (h : edgeKeyChk st eid2 = some k) :
    ∃ ed2, objGet st.eheap eid2 = some ed2 ∧
      (objGet st.vheap ed2.startV).map (fun v => v.key) = some k.1 ∧
      (objGet st.vheap ed2.endV).map (fun v => v.key) = some k.2 := by
  unfold edgeKeyChk at h
  cases he : objGet st.eheap eid2 with
  | none =>
    rw [he] at h
    cases h
  | some ed2 =>
    rw [he, Option.some_bind] at h
    cases hs : (objGet st.vheap ed2.startV).map (fun v => v.key) with
    | none =>
      rw [hs] at h
      cases h
    | some a =>
      rw [hs, Option.some_bind] at h
      cases ht : (objGet st.vheap ed2.endV).map (fun v => v.key) with
      | none =>
        rw [ht] at h
        cases h
      | some b =>
        rw [ht, Option.map_some'] at h
        injection h with h2
        refine ⟨ed2, rfl, ?_, ?_⟩
        · rw [hs, ← h2]
        · rw [ht, ← h2]

theorem no_old_edge_toward (st : St) (he : EdgeOk st) (ha : AdjOk st)
    {xk yk : VKey} {xv yv : Nat}
    (hX : (xk, xv) ∈ st.gVertices)
    (hYk : keyOf st yv = yk)
    (hfree1 : (objGet st.gEdges (xk, yk)).isSome = false)
    (hfree2 : (objGet st.gEdges (yk, xk)).isSome = false)
    (hkne : ¬ xk = yk) :
    ∀ eid2 ∈ adjOf st xv,
      (fun eid' =>
        match objGet st.eheap eid' with
        | some ed2 => decide (ed2.startV = yv) || decide (ed2.endV = yv)
        | none => false) eid2 = false := by
  intro eid2 hadj
  show (match objGet st.eheap eid2 with
    | some ed2 => decide (ed2.startV = yv) || decide (ed2.endV = yv)
    | none => false) = false
  obtain ⟨q, hq, hqeid, hside⟩ := ha (xk, xv) hX eid2 hadj
  obtain ⟨ed2, hed2, hs, ht⟩ := edgeKeyChk_extract (he q hq)
  rw [hqeid] at hed2
  rw [hed2]
  show (decide (ed2.startV = yv) || decide (ed2.endV = yv)) = false
  have hqsome : (objGet st.gEdges q.1).isSome = true := by
    rw [objGet_isSome_iff]
    exact List.mem_map_of_mem (fun p => p.1) hq
  have h1 : ¬ ed2.startV = yv := by
    intro hsv
    rw [hsv] at hs
    have hk1 : q.1.1 = yk := by
      rw [← keyOf_eq_of_mapkey hs]
      exact hYk
    rcases hside with hh | hh
    · apply hkne
      have hh1 : q.1.1 = xk := hh
      rw [← hh1]
      exact hk1
    · have hh2 : q.1.2 = xk := hh.2
      have hq1 : q.1 = (yk, xk) := Prod.ext hk1 hh2
      rw [hq1, hfree2] at hqsome
      simp at hqsome
  have h2 : ¬ ed2.endV = yv := by
    intro hev
    rw [hev] at ht
    have hk2 : q.1.2 = yk := by
      rw [← keyOf_eq_of_mapkey ht]
      exact hYk
    rcases hside with hh | hh
    · have hh1 : q.1.1 = xk := hh
      have hq1 : q.1 = (xk, yk) := Prod.ext hh1 hk2
      rw [hq1, hfree1] at hqsome
      simp at hqsome
    · have hh2 : q.1.2 = xk := hh.2
      apply hkne
      rw [← hh2]
      exact hk2
  simp [h1, h2]

theorem no_neighbor_key_directed (st : St) (he : EdgeOk st) (ha : AdjOk st)
    (hdir : st.isDirected = true)
    {xk yk : VKey} {xv : Nat}
    (hX : (xk, xv) ∈ st.gVertices)
    (hfree1 : (objGet st.gEdges (xk, yk)).isSome = false)
    (hkne : ¬ xk = yk) :
    ∀ nb ∈ vNeighbors st xv, ¬ keyOf st nb = yk := by
  intro nb hnb
  unfold vNeighbors at hnb
  obtain ⟨eid2, hadj, hnb2⟩ := List.mem_map.mp hnb
  obtain ⟨q, hq, hqeid, hside⟩ := ha (xk, xv) hX eid2 hadj
  have hq11 : q.1.1 = xk := by
    rcases hside with hh | hh
    · exact hh
    · rw [hdir] at hh
      exact absurd hh.1 (by decide)
  obtain ⟨ed2, hed2, hs, ht⟩ := edgeKeyChk_extract (he q hq)
  rw [hqeid] at hed2
  rw [hed2] at hnb2
  have hnb3 : (if ed2.startV = xv then ed2.endV else ed2.startV) = nb := hnb2
  intro hkey
  have hqsome : (objGet st.gEdges q.1).isSome = true := by
    rw [objGet_isSome_iff]
    exact List.mem_map_of_mem (fun p => p.1) hq
  by_cases hsv : ed2.startV = xv
  · rw [if_pos hsv] at hnb3
    have hknb : keyOf st nb = q.1.2 := by
      rw [← hnb3]
      exact keyOf_eq_of_mapkey ht
    have hq1 : q.1 = (xk, yk) := Prod.ext hq11 (by rw [← hknb]; exact hkey)
    rw [hq1, hfree1] at hqsome
    simp at hqsome
  · rw [if_neg hsv] at hnb3
    have hknb : keyOf st nb = xk := by
      rw [← hnb3, keyOf_eq_of_mapkey hs]
      exact hq11
    exact hkne (by rw [← hknb]; exact hkey)

theorem getVerticesIndices_congr (st st' : St)
    (hg : st'.gVertices = st.gVertices)
    (hk : ∀ x, keyOf st' x = keyOf st x) :
    getVerticesIndices st' = getVerticesIndices st := by
  have hf : (fun (acc : List (VKey × Nat)) (p : Nat × Nat) => objSet acc (keyOf st' p.2) p.1)
      = (fun acc p => objSet acc (keyOf st p.2) p.1) := by
    funext acc p
    rw [hk]
  unfold getVerticesIndices getAllVertices
  rw [hg, hf]

theorem findEdgeA_eq_B (st : St) (hv : VertOk st) (hnd : NodupVK st)
    {vid : Nat} (hmem : vid ∈ getAllVertices st) (nb : Nat) :
    findEdgeA st vid nb = findEdgeB st vid nb := by
  obtain ⟨q, hq, hq2⟩ := List.mem_map.mp hmem
  have hself : objGet st.gVertices q.1 = some vid := by
    rw [← hq2]
    exact objGet_of_mem_nodup hnd hq
  rw [findEdgeA_self st hself hv]
  rfl

theorem find?_append_none {α : Type} (p : α → Bool) :
    ∀ (l1 l2 : List α), (∀ x ∈ l1, p x = false) →
      (l1 ++ l2).find? p = l2.find? p := by
  intro l1
  induction l1 with
  | nil =>
    intro l2 _
    rfl
  | cons x t ih =>
    intro l2 h
    rw [List.cons_append, List.find?_cons_of_neg _ (by simp [h x (List.mem_cons_self _ _)])]
    exact ih l2 (fun y hy => h y (List.mem_cons_of_mem _ hy))

theorem vNeighbors_vAddEdge_self (st : St) (xv eid : Nat)
    (hvh : (objGet st.vheap xv).isSome = true) {ed : EdgeData}
    (hed : objGet st.eheap eid = some ed) (hsx : ed.startV = xv) :
    vNeighbors (vAddEdge st xv eid) xv = vNeighbors st xv ++ [ed.endV] := by
  show ((adjOf (vAddEdge st xv eid) xv).map (fun eid' =>
      match objGet st.eheap eid' with
      | some ed2 => if ed2.startV = xv then ed2.endV else ed2.startV
      | none => xv)) = vNeighbors st xv ++ [ed.endV]
  rw [adjOf_vAddEdge_self st xv eid hvh, List.map_append]
  congr 1
  show [(match objGet st.eheap eid with
      | some ed2 => if ed2.startV = xv then ed2.endV else ed2.startV
      | none => xv)] = [ed.endV]
  rw [hed]
  show [if ed.startV = xv then ed.endV else ed.startV] = [ed.endV]
  rw [if_pos hsx]

theorem vNeighbors_vAddEdge_end (st : St) (xv eid : Nat)
    (hvh : (objGet st.vheap xv).isSome = true) {ed : EdgeData}
    (hed : objGet st.eheap eid = some ed) (hsx : ¬ ed.startV = xv) :
    vNeighbors (vAddEdge st xv eid) xv = vNeighbors st xv ++ [ed.startV] := by
  show ((adjOf (vAddEdge st xv eid) xv).map (fun eid' =>
      match objGet st.eheap eid' with
      | some ed2 => if ed2.startV = xv then ed2.endV else ed2.startV
      | none => xv)) = vNeighbors st xv ++ [ed.startV]
  rw [adjOf_vAddEdge_self st xv eid hvh, List.map_append]
  congr 1
  show [(match objGet st.eheap eid with
      | some ed2 => if ed2.startV = xv then ed2.endV else ed2.startV
      | none => xv)] = [ed.startV]
  rw [hed]
  show [if ed.startV = xv then ed.endV else ed.startV] = [ed.startV]
  rw [if_neg hsx]

theorem vNeighbors_vAddEdge_ne (st : St) (xv eid : Nat) {zv : Nat} (hz : ¬ zv = xv) :
    vNeighbors (vAddEdge st xv eid) zv = vNeighbors st zv := by
  show ((adjOf (vAddEdge st xv eid) zv).map (fun eid' =>
      match objGet st.eheap eid' with
      | some ed2 => if ed2.startV = zv then ed2.endV else ed2.startV
      | none => zv)) = vNeighbors st zv
  rw [adjOf_vAddEdge_ne st xv eid hz]
  rfl

theorem vertOk_gEdges_append (st : St) (hv : VertOk st) (p0 : EKey × Nat) :
    VertOk { st with gEdges := st.gEdges ++ [p0] } :=
  fun p hp => hv p hp

theorem edgeOk_vAddEdge (st : St) (he : EdgeOk st) (vid eid : Nat) :
    EdgeOk (vAddEdge st vid eid) := by
  intro p hp
  rw [edgeKeyChk_vAddEdge]
  exact he p hp

theorem edgeOk_gEdges_append (st : St) (he : EdgeOk st) {k : EKey} {eid : Nat}
    (hnew : edgeKeyChk st eid = some k) :
    EdgeOk { st with gEdges := st.gEdges ++ [(k, eid)] } := by
  intro p hp
  rcases List.mem_append.mp hp with hold | hnw
  · exact he p hold
  · rw [List.mem_singleton] at hnw
    subst hnw
    exact hnew

theorem adjOk_gEdges_append (st : St) (ha : AdjOk st) (p0 : EKey × Nat) :
    AdjOk { st with gEdges := st.gEdges ++ [p0] } := by
  intro p hp eid2 hadj2
  obtain ⟨q, hq, hqe, hside⟩ := ha p hp eid2 hadj2
  exact ⟨q, List.mem_append.mpr (Or.inl hq), hqe, hside⟩

theorem adjOk_vAddEdge (st : St) (hndI : (st.gVertices.map (fun q => q.2)).Nodup)
    (ha : AdjOk st) {xk : VKey} {xv eid : Nat}
    (hX : (xk, xv) ∈ st.gVertices)
    (hvh : (objGet st.vheap xv).isSome = true)
    (hjust : ∃ q ∈ st.gEdges, q.2 = eid ∧
      (q.1.1 = xk ∨ (st.isDirected = false ∧ q.1.2 = xk))) :
    AdjOk (vAddEdge st xv eid) := by
  intro p hp eid2 hadj2
  have hp' : p ∈ st.gVertices := hp
  by_cases hpx : p.2 = xv
  · have hpid : p = (xk, xv) :=
      nodup_map_unique hndI hp' hX (by show p.2 = xv; exact hpx)
    have hadjEq : adjOf (vAddEdge st xv eid) xv = adjOf st xv ++ [eid] :=
      adjOf_vAddEdge_self st xv eid hvh
    rw [hpx] at hadj2
    rw [hadjEq] at hadj2
    rcases List.mem_append.mp hadj2 with hold | hnew
    · obtain ⟨q, hq, hqe, hside⟩ := ha p hp' eid2 (by rw [hpx]; exact hold)
      exact ⟨q, hq, hqe, hside⟩
    · rw [List.mem_singleton] at hnew
      obtain ⟨q, hq, hqe, hside⟩ := hjust
      refine ⟨q, hq, ?_, ?_⟩
      · rw [hqe, hnew]
      · rw [hpid]
        exact hside
  · have hadjEq2 : adjOf (vAddEdge st xv eid) p.2 = adjOf st p.2 :=
      adjOf_vAddEdge_ne st xv eid hpx
    rw [hadjEq2] at hadj2
    obtain ⟨q, hq, hqe, hside⟩ := ha p hp' eid2 hadj2
    exact ⟨q, hq, hqe, hside⟩

theorem matrixA_master (st : St) (hv : VertOk st) (hnd : NodupVK st)
    (he : EdgeOk st) (ha : AdjOk st) :
    ∃ M, getAdjacencyMatrixA st = Except.ok M ∧ getAdjacencyMatrixB st = Except.ok M ∧
      M.length = (getAllVertices st).length ∧
      (∀ r, r < (getAllVertices st).length →
        (M.getD r []).length = (getAllVertices st).length) ∧
      (∀ i xv c, (i, xv) ∈ (getAllVertices st).enum →
        ((∀ nb ∈ vNeighbors st xv, ¬ objGet (getVerticesIndices st) (keyOf st nb) = some c) →
          mget M i c = none) ∧
        (∀ pre nb post, vNeighbors st xv = pre ++ nb :: post →
          objGet (getVerticesIndices st) (keyOf st nb) = some c →
          (∀ x ∈ post, ¬ objGet (getVerticesIndices st) (keyOf st x) = some c) →
          ∀ eidF, findEdgeA st xv nb = some eidF →
          mget M i c = some (weightOf st eidF))) := by
  have hfind : ∀ p ∈ (getAllVertices st).enum, ∀ nb ∈ vNeighbors st p.2,
      (findEdgeA st p.2 nb).isSome = true := by
    intro p hp
    obtain ⟨i, xv⟩ := p
    exact matrix_lookups_ok st hv hnd he ha xv (enum_mem_val _ 0 i hp)
  have hndf : (((getAllVertices st).enum.map (fun p => p.1)).Nodup) := by
    rw [show (fun p : Nat × Nat => p.1) = Prod.fst from rfl, List.enum_map_fst]
    exact List.nodup_range _
  have hbound : ∀ p ∈ (getAllVertices st).enum, ∀ nb ∈ vNeighbors st p.2, ∀ c,
      objGet (getVerticesIndices st) (keyOf st nb) = some c →
      c < ((((getAllVertices st).map (fun _ => (getAllVertices st).map
        (fun _ => (none : Option Int))))).getD p.1 []).length := by
    intro p hp nb hnb c hc
    obtain ⟨i, xv⟩ := p
    have hlt : i < (getAllVertices st).length := by
      have h2 := (List.mem_enumFrom hp).2.1
      omega
    rw [init_row_len _ _ hlt]
    exact getVerticesIndices_lt st hc
  obtain ⟨M, hok, hlen, hrowlen, hother, hcells⟩ :=
    fillRowsA_cells st (getVerticesIndices st) (getAllVertices st).enum
      ((getAllVertices st).map (fun _ => (getAllVertices st).map (fun _ => (none : Option Int))))
      hfind hndf hbound
  have hABfn : ∀ p ∈ (getAllVertices st).enum, ∀ nb : Nat,
      findEdgeA st p.2 nb = findEdgeB st p.2 nb := by
    intro p hp nb
    obtain ⟨i, xv⟩ := p
    exact findEdgeA_eq_B st hv hnd (enum_mem_val _ 0 i hp) nb
  have hrowpos : ∀ p ∈ (getAllVertices st).enum,
      objGet (getVerticesIndices st) (keyOf st p.2) = some p.1 := by
    intro p hp
    obtain ⟨i, xv⟩ := p
    exact getVerticesIndices_get_pos st hv hnd hp
  have hBA := fillRowsB_eq_A st (getVerticesIndices st) (getAllVertices st).enum
    ((getAllVertices st).map (fun _ => (getAllVertices st).map (fun _ => (none : Option Int))))
    hrowpos hABfn hfind
  rw [show ((getAllVertices st).enum.map (fun p => p.2)) = getAllVertices st from by
    rw [show (fun p : Nat × Nat => p.2) = Prod.snd from rfl, List.enum_map_snd]] at hBA
  refine ⟨M, hok, ?_, ?_, ?_, ?_⟩
  · show fillRowsB st (getVerticesIndices st) (getAllVertices st)
      ((getAllVertices st).map (fun _ => (getAllVertices st).map (fun _ => (none : Option Int))))
      = Except.ok M
    rw [hBA]
    exact hok
  · rw [hlen]
    exact init_length _
  · intro r hr
    rw [hrowlen r]
    exact init_row_len _ _ hr
  · intro i xv c hmem
    obtain ⟨hnw, hlw⟩ := hcells (i, xv) hmem c
    constructor
    · intro hnone
      exact (hnw hnone).trans (init_mget_none _ _ _)
    · intro pre nb post hsplit hc hpost eidF hfindF
      exact hlw pre nb post hsplit hc hpost eidF hfindF

set_option maxHeartbeats 2000000 in
/-- Claim C5, amended: with `N` registered vertices, `getAdjacencyMatrix`
returns an `N` by `N` matrix (both variants agree on it) and, after a
successful `addEdge` of an edge from registered vertex `A` to registered
vertex `B` (distinct keys) with weight `w`, provided no edge keyed
`(B, A)` is registered, the cell `[idx A][idx B]` equals `w`; in an
undirected graph the cell `[idx B][idx A]` also equals `w`, while in a
directed graph it stays infinite.  Without the antiparallel proviso the
claim fails (see the counterexample): `findEdge` returns the first
incident edge toward the neighbor, so a pre-existing `(B, A)` edge makes
the cell report that edge's stale weight instead of `w`. -/
theorem adjacency_matrix_cells (st st1 : St) (eid av bv : Nat) (ak bk : VKey) (w : Int)
    (ia ib : Nat)
    (hv : VertOk st) (hndK : NodupVK st) (hndI : NodupVId st)
    (he : EdgeOk st) (ha : AdjOk st)
    (hA : objGet st.gVertices ak = some av)
    (hB : objGet st.gVertices bk = some bv)
    (hkne : ¬ ak = bk)
    (hed : objGet st.eheap eid = some ⟨av, bv, w⟩)
    (hfreeR : (objGet st.gEdges (bk, ak)).isSome = false)
    (hadd : addEdgeA st eid = (st1, none))
    (hia : objGet (getVerticesIndices st1) ak = some ia)
    (hib : objGet (getVerticesIndices st1) bk = some ib) :
    addEdgeB st eid = (st1, none) ∧
    ∃ M, getAdjacencyMatrixA st1 = Except.ok M ∧
      getAdjacencyMatrixB st1 = Except.ok M ∧
      M.length = (getAllVertices st1).length ∧
      (∀ r, r < (getAllVertices st1).length →
        (M.getD r []).length = (getAllVertices st1).length) ∧
      mget M ia ib = some w ∧
      (st.isDirected = false → mget M ib ia = some w) ∧
      (st.isDirected = true → mget M ib ia = none) := by
  have hmapA : (objGet st.vheap av).map (fun v => v.key) = some ak :=
    hv (ak, av) (objGet_mem_of_some hA)
  have hmapB : (objGet st.vheap bv).map (fun v => v.key) = some bk :=
    hv (bk, bv) (objGet_mem_of_some hB)
  have hkA : keyOf st av = ak := keyOf_eq_of_mapkey hmapA
  have hkB : keyOf st bv = bk := keyOf_eq_of_mapkey hmapB
  have hvhA : (objGet st.vheap av).isSome = true := by
    cases hx : objGet st.vheap av with
    | none =>
      rw [hx] at hmapA
      simp at hmapA
    | some v => rfl
  have hvhB : (objGet st.vheap bv).isSome = true := by
    cases hx : objGet st.vheap bv with
    | none =>
      rw [hx] at hmapB
      simp at hmapB
    | some v => rfl
  have hvne : ¬ bv = av := by
    intro hba
    apply hkne
    rw [← hkA, ← hkB, hba]
  have havne : ¬ av = bv := fun hba => hvne hba.symm
  have hsvA : getVertexByKey st (keyOf st av) = some av := by
    show objGet st.gVertices (keyOf st av) = some av
    rw [hkA]
    exact hA
  have hevA : getVertexByKey st (keyOf st bv) = some bv := by
    show objGet st.gVertices (keyOf st bv) = some bv
    rw [hkB]
    exact hB
  have hfree : (objGet st.gEdges (ak, bk)).isSome = false := by
    cases hx : (objGet st.gEdges (ak, bk)).isSome with
    | false => rfl
    | true =>
      exfalso
      have hdup := addEdgeA_dup hed hsvA hevA
        (by show (objGet st.gEdges (keyOf st av, keyOf st bv)).isSome = true
            rw [hkA, hkB]
            exact hx)
      rw [hadd] at hdup
      injection hdup with h1 h2
      exact Option.noConfusion h2
  have hmemKeys : ¬ (ak, bk) ∈ objKeys st.gEdges := by
    rw [← objGet_eq_none_iff]
    cases hx : objGet st.gEdges (ak, bk) with
    | none => rfl
    | some v =>
      rw [hx] at hfree
      simp at hfree
  have heqA : addEdgeA st eid =
      (if st.isDirected then vAddEdge (regE st (ak, bk) eid) av eid
       else vAddEdge (vAddEdge (regE st (ak, bk) eid) av eid) bv eid, none) := by
    have h0 : addEdgeA st eid =
        (if st.isDirected then
          vAddEdge { st with gEdges := objSet st.gEdges (keyOf st av, keyOf st bv) eid } av eid
        else
          vAddEdge (vAddEdge
            { st with gEdges := objSet st.gEdges (keyOf st av, keyOf st bv) eid } av eid)
            bv eid, none) :=
      addEdgeA_ok_eq hed hsvA hevA
        (by show (objGet st.gEdges (keyOf st av, keyOf st bv)).isSome = false
            rw [hkA, hkB]
            exact hfree)
    rw [hkA, hkB, objSet_of_not_mem eid hmemKeys] at h0
    exact h0
  have heqB : addEdgeB st eid =
      (if st.isDirected then vAddEdge (regE st (ak, bk) eid) av eid
       else vAddEdge (vAddEdge (regE st (ak, bk) eid) av eid) bv eid, none) := by
    have h0 : addEdgeB st eid =
        (if st.isDirected then
          vAddEdge { st with gEdges := objSet st.gEdges (keyOf st av, keyOf st bv) eid } av eid
        else
          vAddEdge (vAddEdge
            { st with gEdges := objSet st.gEdges (keyOf st av, keyOf st bv) eid } av eid)
            bv eid, none) :=
      addEdgeB_ok_eq hed hsvA hevA
        (by show (objGet st.gEdges (keyOf st av, keyOf st bv)).isSome = false
            rw [hkA, hkB]
            exact hfree)
    rw [hkA, hkB, objSet_of_not_mem eid hmemKeys] at h0
    exact h0
  have hst1 : st1 =
      (if st.isDirected then vAddEdge (regE st (ak, bk) eid) av eid
       else vAddEdge (vAddEdge (regE st (ak, bk) eid) av eid) bv eid) :=
    congrArg Prod.fst (hadd.symm.trans heqA)
  refine ⟨by rw [hst1]; exact heqB, ?_⟩
  have hchkNew : edgeKeyChk st eid = some (ak, bk) := by
    unfold edgeKeyChk
    rw [hed, Option.some_bind]
    show ((objGet st.vheap av).map (fun v => v.key)).bind (fun a =>
      ((objGet st.vheap bv).map (fun v => v.key)).map (fun b => (a, b))) = some (ak, bk)
    rw [hmapA, Option.some_bind]
    show ((objGet st.vheap bv).map (fun v => v.key)).map (fun b => (ak, b)) = some (ak, bk)
    rw [hmapB, Option.map_some']
  have hnoOldA := no_old_edge_toward st he ha (objGet_mem_of_some hA) hkB hfree hfreeR hkne
  have hnoOldB := no_old_edge_toward st he ha (objGet_mem_of_some hB) hkA hfreeR hfree
    (fun e2 => hkne e2.symm)
  have hPab : (fun eid' => match objGet st.eheap eid' with
      | some ed2 => decide (ed2.startV = bv) || decide (ed2.endV = bv)
      | none => false) eid = true := by
    show (match objGet st.eheap eid with
      | some ed2 => decide (ed2.startV = bv) || decide (ed2.endV = bv)
      | none => false) = true
    rw [hed]
    show (decide (av = bv) || decide (bv = bv)) = true
    simp
  have hPba : (fun eid' => match objGet st.eheap eid' with
      | some ed2 => decide (ed2.startV = av) || decide (ed2.endV = av)
      | none => false) eid = true := by
    show (match objGet st.eheap eid with
      | some ed2 => decide (ed2.startV = av) || decide (ed2.endV = av)
      | none => false) = true
    rw [hed]
    show (decide (av = av) || decide (bv = av)) = true
    simp
  cases hdir : st.isDirected with
  | true =>
    rw [hdir, if_pos rfl] at hst1
    subst hst1
    have hv1 : VertOk (vAddEdge (regE st (ak, bk) eid) av eid) :=
      vertOk_vAddEdge _ av eid (vertOk_gEdges_append st hv ((ak, bk), eid))
    have hnd1 : NodupVK (vAddEdge (regE st (ak, bk) eid) av eid) := hndK
    have he1 : EdgeOk (vAddEdge (regE st (ak, bk) eid) av eid) :=
      edgeOk_vAddEdge _ (edgeOk_gEdges_append st he hchkNew) av eid
    have ha1 : AdjOk (vAddEdge (regE st (ak, bk) eid) av eid) :=
      adjOk_vAddEdge (regE st (ak, bk) eid) hndI (adjOk_gEdges_append st ha ((ak, bk), eid))
        (objGet_mem_of_some hA) hvhA
        ⟨((ak, bk), eid), List.mem_append.mpr (Or.inr (List.mem_singleton.mpr rfl)),
          rfl, Or.inl rfl⟩
    have hA1 : objGet (vAddEdge (regE st (ak, bk) eid) av eid).gVertices ak = some av := hA
    have hB1 : objGet (vAddEdge (regE st (ak, bk) eid) av eid).gVertices bk = some bv := hB
    have hkey1 : ∀ x, keyOf (vAddEdge (regE st (ak, bk) eid) av eid) x = keyOf st x :=
      fun x => (keyOf_vAddEdge (regE st (ak, bk) eid) av eid x).trans rfl
    have hadjA1 : adjOf (vAddEdge (regE st (ak, bk) eid) av eid) av = adjOf st av ++ [eid] :=
      adjOf_vAddEdge_self (regE st (ak, bk) eid) av eid hvhA
    have hnbA1 : vNeighbors (vAddEdge (regE st (ak, bk) eid) av eid) av
        = vNeighbors st av ++ [bv] :=
      vNeighbors_vAddEdge_self (regE st (ak, bk) eid) av eid hvhA hed rfl
    have hnbB1 : vNeighbors (vAddEdge (regE st (ak, bk) eid) av eid) bv = vNeighbors st bv :=
      vNeighbors_vAddEdge_ne (regE st (ak, bk) eid) av eid hvne
    have hwt1 : weightOf (vAddEdge (regE st (ak, bk) eid) av eid) eid = w := by
      show ((objGet st.eheap eid).map (fun e => e.weight)).getD 0 = w
      rw [hed]
      rfl
    have hfindAB1 : findEdgeA (vAddEdge (regE st (ak, bk) eid) av eid) av bv = some eid := by
      unfold findEdgeA
      rw [hkey1 av, hkA]
      rw [show getVertexByKey (vAddEdge (regE st (ak, bk) eid) av eid) ak = some av from hA1]
      show ((adjOf (vAddEdge (regE st (ak, bk) eid) av eid) av).find? (fun eid' =>
        match objGet st.eheap eid' with
        | some ed2 => decide (ed2.startV = bv) || decide (ed2.endV = bv)
        | none => false)) = some eid
      rw [hadjA1, find?_append_none _ _ _ hnoOldA,
        @List.find?_cons_of_pos Nat (fun eid' =>
          match objGet st.eheap eid' with
          | some ed2 => decide (ed2.startV = bv) || decide (ed2.endV = bv)
          | none => false) eid [] hPab]
    obtain ⟨M, hokA, hokB, hMlen, hMrow, hcells⟩ := matrixA_master _ hv1 hnd1 he1 ha1
    have hmemIA : (ia, av) ∈ (getAllVertices (vAddEdge (regE st (ak, bk) eid) av eid)).enum := by
      obtain ⟨p, hp, hpc, hpk⟩ := getVerticesIndices_inv _ hia
      obtain ⟨i2, v2⟩ := p
      have hi2 : i2 = ia := hpc
      have hv2 : v2 = av :=
        registry_value_unique _ hv1 hnd1 hA1 (enum_mem_val _ 0 i2 hp) hpk
      have hpair : ((i2, v2) : Nat × Nat) = (ia, av) := by rw [hi2, hv2]
      rw [← hpair]
      exact hp
    have hmemIB : (ib, bv) ∈ (getAllVertices (vAddEdge (regE st (ak, bk) eid) av eid)).enum := by
      obtain ⟨p, hp, hpc, hpk⟩ := getVerticesIndices_inv _ hib
      obtain ⟨i2, v2⟩ := p
      have hi2 : i2 = ib := hpc
      have hv2 : v2 = bv :=
        registry_value_unique _ hv1 hnd1 hB1 (enum_mem_val _ 0 i2 hp) hpk
      have hpair : ((i2, v2) : Nat × Nat) = (ib, bv) := by rw [hi2, hv2]
      rw [← hpair]
      exact hp
    refine ⟨M, hokA, hokB, hMlen, hMrow, ?_, ?_, ?_⟩
    · obtain ⟨hnw, hlw⟩ := hcells ia av ib hmemIA
      have hcell := hlw (vNeighbors st av) bv [] (by rw [hnbA1])
        (by rw [hkey1 bv, hkB]; exact hib)
        (fun x hx => absurd hx (List.not_mem_nil x)) eid hfindAB1
      rw [hcell, hwt1]
    · intro hcon
      exact absurd hcon (by decide)
    · intro _
      obtain ⟨hnw, hlw⟩ := hcells ib bv ia hmemIB
      apply hnw
      intro nb hnb hconk
      have hkak : keyOf (vAddEdge (regE st (ak, bk) eid) av eid) nb = ak :=
        getVerticesIndices_inj _ hconk hia
      rw [hkey1 nb] at hkak
      rw [hnbB1] at hnb
      exact no_neighbor_key_directed st he ha hdir (objGet_mem_of_some hB) hfreeR
        (fun e2 => hkne e2.symm) nb hnb hkak
  | false =>
    rw [hdir, if_neg (by decide : ¬ false = true)] at hst1
    subst hst1
    have hvhB2 : (objGet (vAddEdge (regE st (ak, bk) eid) av eid).vheap bv).isSome = true := by
      rw [vAddEdge_vheap_get, if_neg hvne]
      exact hvhB
    have hv1 : VertOk (vAddEdge (vAddEdge (regE st (ak, bk) eid) av eid) bv eid) :=
      vertOk_vAddEdge _ bv eid
        (vertOk_vAddEdge _ av eid (vertOk_gEdges_append st hv ((ak, bk), eid)))
    have hnd1 : NodupVK (vAddEdge (vAddEdge (regE st (ak, bk) eid) av eid) bv eid) := hndK
    have he1 : EdgeOk (vAddEdge (vAddEdge (regE st (ak, bk) eid) av eid) bv eid) :=
      edgeOk_vAddEdge _ (edgeOk_vAddEdge _ (edgeOk_gEdges_append st he hchkNew) av eid) bv eid
    have ha1 : AdjOk (vAddEdge (vAddEdge (regE st (ak, bk) eid) av eid) bv eid) :=
      adjOk_vAddEdge (vAddEdge (regE st (ak, bk) eid) av eid) hndI
        (adjOk_vAddEdge (regE st (ak, bk) eid) hndI (adjOk_gEdges_append st ha ((ak, bk), eid))
          (objGet_mem_of_some hA) hvhA
          ⟨((ak, bk), eid), List.mem_append.mpr (Or.inr (List.mem_singleton.mpr rfl)),
            rfl, Or.inl rfl⟩)
        (objGet_mem_of_some hB) hvhB2
        ⟨((ak, bk), eid), List.mem_append.mpr (Or.inr (List.mem_singleton.mpr rfl)),
          rfl, Or.inr ⟨hdir, rfl⟩⟩
    have hA1 : objGet (vAddEdge (vAddEdge (regE st (ak, bk) eid) av eid) bv eid).gVertices ak
        = some av := hA
    have hB1 : objGet (vAddEdge (vAddEdge (regE st (ak, bk) eid) av eid) bv eid).gVertices bk
        = some bv := hB
    have hkey1 : ∀ x, keyOf (vAddEdge (vAddEdge (regE st (ak, bk) eid) av eid) bv eid) x
        = keyOf st x :=
      fun x => (keyOf_vAddEdge (vAddEdge (regE st (ak, bk) eid) av eid) bv eid x).trans
        ((keyOf_vAddEdge (regE st (ak, bk) eid) av eid x).trans rfl)
    have hadjA1 : adjOf (vAddEdge (vAddEdge (regE st (ak, bk) eid) av eid) bv eid) av
        = adjOf st av ++ [eid] := by
      rw [adjOf_vAddEdge_ne (vAddEdge (regE st (ak, bk) eid) av eid) bv eid havne]
      exact adjOf_vAddEdge_self (regE st (ak, bk) eid) av eid hvhA
    have hadjB1 : adjOf (vAddEdge (vAddEdge (regE st (ak, bk) eid) av eid) bv eid) bv
        = adjOf st bv ++ [eid] := by
      rw [adjOf_vAddEdge_self (vAddEdge (regE st (ak, bk) eid) av eid) bv eid hvhB2,
        adjOf_vAddEdge_ne (regE st (ak, bk) eid) av eid hvne]
      rfl
    have hnbA1 : vNeighbors (vAddEdge (vAddEdge (regE st (ak, bk) eid) av eid) bv eid) av
        = vNeighbors st av ++ [bv] := by
      rw [vNeighbors_vAddEdge_ne (vAddEdge (regE st (ak, bk) eid) av eid) bv eid havne]
      exact vNeighbors_vAddEdge_self (regE st (ak, bk) eid) av eid hvhA hed rfl
    have hnbB1 : vNeighbors (vAddEdge (vAddEdge (regE st (ak, bk) eid) av eid) bv eid) bv
        = vNeighbors st bv ++ [av] := by
      have h1 := vNeighbors_vAddEdge_end (vAddEdge (regE st (ak, bk) eid) av eid) bv eid
        hvhB2 (show objGet (vAddEdge (regE st (ak, bk) eid) av eid).eheap eid
          = some (⟨av, bv, w⟩ : EdgeData) from hed) havne
      rw [h1, vNeighbors_vAddEdge_ne (regE st (ak, bk) eid) av eid hvne]
      rfl
    have hwt1 : weightOf (vAddEdge (vAddEdge (regE st (ak, bk) eid) av eid) bv eid) eid = w := by
      show ((objGet st.eheap eid).map (fun e => e.weight)).getD 0 = w
      rw [hed]
      rfl
    have hfindAB1 : findEdgeA (vAddEdge (vAddEdge (regE st (ak, bk) eid) av eid) bv eid) av bv
        = some eid := by
      unfold findEdgeA
      rw [hkey1 av, hkA]
      rw [show getVertexByKey (vAddEdge (vAddEdge (regE st (ak, bk) eid) av eid) bv eid) ak
        = some av from hA1]
      show ((adjOf (vAddEdge (vAddEdge (regE st (ak, bk) eid) av eid) bv eid) av).find?
        (fun eid' =>
          match objGet st.eheap eid' with
          | some ed2 => decide (ed2.startV = bv) || decide (ed2.endV = bv)
          | none => false)) = some eid
      rw [hadjA1, find?_append_none _ _ _ hnoOldA,
        @List.find?_cons_of_pos Nat (fun eid' =>
          match objGet st.eheap eid' with
          | some ed2 => decide (ed2.startV = bv) || decide (ed2.endV = bv)
          | none => false) eid [] hPab]
    have hfindBA1 : findEdgeA (vAddEdge (vAddEdge (regE st (ak, bk) eid) av eid) bv eid) bv av
        = some eid := by
      unfold findEdgeA
      rw [hkey1 bv, hkB]
      rw [show getVertexByKey (vAddEdge (vAddEdge (regE st (ak, bk) eid) av eid) bv eid) bk
        = some bv from hB1]
      show ((adjOf (vAddEdge (vAddEdge (regE st (ak, bk) eid) av eid) bv eid) bv).find?
        (fun eid' =>
          match objGet st.eheap eid' with
          | some ed2 => decide (ed2.startV = av) || decide (ed2.endV = av)
          | none => false)) = some eid
      rw [hadjB1, find?_append_none _ _ _ hnoOldB,
        @List.find?_cons_of_pos Nat (fun eid' =>
          match objGet st.eheap eid' with
          | some ed2 => decide (ed2.startV = av) || decide (ed2.endV = av)
          | none => false) eid [] hPba]
    obtain ⟨M, hokA, hokB, hMlen, hMrow, hcells⟩ := matrixA_master _ hv1 hnd1 he1 ha1
    have hmemIA : (ia, av) ∈
        (getAllVertices (vAddEdge (vAddEdge (regE st (ak, bk) eid) av eid) bv eid)).enum := by
      obtain ⟨p, hp, hpc, hpk⟩ := getVerticesIndices_inv _ hia
      obtain ⟨i2, v2⟩ := p
      have hi2 : i2 = ia := hpc
      have hv2 : v2 = av :=
        registry_value_unique _ hv1 hnd1 hA1 (enum_mem_val _ 0 i2 hp) hpk
      have hpair : ((i2, v2) : Nat × Nat) = (ia, av) := by rw [hi2, hv2]
      rw [← hpair]
      exact hp
    have hmemIB : (ib, bv) ∈
        (getAllVertices (vAddEdge (vAddEdge (regE st (ak, bk) eid) av eid) bv eid)).enum := by
      obtain ⟨p, hp, hpc, hpk⟩ := getVerticesIndices_inv _ hib
      obtain ⟨i2, v2⟩ := p
      have hi2 : i2 = ib := hpc
      have hv2 : v2 = bv :=
        registry_value_unique _ hv1 hnd1 hB1 (enum_mem_val _ 0 i2 hp) hpk
      have hpair : ((i2, v2) : Nat × Nat) = (ib, bv) := by rw [hi2, hv2]
      rw [← hpair]
      exact hp
    refine ⟨M, hokA, hokB, hMlen, hMrow, ?_, ?_, ?_⟩
    · obtain ⟨hnw, hlw⟩ := hcells ia av ib hmemIA
      have hcell := hlw (vNeighbors st av) bv [] (by rw [hnbA1])
        (by rw [hkey1 bv, hkB]; exact hib)
        (fun x hx => absurd hx (List.not_mem_nil x)) eid hfindAB1
      rw [hcell, hwt1]
    · intro _
      obtain ⟨hnw, hlw⟩ := hcells ib bv ia hmemIB
      have hcell := hlw (vNeighbors st bv) av [] (by rw [hnbB1])
        (by rw [hkey1 av, hkA]; exact hia)
        (fun x hx => absurd hx (List.not_mem_nil x)) eid hfindBA1
      rw [hcell, hwt1]
    · intro hcon
      exact absurd hcon (by decide)

/-- Counterexample to claim C5 as stated: in the undirected graph holding
vertex objects `a` (0) and `b` (1), registering edge 11 (`b` to `a`,
weight 7) and then successfully adding edge 10 (`a` to `b`, weight 5),
the matrix cell `[idx a][idx b]` reports 7 — the weight of the stale
antiparallel edge found first in the adjacency — not the added weight 5. -/
theorem matrix_stale_weight_cex :
    exAU.isDirected = false ∧
    (addEdgeA exAU 11).2 = none ∧
    addEdgeA (addEdgeA exAU 11).1 10 = ((addEdgeA (addEdgeA exAU 11).1 10).1, none) ∧
    objGet (addEdgeA (addEdgeA exAU 11).1 10).1.eheap 10 = some ⟨0, 1, 5⟩ ∧
    objGet (getVerticesIndices (addEdgeA (addEdgeA exAU 11).1 10).1) "a" = some 1 ∧
    objGet (getVerticesIndices (addEdgeA (addEdgeA exAU 11).1 10).1) "b" = some 0 ∧
    getAdjacencyMatrixA (addEdgeA (addEdgeA exAU 11).1 10).1
      = Except.ok [[none, some 7], [some 7, none]] ∧
    mget [[none, some 7], [some 7, none]] 1 0 = some 7 := by decide

/-- Witness for `adjacency_matrix_cells` at the concrete graph `exC5`. -/
theorem adjacency_matrix_cells_witness :
    addEdgeA exC5 10 = ((addEdgeA exC5 10).1, none) ∧
    (addEdgeB exC5 10 = ((addEdgeA exC5 10).1, none) ∧
      ∃ M, getAdjacencyMatrixA (addEdgeA exC5 10).1 = Except.ok M ∧
        getAdjacencyMatrixB (addEdgeA exC5 10).1 = Except.ok M ∧
        M.length = (getAllVertices (addEdgeA exC5 10).1).length ∧
        (∀ r, r < (getAllVertices (addEdgeA exC5 10).1).length →
          (M.getD r []).length = (getAllVertices (addEdgeA exC5 10).1).length) ∧
        mget M 0 1 = some 5 ∧
        (exC5.isDirected = false → mget M 1 0 = some 5) ∧
        (exC5.isDirected = true → mget M 1 0 = none)) :=
  ⟨by decide,
    adjacency_matrix_cells exC5 (addEdgeA exC5 10).1 10 0 1 "a" "b" 5 0 1
      (by decide) (by decide) (by decide) (by decide) (by decide)
      (by decide) (by decide) (by decide) (by decide) (by decide)
      (by decide) (by decide) (by decide)⟩

/-! ## C4 support: reverse-loop bookkeeping -/

theorem swapEnds_swapEnds (e : EdgeData) : swapEnds (swapEnds e) = e := rfl

theorem keyOpt_vDeleteEdge (st : St) (vid eid x : Nat) :
    ((objGet (vDeleteEdge st vid eid).vheap x).map (fun v => v.key)) =
      ((objGet st.vheap x).map (fun v => v.key)) := by
  rw [vDeleteEdge_vheap_get]
  by_cases h : x = vid
  · rw [if_pos h]
    cases objGet st.vheap x <;> simp [adjDrop]
  · rw [if_neg h]

theorem objDelete_append {α β : Type} [DecidableEq α] (m1 m2 : List (α × β)) (k : α) :
    objDelete (m1 ++ m2) k = objDelete m1 k ++ objDelete m2 k :=
  List.filter_append _ _

theorem flip_flip_map (L : List (EKey × Nat)) :
    (L.map (fun p => ((p.1.2, p.1.1), p.2))).map (fun p => ((p.1.2, p.1.1), p.2)) = L := by
  rw [List.map_map, show ((fun p : EKey × Nat => ((p.1.2, p.1.1), p.2)) ∘
    (fun p : EKey × Nat => ((p.1.2, p.1.1), p.2))) = id from by funext p; rfl, List.map_id]

theorem mem_adjOf_vDeleteEdge (st : St) (vid eid a x : Nat) :
    x ∈ adjOf (vDeleteEdge st vid eid) a ↔ (x ∈ adjOf st a ∧ ¬ (a = vid ∧ x = eid)) := by
  rw [adjOf_vDeleteEdge]
  by_cases h : a = vid
  · rw [if_pos h]
    rw [List.mem_filter]
    simp [h]
  · rw [if_neg h]
    simp [h]

theorem mem_adjOf_vAddEdge (st : St) (vid eid a x : Nat)
    (hvh : (objGet st.vheap vid).isSome = true) :
    x ∈ adjOf (vAddEdge st vid eid) a ↔ (x ∈ adjOf st a ∨ (a = vid ∧ x = eid)) := by
  by_cases h : a = vid
  · rw [h, adjOf_vAddEdge_self st vid eid hvh, List.mem_append]
    simp [h]
  · rw [adjOf_vAddEdge_ne st vid eid h]
    simp [h]

theorem isSome_of_mapkey {o : Option VertexData} {k : VKey}
    (h : o.map (fun v => v.key) = some k) : o.isSome = true := by
  cases o with
  | none => simp at h
  | some v => rfl

set_option maxHeartbeats 4000000 in
theorem reverseSteps_loop (st : St) (he : EdgeOk st)
    (hndEK : NodupEK st) (hndEI : NodupEId st) (hanti : AntisymEK st)
    (hreg : ∀ p ∈ st.gEdges,
      objGet st.gVertices p.1.1 = (objGet st.eheap p.2).map (fun ed => ed.startV) ∧
      objGet st.gVertices p.1.2 = (objGet st.eheap p.2).map (fun ed => ed.endV))
    (hinc : st.isDirected = false → IncidA st) :
    ∀ (L2 L1 : List (EKey × Nat)) (stc : St),
      st.gEdges = L1 ++ L2 →
      stc.gVertices = st.gVertices →
      stc.isDirected = st.isDirected →
      (∀ x, (objGet stc.vheap x).map (fun v => v.key)
        = (objGet st.vheap x).map (fun v => v.key)) →
      stc.gEdges = L2 ++ L1.map (fun p => ((p.1.2, p.1.1), p.2)) →
      (∀ x, ¬ x ∈ L1.map (fun p => p.2) → objGet stc.eheap x = objGet st.eheap x) →
      (∀ x, x ∈ L1.map (fun p => p.2) →
        objGet stc.eheap x = (objGet st.eheap x).map swapEnds) →
      (st.isDirected = false → ∀ vid x, (x ∈ adjOf stc vid ↔ x ∈ adjOf st vid)) →
      ∃ stf, reverseStepsA stc (L2.map (fun p => p.2)) = (stf, none) ∧
        reverseStepsB stc (L2.map (fun p => p.2)) = (stf, none) ∧
        stf.gVertices = st.gVertices ∧
        stf.isDirected = st.isDirected ∧
        (∀ x, (objGet stf.vheap x).map (fun v => v.key)
          = (objGet st.vheap x).map (fun v => v.key)) ∧
        stf.gEdges = (L1 ++ L2).map (fun p => ((p.1.2, p.1.1), p.2)) ∧
        (∀ x, ¬ x ∈ (L1 ++ L2).map (fun p => p.2) →
          objGet stf.eheap x = objGet st.eheap x) ∧
        (∀ x, x ∈ (L1 ++ L2).map (fun p => p.2) →
          objGet stf.eheap x = (objGet st.eheap x).map swapEnds) ∧
        (st.isDirected = false → ∀ vid x, (x ∈ adjOf stf vid ↔ x ∈ adjOf st vid)) := by
  intro L2
  induction L2 with
  | nil =>
    intro L1 stc hsplit c1 c3 c2 c4 c5 c6 c7
    refine ⟨stc, rfl, rfl, c1, c3, c2, ?_, ?_, ?_, c7⟩
    · rw [List.append_nil]
      exact c4
    · intro x hx
      apply c5
      intro hm
      apply hx
      rw [List.append_nil]
      exact hm
    · intro x hx
      apply c6
      rw [List.append_nil] at hx
      exact hx
  | cons p0 rest ih =>
    obtain ⟨k, eid⟩ := p0
    intro L1 stc hsplit c1 c3 c2 c4 c5 c6 c7
    have hmemP : ((k, eid) : EKey × Nat) ∈ st.gEdges := by
      rw [hsplit]
      exact List.mem_append.mpr (Or.inr (List.mem_cons_self _ _))
    obtain ⟨ed, hedO, hs, ht⟩ := edgeKeyChk_extract (he (k, eid) hmemP)
    have hkS : keyOf st ed.startV = k.1 := keyOf_eq_of_mapkey hs
    have hkE : keyOf st ed.endV = k.2 := keyOf_eq_of_mapkey ht
    have hregS0 : objGet st.gVertices k.1
        = (objGet st.eheap eid).map (fun ed2 => ed2.startV) := (hreg (k, eid) hmemP).1
    have hregE0 : objGet st.gVertices k.2
        = (objGet st.eheap eid).map (fun ed2 => ed2.endV) := (hreg (k, eid) hmemP).2
    have hregS : objGet st.gVertices k.1 = some ed.startV := by
      rw [hregS0, hedO]
      rfl
    have hregE : objGet st.gVertices k.2 = some ed.endV := by
      rw [hregE0, hedO]
      rfl
    have hndids : ((L1 ++ (k, eid) :: rest).map (fun p => p.2)).Nodup := by
      have h0 : (objValues st.gEdges).Nodup := hndEI
      rw [hsplit] at h0
      exact h0
    have heidL1 : ¬ eid ∈ L1.map (fun p => p.2) := by
      rw [List.map_append] at hndids
      intro hm
      exact (List.disjoint_of_nodup_append hndids) hm
        (by rw [List.map_cons]; exact List.mem_cons_self _ _)
    have hedC : objGet stc.eheap eid = some ed := by
      rw [c5 eid heidL1]
      exact hedO
    have hndk : ((objKeys L1 ++ k :: objKeys rest) : List EKey).Nodup := by
      have h0 : (ekeys st).Nodup := hndEK
      rw [show ekeys st = objKeys L1 ++ k :: objKeys rest from by
        show objKeys st.gEdges = _
        rw [hsplit]
        unfold objKeys
        rw [List.map_append, List.map_cons]] at h0
      exact h0
    have hkL1 : ¬ k ∈ objKeys L1 := by
      intro hm
      exact (List.disjoint_of_nodup_append hndk) hm (List.mem_cons_self _ _)
    have hkRest : ¬ k ∈ objKeys rest := by
      have h1 : ((k :: objKeys rest) : List EKey).Nodup := List.Nodup.of_append_right hndk
      exact (List.nodup_cons.mp h1).1
    have hkmemSt : k ∈ ekeys st := by
      show k ∈ objKeys st.gEdges
      rw [hsplit]
      unfold objKeys
      rw [List.map_append, List.map_cons]
      exact List.mem_append.mpr (Or.inr (List.mem_cons_self _ _))
    have hkcS : keyOf stc ed.startV = k.1 := by
      unfold keyOf
      rw [c2, hs]
      rfl
    have hkcE : keyOf stc ed.endV = k.2 := by
      unfold keyOf
      rw [c2, ht]
      rfl
    have hfoundC : (objGet stc.gEdges (keyOf stc ed.startV, keyOf stc ed.endV)).isSome
        = true := by
      rw [hkcS, hkcE, c4,
        show (((k, eid) :: rest) ++ L1.map (fun p => ((p.1.2, p.1.1), p.2)))
          = (k, eid) :: (rest ++ L1.map (fun p => ((p.1.2, p.1.1), p.2))) from rfl,
        objGet_cons, if_pos (show ((k, eid) : EKey × Nat).1 = (k.1, k.2) from Prod.mk.eta.symm)]
      rfl
    have hsvC : objGet stc.gVertices (keyOf stc ed.startV) = some ed.startV := by
      rw [hkcS, c1]
      exact hregS
    have hevC : objGet stc.gVertices (keyOf stc ed.endV) = some ed.endV := by
      rw [hkcE, c1]
      exact hregE
    have hrestDel : objDelete rest (k.1, k.2) = rest := by
      apply objDelete_of_not_mem
      intro hm
      apply hkRest
      rw [show ((k.1, k.2) : EKey) = k from Prod.mk.eta] at hm
      exact hm
    have hflipL1 : objDelete (L1.map (fun p => ((p.1.2, p.1.1), p.2))) (k.1, k.2)
        = L1.map (fun p => ((p.1.2, p.1.1), p.2)) := by
      apply objDelete_of_not_mem
      intro hm
      unfold objKeys at hm
      rw [List.map_map] at hm
      obtain ⟨q, hqL1, hqe⟩ := List.mem_map.mp hm
      have hq1 : q.1 = (k.2, k.1) := by
        have hqe2 : ((q.1.2, q.1.1) : EKey) = (k.1, k.2) := hqe
        injection hqe2 with ha hb
        exact Prod.ext hb ha
      have hqmem : (k.2, k.1) ∈ ekeys st := by
        show (k.2, k.1) ∈ objKeys st.gEdges
        rw [hsplit]
        unfold objKeys
        rw [List.map_append]
        refine List.mem_append.mpr (Or.inl ?_)
        rw [← hq1]
        exact List.mem_map_of_mem _ hqL1
      have hkk : k.2 = k.1 := hanti (k.2, k.1) hqmem
        (by show ((k.1, k.2) : EKey) ∈ ekeys st
            rw [Prod.mk.eta]
            exact hkmemSt)
      apply hkL1
      rw [show k = ((k.2, k.1) : EKey) from (Prod.ext hkk hkk.symm).symm, ← hq1]
      exact List.mem_map_of_mem _ hqL1
    have hDel : objDelete stc.gEdges (keyOf stc ed.startV, keyOf stc ed.endV)
        = rest ++ L1.map (fun p => ((p.1.2, p.1.1), p.2)) := by
      rw [hkcS, hkcE, c4,
        show (((k, eid) :: rest) ++ L1.map (fun p => ((p.1.2, p.1.1), p.2)))
          = (k, eid) :: (rest ++ L1.map (fun p => ((p.1.2, p.1.1), p.2))) from rfl,
        objDelete_cons,
        if_pos (show ((k, eid) : EKey × Nat).1 = (k.1, k.2) from Prod.mk.eta.symm),
        objDelete_append, hrestDel, hflipL1]
    set stD : St := vDeleteEdge (vDeleteEdge
        { stc with gEdges := rest ++ L1.map (fun p => ((p.1.2, p.1.1), p.2)) }
        ed.startV eid) ed.endV eid with hstD
    have hDelEq : deleteEdgeA stc eid = (stD, none) := by
      have h0 := deleteEdgeA_ok hedC hfoundC hsvC hevC
      rw [hDel] at h0
      exact h0
    have hDelEqB : deleteEdgeB stc eid = (stD, none) := by
      have h0 := deleteEdgeB_ok hedC hfoundC
      rw [hDel] at h0
      exact h0
    have hedR : objGet (edgeReverse stD eid).eheap eid = some (swapEnds ed) := by
      rw [edgeReverse_eheap_get, if_pos rfl]
      show (objGet stc.eheap eid).map swapEnds = some (swapEnds ed)
      rw [hedC]
      rfl
    have hedRx : ∀ x, ¬ x = eid →
        objGet (edgeReverse stD eid).eheap x = objGet stc.eheap x := by
      intro x hx
      rw [edgeReverse_eheap_get, if_neg hx]
      rfl
    have hc2R : ∀ x, (objGet (edgeReverse stD eid).vheap x).map (fun v => v.key)
        = (objGet st.vheap x).map (fun v => v.key) := by
      intro x
      show (objGet stD.vheap x).map (fun v => v.key) = _
      rw [hstD, keyOpt_vDeleteEdge, keyOpt_vDeleteEdge]
      show (objGet stc.vheap x).map (fun v => v.key) = _
      exact c2 x
    have hkRS : keyOf (edgeReverse stD eid) ed.endV = k.2 := by
      unfold keyOf
      rw [hc2R, ht]
      rfl
    have hkRE : keyOf (edgeReverse stD eid) ed.startV = k.1 := by
      unfold keyOf
      rw [hc2R, hs]
      rfl
    have hsvR2 : getVertexByKey (edgeReverse stD eid) (keyOf (edgeReverse stD eid) ed.endV)
        = some ed.endV := by
      show objGet (edgeReverse stD eid).gVertices (keyOf (edgeReverse stD eid) ed.endV)
        = some ed.endV
      rw [hkRS]
      show objGet stc.gVertices k.2 = some ed.endV
      rw [c1]
      exact hregE
    have hevR2 : getVertexByKey (edgeReverse stD eid) (keyOf (edgeReverse stD eid) ed.startV)
        = some ed.startV := by
      show objGet (edgeReverse stD eid).gVertices (keyOf (edgeReverse stD eid) ed.startV)
        = some ed.startV
      rw [hkRE]
      show objGet stc.gVertices k.1 = some ed.startV
      rw [c1]
      exact hregS
    have hflipNotMem : ¬ ((k.2, k.1) : EKey) ∈
        objKeys (rest ++ L1.map (fun p => ((p.1.2, p.1.1), p.2))) := by
      intro hm
      unfold objKeys at hm
      rw [List.map_append] at hm
      rcases List.mem_append.mp hm with hr | hf
      · obtain ⟨q, hq, hqe⟩ := List.mem_map.mp hr
        have hqmem : (k.2, k.1) ∈ ekeys st := by
          show (k.2, k.1) ∈ objKeys st.gEdges
          rw [hsplit]
          unfold objKeys
          rw [List.map_append, List.map_cons]
          refine List.mem_append.mpr (Or.inr (List.mem_cons_of_mem _ ?_))
          rw [← hqe]
          exact List.mem_map_of_mem _ hq
        have hkk : k.2 = k.1 := hanti (k.2, k.1) hqmem
          (by show ((k.1, k.2) : EKey) ∈ ekeys st
              rw [Prod.mk.eta]
              exact hkmemSt)
        apply hkRest
        rw [show k = ((k.2, k.1) : EKey) from (Prod.ext hkk hkk.symm).symm, ← hqe]
        exact List.mem_map_of_mem _ hq
      · rw [List.map_map] at hf
        obtain ⟨q, hqL1, hqe⟩ := List.mem_map.mp hf
        have hqe2 : ((q.1.2, q.1.1) : EKey) = (k.2, k.1) := hqe
        injection hqe2 with ha hb
        have hq1 : q.1 = k := by
          rw [show k = ((k.1, k.2) : EKey) from Prod.mk.eta.symm]
          exact Prod.ext hb ha
        apply hkL1
        rw [← hq1]
        exact List.mem_map_of_mem _ hqL1
    have hfreeN : (objGet (rest ++ L1.map (fun p => ((p.1.2, p.1.1), p.2)))
        ((k.2, k.1) : EKey)).isSome = false := by
      cases hx : (objGet (rest ++ L1.map (fun p => ((p.1.2, p.1.1), p.2)))
          ((k.2, k.1) : EKey)).isSome with
      | false => rfl
      | true => exact absurd ((objGet_isSome_iff _ _).mp hx) hflipNotMem
    set stX : St := { edgeReverse stD eid with gEdges :=
        (rest ++ L1.map (fun p => ((p.1.2, p.1.1), p.2))) ++ [(((k.2, k.1) : EKey), eid)] }
      with hstX
    set stN : St := (if stc.isDirected = true then vAddEdge stX ed.endV eid
        else vAddEdge (vAddEdge stX ed.endV eid) ed.startV eid) with hstN
    have hkRS2 : keyOf (edgeReverse stD eid) (swapEnds ed).startV = k.2 := hkRS
    have hkRE2 : keyOf (edgeReverse stD eid) (swapEnds ed).endV = k.1 := hkRE
    have hCond : (edgeReverse stD eid).isDirected = st.isDirected := c3
    have hAdd0 : addEdgeA (edgeReverse stD eid) eid = (stN, none) := by
      rw [hstN]
      have h0 := addEdgeA_ok_eq hedR hsvR2 hevR2
        (by show (objGet (edgeReverse stD eid).gEdges
              (keyOf (edgeReverse stD eid) ed.endV,
               keyOf (edgeReverse stD eid) ed.startV)).isSome = false
            rw [hkRS, hkRE]
            exact hfreeN)
      rw [hkRS2, hkRE2,
        show (edgeReverse stD eid).gEdges
          = rest ++ L1.map (fun p => ((p.1.2, p.1.1), p.2)) from rfl,
        objSet_of_not_mem eid hflipNotMem] at h0
      exact h0
    have hAdd0B : addEdgeB (edgeReverse stD eid) eid = (stN, none) := by
      rw [hstN]
      have h0 := addEdgeB_ok_eq hedR hsvR2 hevR2
        (by show (objGet (edgeReverse stD eid).gEdges
              (keyOf (edgeReverse stD eid) ed.endV,
               keyOf (edgeReverse stD eid) ed.startV)).isSome = false
            rw [hkRS, hkRE]
            exact hfreeN)
      rw [hkRS2, hkRE2,
        show (edgeReverse stD eid).gEdges
          = rest ++ L1.map (fun p => ((p.1.2, p.1.1), p.2)) from rfl,
        objSet_of_not_mem eid hflipNotMem] at h0
      exact h0
    have hstepA : reverseStepsA stc (((k, eid) :: rest).map (fun p => p.2))
        = reverseStepsA stN (rest.map (fun p => p.2)) := by
      show reverseStepsA stc (eid :: rest.map (fun p => p.2))
        = reverseStepsA stN (rest.map (fun p => p.2))
      simp only [reverseStepsA]
      rw [hDelEq]
      show (match addEdgeA (edgeReverse stD eid) eid with
        | (st3, some e) => (st3, some e)
        | (st3, none) => reverseStepsA st3 (rest.map (fun p => p.2)))
        = reverseStepsA stN (rest.map (fun p => p.2))
      rw [hAdd0]
    have hstepB : reverseStepsB stc (((k, eid) :: rest).map (fun p => p.2))
        = reverseStepsB stN (rest.map (fun p => p.2)) := by
      show reverseStepsB stc (eid :: rest.map (fun p => p.2))
        = reverseStepsB stN (rest.map (fun p => p.2))
      simp only [reverseStepsB]
      rw [hDelEqB]
      show (match addEdgeB (edgeReverse stD eid) eid with
        | (st3, some e) => (st3, some e)
        | (st3, none) => reverseStepsB st3 (rest.map (fun p => p.2)))
        = reverseStepsB stN (rest.map (fun p => p.2))
      rw [hAdd0B]
    have hgVN : stN.gVertices = st.gVertices := by
      rw [hstN]
      by_cases hd : stc.isDirected = true
      · rw [if_pos hd]
        exact c1
      · rw [if_neg hd]
        exact c1
    have hdirN : stN.isDirected = st.isDirected := by
      rw [hstN]
      by_cases hd : stc.isDirected = true
      · rw [if_pos hd]
        exact c3
      · rw [if_neg hd]
        exact c3
    have hc2N : ∀ x, (objGet stN.vheap x).map (fun v => v.key)
        = (objGet st.vheap x).map (fun v => v.key) := by
      intro x
      rw [hstN]
      by_cases hd : stc.isDirected = true
      · rw [if_pos hd, keyOpt_vAddEdge]
        show (objGet (edgeReverse stD eid).vheap x).map (fun v => v.key) = _
        exact hc2R x
      · rw [if_neg hd, keyOpt_vAddEdge, keyOpt_vAddEdge]
        show (objGet (edgeReverse stD eid).vheap x).map (fun v => v.key) = _
        exact hc2R x
    have hbaseE : ((rest ++ L1.map (fun p => ((p.1.2, p.1.1), p.2)))
          ++ [(((k.2, k.1) : EKey), eid)])
        = rest ++ (L1 ++ [((k, eid) : EKey × Nat)]).map (fun p => ((p.1.2, p.1.1), p.2)) := by
      rw [List.map_append, List.append_assoc]
      rfl
    have hgEN : stN.gEdges
        = rest ++ (L1 ++ [((k, eid) : EKey × Nat)]).map (fun p => ((p.1.2, p.1.1), p.2)) := by
      rw [hstN]
      by_cases hd : stc.isDirected = true
      · rw [if_pos hd]
        show ((rest ++ L1.map (fun p => ((p.1.2, p.1.1), p.2)))
          ++ [(((k.2, k.1) : EKey), eid)]) = _
        exact hbaseE
      · rw [if_neg hd]
        show ((rest ++ L1.map (fun p => ((p.1.2, p.1.1), p.2)))
          ++ [(((k.2, k.1) : EKey), eid)]) = _
        exact hbaseE
    have heN : ∀ x, objGet stN.eheap x = objGet (edgeReverse stD eid).eheap x := by
      intro x
      rw [hstN]
      by_cases hd : stc.isDirected = true
      · rw [if_pos hd]
        rfl
      · rw [if_neg hd]
        rfl
    have hc5N : ∀ x, ¬ x ∈ (L1 ++ [((k, eid) : EKey × Nat)]).map (fun p => p.2) →
        objGet stN.eheap x = objGet st.eheap x := by
      intro x hx
      rw [heN x]
      have hxeid : ¬ x = eid := by
        intro hxe
        apply hx
        rw [List.map_append]
        refine List.mem_append.mpr (Or.inr ?_)
        rw [hxe]
        exact List.mem_cons_self _ _
      rw [hedRx x hxeid]
      apply c5
      intro hm
      apply hx
      rw [List.map_append]
      exact List.mem_append.mpr (Or.inl hm)
    have hc6N : ∀ x, x ∈ (L1 ++ [((k, eid) : EKey × Nat)]).map (fun p => p.2) →
        objGet stN.eheap x = (objGet st.eheap x).map swapEnds := by
      intro x hx
      rw [heN x]
      by_cases hxe : x = eid
      · subst hxe
        rw [hedR, hedO]
        rfl
      · rw [hedRx x hxe]
        apply c6
        rw [List.map_append] at hx
        rcases List.mem_append.mp hx with h1 | h1
        · exact h1
        · exfalso
          apply hxe
          have h2 : x ∈ [((k, eid) : EKey × Nat).2] := h1
          exact List.mem_singleton.mp h2
    have hc7N : st.isDirected = false →
        ∀ vid x, (x ∈ adjOf stN vid ↔ x ∈ adjOf st vid) := by
      intro hundir vid x
      have hincA : IncidA st := hinc hundir
      have hincS : eid ∈ adjOf st ed.startV :=
        hincA (k, eid) hmemP (k.1, ed.startV) (objGet_mem_of_some hregS) (Or.inl rfl)
      have hincE : eid ∈ adjOf st ed.endV :=
        hincA (k, eid) hmemP (k.2, ed.endV) (objGet_mem_of_some hregE) (Or.inr rfl)
      have hmap1 : (objGet (vAddEdge stX ed.endV eid).vheap ed.startV).map (fun v => v.key)
          = some k.1 := by
        rw [keyOpt_vAddEdge]
        show (objGet (edgeReverse stD eid).vheap ed.startV).map (fun v => v.key) = some k.1
        rw [hc2R, hs]
      have hvh1 : (objGet (vAddEdge stX ed.endV eid).vheap ed.startV).isSome = true :=
        isSome_of_mapkey hmap1
      have hmap0 : (objGet stX.vheap ed.endV).map (fun v => v.key) = some k.2 := by
        show (objGet (edgeReverse stD eid).vheap ed.endV).map (fun v => v.key) = some k.2
        rw [hc2R, ht]
      have hvh0 : (objGet stX.vheap ed.endV).isSome = true := isSome_of_mapkey hmap0
      rw [hstN, if_neg (show ¬ stc.isDirected = true from by simp [c3, hundir])]
      rw [mem_adjOf_vAddEdge (vAddEdge stX ed.endV eid) ed.startV eid vid x hvh1]
      rw [mem_adjOf_vAddEdge stX ed.endV eid vid x hvh0]
      have hadjX : adjOf stX vid = adjOf stD vid := rfl
      rw [hadjX, hstD, mem_adjOf_vDeleteEdge, mem_adjOf_vDeleteEdge]
      have hadjC : adjOf
          { stc with gEdges := rest ++ L1.map (fun p => ((p.1.2, p.1.1), p.2)) } vid
          = adjOf stc vid := rfl
      rw [hadjC, c7 hundir vid x]
      constructor
      · rintro ((⟨⟨hm, h1⟩, h2⟩ | ⟨hv2, hx2⟩) | ⟨hv2, hx2⟩)
        · exact hm
        · rw [hv2, hx2]
          exact hincE
        · rw [hv2, hx2]
          exact hincS
      · intro hm
        by_cases hxe : x = eid
        · by_cases hv1 : vid = ed.startV
          · exact Or.inr ⟨hv1, hxe⟩
          · by_cases hv2 : vid = ed.endV
            · exact Or.inl (Or.inr ⟨hv2, hxe⟩)
            · exact Or.inl (Or.inl ⟨⟨hm, fun hc => hv1 hc.1⟩, fun hc => hv2 hc.1⟩)
        · exact Or.inl (Or.inl ⟨⟨hm, fun hc => hxe hc.2⟩, fun hc => hxe hc.2⟩)
    have hsplit2 : st.gEdges = (L1 ++ [((k, eid) : EKey × Nat)]) ++ rest := by
      rw [List.append_assoc]
      exact hsplit
    obtain ⟨stf, hfA, hfB, f1, f2, f3, f4, f5, f6, f7⟩ :=
      ih (L1 ++ [((k, eid) : EKey × Nat)]) stN hsplit2 hgVN hdirN hc2N hgEN hc5N hc6N hc7N
    refine ⟨stf, ?_, ?_, f1, f2, f3, ?_, ?_, ?_, f7⟩
    · rw [hstepA]
      exact hfA
    · rw [hstepB]
      exact hfB
    · rw [List.append_assoc] at f4
      exact f4
    · intro x hx
      apply f5
      intro hm
      apply hx
      rw [List.append_assoc] at hm
      exact hm
    · intro x hx
      apply f6
      rw [List.append_assoc]
      exact hx

theorem edgeKeyChk_of_parts {st : St} {eid : Nat} {ed : EdgeData} {a b : VKey}
    (hed : objGet st.eheap eid = some ed)
    (hA : (objGet st.vheap ed.startV).map (fun v => v.key) = some a)
    (hB : (objGet st.vheap ed.endV).map (fun v => v.key) = some b) :
    edgeKeyChk st eid = some (a, b) := by
  unfold edgeKeyChk
  rw [hed, Option.some_bind]
  show ((objGet st.vheap ed.startV).map (fun v => v.key)).bind (fun x =>
    ((objGet st.vheap ed.endV).map (fun v => v.key)).map (fun y => (x, y))) = some (a, b)
  rw [hA, Option.some_bind]
  show ((objGet st.vheap ed.endV).map (fun v => v.key)).map (fun y => (a, y)) = some (a, b)
  rw [hB, Option.map_some']

set_option maxHeartbeats 2000000 in
/-- Claim C4, amended: on a well-formed graph with no pair of registered
edges carrying mutually reversed keys (antiparallel edges), both variants
of reverse complete without throwing and produce the same state: a single
reverse re-registers every edge under its reversed key with its endpoints
swapped in place, so for a directed graph applying reverse twice returns
the edge registry to exactly its original entries and restores every
registered edge's endpoints to their original values, and for an
undirected graph a single reverse is an identity on the observable
adjacency (the same edges are incident to the same vertices).  Without
the antiparallel proviso the round trip fails: re-adding a reversed edge
collides with the antiparallel edge's registry key, reverse throws
mid-loop, and the half-reversed graph never returns to its original
state (see the counterexample). -/
theorem reverse_round_trip (st : St) (he : EdgeOk st) (hndEK : NodupEK st)
    (hndEI : NodupEId st) (hanti : AntisymEK st)
    (hreg : ∀ p ∈ st.gEdges,
      objGet st.gVertices p.1.1 = (objGet st.eheap p.2).map (fun ed => ed.startV) ∧
      objGet st.gVertices p.1.2 = (objGet st.eheap p.2).map (fun ed => ed.endV))
    (hinc : st.isDirected = false → IncidA st) :
    ∃ st1 st2, reverseA st = (st1, none) ∧ reverseB st = (st1, none) ∧
      reverseA st1 = (st2, none) ∧ reverseB st1 = (st2, none) ∧
      st1.gEdges = st.gEdges.map (fun p => ((p.1.2, p.1.1), p.2)) ∧
      st2.gEdges = st.gEdges ∧
      (∀ x ∈ objValues st.gEdges, objGet st2.eheap x = objGet st.eheap x) ∧
      (st.isDirected = false →
        ∀ vid x, (x ∈ adjOf st1 vid ↔ x ∈ adjOf st vid)) := by
  obtain ⟨st1, hA1, hB1, g1, d1, k1, e1, h5, h6, h7⟩ :=
    reverseSteps_loop st he hndEK hndEI hanti hreg hinc st.gEdges [] st rfl rfl rfl
      (fun x => rfl) ((List.append_nil st.gEdges).symm)
      (fun x _ => rfl) (fun x hx => absurd hx (List.not_mem_nil x))
      (fun _ vid x => Iff.rfl)
  have e1' : st1.gEdges = st.gEdges.map (fun p => ((p.1.2, p.1.1), p.2)) := e1
  have h6' : ∀ x, x ∈ st.gEdges.map (fun p => p.2) →
      objGet st1.eheap x = (objGet st.eheap x).map swapEnds := h6
  have he1 : EdgeOk st1 := by
    intro p hp
    rw [e1'] at hp
    obtain ⟨q, hq, hqe⟩ := List.mem_map.mp hp
    obtain ⟨ed, hedO, hs, ht⟩ := edgeKeyChk_extract (he q hq)
    have hqid : q.2 ∈ st.gEdges.map (fun p2 => p2.2) := List.mem_map_of_mem _ hq
    have hed1 : objGet st1.eheap q.2 = some (swapEnds ed) := by
      rw [h6' q.2 hqid, hedO]
      rfl
    have hs1 : (objGet st1.vheap (swapEnds ed).startV).map (fun v => v.key)
        = some q.1.2 := by
      rw [k1]
      show (objGet st.vheap ed.endV).map (fun v => v.key) = some q.1.2
      exact ht
    have ht1 : (objGet st1.vheap (swapEnds ed).endV).map (fun v => v.key)
        = some q.1.1 := by
      rw [k1]
      show (objGet st.vheap ed.startV).map (fun v => v.key) = some q.1.1
      exact hs
    have hchk := edgeKeyChk_of_parts hed1 hs1 ht1
    rw [← hqe]
    exact hchk
  have hek1 : ekeys st1 = (ekeys st).map (fun k2 => (k2.2, k2.1)) := by
    show objKeys st1.gEdges = (objKeys st.gEdges).map (fun k2 => (k2.2, k2.1))
    rw [e1']
    unfold objKeys
    rw [List.map_map, List.map_map]
    rfl
  have hndEK1 : NodupEK st1 := by
    show (ekeys st1).Nodup
    rw [hek1]
    exact List.Nodup.map (fun a b h2 => by
      injection h2 with x y
      exact Prod.ext y x) hndEK
  have hndEI1 : NodupEId st1 := by
    show (objValues st1.gEdges).Nodup
    rw [e1']
    unfold objValues
    rw [List.map_map]
    exact hndEI
  have hswapmem : ∀ k2 : EKey, k2 ∈ ekeys st1 → (k2.2, k2.1) ∈ ekeys st := by
    intro k2 hm
    rw [hek1] at hm
    obtain ⟨j, hj, hje⟩ := List.mem_map.mp hm
    rw [← hje]
    exact hj
  have hanti1 : AntisymEK st1 := by
    intro k2 hm hm2
    have h1 := hswapmem k2 hm
    have h2 : ((k2.1, k2.2) : EKey) ∈ ekeys st := hswapmem (k2.2, k2.1) hm2
    have h3 := hanti (k2.2, k2.1) h1 h2
    have h4 : k2.2 = k2.1 := h3
    exact h4.symm
  have hreg1 : ∀ p ∈ st1.gEdges,
      objGet st1.gVertices p.1.1 = (objGet st1.eheap p.2).map (fun ed => ed.startV) ∧
      objGet st1.gVertices p.1.2 = (objGet st1.eheap p.2).map (fun ed => ed.endV) := by
    intro p hp
    rw [e1'] at hp
    obtain ⟨q, hq, hqe⟩ := List.mem_map.mp hp
    have hqid : q.2 ∈ st.gEdges.map (fun p2 => p2.2) := List.mem_map_of_mem _ hq
    have hh := hreg q hq
    rw [← hqe]
    constructor
    · show objGet st1.gVertices q.1.2 = (objGet st1.eheap q.2).map (fun ed => ed.startV)
      rw [g1, h6' q.2 hqid, hh.2]
      cases objGet st.eheap q.2 with
      | none => rfl
      | some ed2 => rfl
    · show objGet st1.gVertices q.1.1 = (objGet st1.eheap q.2).map (fun ed => ed.endV)
      rw [g1, h6' q.2 hqid, hh.1]
      cases objGet st.eheap q.2 with
      | none => rfl
      | some ed2 => rfl
  have hinc1 : st1.isDirected = false → IncidA st1 := by
    intro hun1
    have hun : st.isDirected = false := by
      rw [← d1]
      exact hun1
    have hincA := hinc hun
    intro p hp r hr hside
    rw [e1'] at hp
    obtain ⟨q, hq, hqe⟩ := List.mem_map.mp hp
    have hr' : r ∈ st.gVertices := by
      rw [← g1]
      exact hr
    have hmem2 : q.2 ∈ adjOf st r.2 := by
      apply hincA q hq r hr'
      rcases hside with hh | hh
      · right
        rw [← hqe] at hh
        exact hh
      · left
        rw [← hqe] at hh
        exact hh
    rw [← hqe]
    show q.2 ∈ adjOf st1 r.2
    exact (h7 hun r.2 q.2).mpr hmem2
  obtain ⟨st2, hA2, hB2, g2, d2, k2f, e2, h52, h62, h72⟩ :=
    reverseSteps_loop st1 he1 hndEK1 hndEI1 hanti1 hreg1 hinc1 st1.gEdges [] st1 rfl rfl rfl
      (fun x => rfl) ((List.append_nil st1.gEdges).symm)
      (fun x _ => rfl) (fun x hx => absurd hx (List.not_mem_nil x))
      (fun _ vid x => Iff.rfl)
  have e2' : st2.gEdges = st1.gEdges.map (fun p => ((p.1.2, p.1.1), p.2)) := e2
  have h62' : ∀ x, x ∈ st1.gEdges.map (fun p => p.2) →
      objGet st2.eheap x = (objGet st1.eheap x).map swapEnds := h62
  refine ⟨st1, st2, hA1, hB1, hA2, hB2, e1', ?_, ?_, fun hun => h7 hun⟩
  · rw [e2', e1', flip_flip_map]
  · intro x hx
    have hx1 : x ∈ st.gEdges.map (fun p => p.2) := hx
    have hx2 : x ∈ st1.gEdges.map (fun p => p.2) := by
      rw [e1', List.map_map]
      exact hx1
    rw [h62' x hx2, h6' x hx1]
    cases objGet st.eheap x with
    | none => rfl
    | some ed2 => rfl

/-- Counterexample to claim C4 as stated: in the directed graph with the
antiparallel registered edges 10 keyed `(a, b)` and 11 keyed `(b, a)`,
reverse throws a duplicate-edge error in both variants while re-adding
the reversed edge 10, and applying reverse twice does not restore the
graph: edge 10 keeps its swapped endpoints and the registry has lost its
`(a, b)` entry. -/
theorem reverse_antiparallel_cex :
    (addEdgeA exA 10).2 = none ∧
    (addEdgeA (addEdgeA exA 10).1 11).2 = none ∧
    (addEdgeA (addEdgeA exA 10).1 11).1.gEdges = [(("a", "b"), 10), (("b", "a"), 11)] ∧
    objGet (addEdgeA (addEdgeA exA 10).1 11).1.eheap 10 = some ⟨0, 1, 5⟩ ∧
    (reverseA (addEdgeA (addEdgeA exA 10).1 11).1).2 = some GErr.duplicateEdge ∧
    (reverseB (addEdgeA (addEdgeA exA 10).1 11).1).2 = some GErr.duplicateEdge ∧
    (reverseA (reverseA (addEdgeA (addEdgeA exA 10).1 11).1).1).2 = none ∧
    objGet (reverseA (reverseA (addEdgeA (addEdgeA exA 10).1 11).1).1).1.eheap 10
      = some ⟨1, 0, 5⟩ ∧
    (reverseA (reverseA (addEdgeA (addEdgeA exA 10).1 11).1).1).1.gEdges
      = [(("a", "b"), 11)] := by decide

/-- Witness for `reverse_round_trip` on the concrete directed graph
`exC5` after successfully adding its edge 10. -/
theorem reverse_round_trip_witness :
    EdgeOk (addEdgeA exC5 10).1 ∧ AntisymEK (addEdgeA exC5 10).1 ∧
    (∃ st1 st2, reverseA (addEdgeA exC5 10).1 = (st1, none) ∧
      reverseB (addEdgeA exC5 10).1 = (st1, none) ∧
      reverseA st1 = (st2, none) ∧ reverseB st1 = (st2, none) ∧
      st1.gEdges = (addEdgeA exC5 10).1.gEdges.map (fun p => ((p.1.2, p.1.1), p.2)) ∧
      st2.gEdges = (addEdgeA exC5 10).1.gEdges ∧
      (∀ x ∈ objValues (addEdgeA exC5 10).1.gEdges,
        objGet st2.eheap x = objGet (addEdgeA exC5 10).1.eheap x) ∧
      ((addEdgeA exC5 10).1.isDirected = false →
        ∀ vid x, (x ∈ adjOf st1 vid ↔ x ∈ adjOf (addEdgeA exC5 10).1 vid))) :=
  ⟨by decide, by decide,
    reverse_round_trip (addEdgeA exC5 10).1 (by decide) (by decide) (by decide)
      (by decide) (by decide) (by decide)⟩
